import Mathlib

/-!
# Verification of the binary-buddy physical page allocator

This file embeds `src/kernel/buddy_alloc.c` (the buddy allocator of the
repository) as pure Lean functions and proves the specified properties.

The embedding choices:
* node identities are the indices of the flat `nodes` array (`Nat`);
* the structural fields set once by `buddy_init` (`lvl`, `size`, `memory`,
  `parent`, children, `neighbour`) are pure functions of the node id, defined
  by the same recurrences the init loop uses (each node's value is computed
  from its parent's, which the loop has already set);
* the mutable per-node fields (`state`, `prev`, `next`) and the per-level
  free-list heads and counters form the `BuddyState` record; C null pointers
  are `Option.none`;
* `panic` never returns, so `buddy_free` returns the state at the point the
  run stops together with a Boolean that is `true` exactly on the panicking
  runs; `buddy_alloc` returns the C return value (`Option Nat`, `none` for
  the C null pointer), the final state, and whether the lock was acquired;
* loops are translated as fuel-indexed recursions whose fuel provably covers
  every iteration count the C loop can perform (the tree has `DEPTH = 15`
  levels, every loop walks one level per iteration).
-/

namespace BuddyAlloc

/-- `PAGES 512 * 32`, from `#define PAGES 512 * 32` in buddy_alloc.c. -/
def PAGES : Nat := 512 * 32

/-- `NODES = 2 * PAGES - 1`, the node count of the buddy tree. -/
def NODES : Nat := 2 * PAGES - 1

/-- `DEPTH = 15`, the number of levels of the buddy tree. -/
def DEPTH : Nat := 15

/-- Modelled from the spec: `PAGE_SIZE` is the compile-time page size in
bytes; the configuration used throughout the spec is 4096 (`riscv.h` is not
part of this repository). -/
def PGSIZE : Nat := 4096

/-- Modelled from the spec: `page_align_up` (`PGROUNDUP` of `riscv.h`, not
part of this repository) rounds a byte address up to page alignment. -/
def PGROUNDUP (a : Nat) : Nat := ((a + PGSIZE - 1) / PGSIZE) * PGSIZE

/-- Heap index of the parent: `(id - 1) / 2`; the root is its own parent. -/
def parentId (id : Nat) : Nat := (id - 1) / 2

/-- Heap index of the left child, `2 * id + 1`. -/
def leftId (id : Nat) : Nat := 2 * id + 1

/-- Heap index of the right child, `2 * id + 2`. -/
def rightId (id : Nat) : Nat := 2 * id + 2

/-- The `neighbour` field set by `buddy_init`: the root points to itself,
an odd-id node to `id + 1`, an even-id node to `id - 1`. -/
def neighbourId (id : Nat) : Nat :=
  if id = 0 then id else if id % 2 = 1 then id + 1 else id - 1

/-- Fuel-indexed computation of the `lvl` field: the root has `DEPTH - 1`,
every other node has its parent's level minus one (the init loop processes
ids in increasing order, so the parent's field is already set).  Fuel `id`
always suffices because `parentId (id+1) = id / 2 ≤ id - 1` for `id ≥ 1`. -/
def nodeLvlGo : Nat → Nat → Nat
  | _, 0 => DEPTH - 1
  | 0, _ + 1 => 0
  | fuel + 1, id + 1 => nodeLvlGo fuel (parentId (id + 1)) - 1

/-- The `lvl` field of node `id`. -/
def nodeLvl (id : Nat) : Nat := nodeLvlGo id id

/-- Fuel-indexed computation of the `size` field: the root covers `PAGES`
pages, every other node half of its parent's pages. -/
def nodeSizeGo : Nat → Nat → Nat
  | _, 0 => PAGES
  | 0, _ + 1 => 0
  | fuel + 1, id + 1 => nodeSizeGo fuel (parentId (id + 1)) / 2

/-- The `size` field of node `id` (pages covered). -/
def nodeSize (id : Nat) : Nat := nodeSizeGo id id

/-- Fuel-indexed computation of the `memory` field: the root gets
`PGROUNDUP end`; an odd-id (left) child inherits the parent's `memory`, an
even-id (right) child gets `parent.memory + size * PGSIZE`. -/
def nodeMemGo (base : Nat) : Nat → Nat → Nat
  | _, 0 => base
  | 0, _ + 1 => base
  | fuel + 1, id + 1 =>
    if (id + 1) % 2 = 1 then nodeMemGo base fuel (parentId (id + 1))
    else nodeMemGo base fuel (parentId (id + 1)) + nodeSize (id + 1) * PGSIZE

/-- The `memory` field of node `id`, for arena base `base = PGROUNDUP end`. -/
def nodeMem (base : Nat) (id : Nat) : Nat := nodeMemGo base id id

/-- The `left_child` pointer set by `buddy_init`: only nodes with
`id < NODES / 2` get children, leaves get null. -/
def leftChild (id : Nat) : Option Nat :=
  if id < NODES / 2 then some (leftId id) else none

/-- The `right_child` pointer set by `buddy_init`. -/
def rightChild (id : Nat) : Option Nat :=
  if id < NODES / 2 then some (rightId id) else none

/-! ## Fuel invariance and recurrences of the structural fields -/

theorem parentId_lt {id : Nat} (h : 0 < id) : parentId id < id := by
  unfold parentId; omega

theorem nodeLvlGo_fuel (fuel id : Nat) (h : id ≤ fuel) :
    nodeLvlGo fuel id = nodeLvl id := by
  induction id using Nat.strong_induction_on generalizing fuel with
  | _ id ih =>
    match id, fuel with
    | 0, fuel => cases fuel <;> rfl
    | id + 1, fuel + 1 =>
      show nodeLvlGo fuel (parentId (id + 1)) - 1 = nodeLvlGo (id + 1) (id + 1)
      rw [show nodeLvlGo (id+1) (id+1) = nodeLvlGo id (parentId (id+1)) - 1 from rfl]
      rw [ih (parentId (id+1)) (by unfold parentId; omega) fuel (by unfold parentId; omega),
          ih (parentId (id+1)) (by unfold parentId; omega) id (by unfold parentId; omega)]

theorem nodeSizeGo_fuel (fuel id : Nat) (h : id ≤ fuel) :
    nodeSizeGo fuel id = nodeSize id := by
  induction id using Nat.strong_induction_on generalizing fuel with
  | _ id ih =>
    match id, fuel with
    | 0, fuel => cases fuel <;> rfl
    | id + 1, fuel + 1 =>
      show nodeSizeGo fuel (parentId (id + 1)) / 2 = nodeSizeGo (id + 1) (id + 1)
      rw [show nodeSizeGo (id+1) (id+1) = nodeSizeGo id (parentId (id+1)) / 2 from rfl]
      rw [ih (parentId (id+1)) (by unfold parentId; omega) fuel (by unfold parentId; omega),
          ih (parentId (id+1)) (by unfold parentId; omega) id (by unfold parentId; omega)]

theorem nodeMemGo_fuel (base fuel id : Nat) (h : id ≤ fuel) :
    nodeMemGo base fuel id = nodeMem base id := by
  induction id using Nat.strong_induction_on generalizing fuel with
  | _ id ih =>
    match id, fuel with
    | 0, fuel => cases fuel <;> rfl
    | id + 1, fuel + 1 =>
      have h1 : parentId (id + 1) ≤ fuel := by unfold parentId; omega
      have h2 : parentId (id + 1) ≤ id := by unfold parentId; omega
      have h3 : parentId (id + 1) < id + 1 := parentId_lt (by omega)
      show (if (id + 1) % 2 = 1 then nodeMemGo base fuel (parentId (id + 1))
        else nodeMemGo base fuel (parentId (id + 1)) + nodeSize (id + 1) * PGSIZE)
        = nodeMem base (id + 1)
      rw [show nodeMem base (id+1) =
        (if (id + 1) % 2 = 1 then nodeMemGo base id (parentId (id + 1))
         else nodeMemGo base id (parentId (id + 1)) + nodeSize (id + 1) * PGSIZE) from rfl]
      rw [ih (parentId (id+1)) h3 fuel h1, ih (parentId (id+1)) h3 id h2]

/-- The level recurrence: any nonzero node's level is its parent's minus 1. -/
theorem nodeLvl_succ (id : Nat) :
    nodeLvl (id + 1) = nodeLvl (parentId (id + 1)) - 1 := by
  show nodeLvlGo (id + 1) (id + 1) = _
  rw [show nodeLvlGo (id+1) (id+1) = nodeLvlGo id (parentId (id+1)) - 1 from rfl,
      nodeLvlGo_fuel id (parentId (id+1)) (by unfold parentId; omega)]

theorem nodeSize_succ (id : Nat) :
    nodeSize (id + 1) = nodeSize (parentId (id + 1)) / 2 := by
  show nodeSizeGo (id + 1) (id + 1) = _
  rw [show nodeSizeGo (id+1) (id+1) = nodeSizeGo id (parentId (id+1)) / 2 from rfl,
      nodeSizeGo_fuel id (parentId (id+1)) (by unfold parentId; omega)]

theorem nodeMem_succ (base id : Nat) :
    nodeMem base (id + 1) =
      (if (id + 1) % 2 = 1 then nodeMem base (parentId (id + 1))
       else nodeMem base (parentId (id + 1)) + nodeSize (id + 1) * PGSIZE) := by
  show nodeMemGo base (id + 1) (id + 1) = _
  rw [show nodeMemGo base (id+1) (id+1) =
    (if (id + 1) % 2 = 1 then nodeMemGo base id (parentId (id + 1))
     else nodeMemGo base id (parentId (id + 1)) + nodeSize (id + 1) * PGSIZE) from rfl,
      nodeMemGo_fuel base id (parentId (id+1)) (by unfold parentId; omega)]

theorem parentId_leftId (id : Nat) : parentId (leftId id) = id := by
  unfold parentId leftId; omega

theorem parentId_rightId (id : Nat) : parentId (rightId id) = id := by
  unfold parentId rightId; omega

theorem nodeLvl_leftId (id : Nat) : nodeLvl (leftId id) = nodeLvl id - 1 := by
  have h := nodeLvl_succ (2 * id)
  rw [show leftId id = 2 * id + 1 from rfl, h, show parentId (2*id+1) = id by unfold parentId; omega]

theorem nodeLvl_rightId (id : Nat) : nodeLvl (rightId id) = nodeLvl id - 1 := by
  have h := nodeLvl_succ (2 * id + 1)
  rw [show rightId id = 2 * id + 1 + 1 from rfl, h,
      show parentId (2*id+1+1) = id by unfold parentId; omega]

theorem nodeSize_leftId (id : Nat) : nodeSize (leftId id) = nodeSize id / 2 := by
  have h := nodeSize_succ (2 * id)
  rw [show leftId id = 2 * id + 1 from rfl, h, show parentId (2*id+1) = id by unfold parentId; omega]

theorem nodeSize_rightId (id : Nat) : nodeSize (rightId id) = nodeSize id / 2 := by
  have h := nodeSize_succ (2 * id + 1)
  rw [show rightId id = 2 * id + 1 + 1 from rfl, h,
      show parentId (2*id+1+1) = id by unfold parentId; omega]

theorem nodeMem_leftId (base id : Nat) : nodeMem base (leftId id) = nodeMem base id := by
  have h := nodeMem_succ base (2 * id)
  rw [show leftId id = 2 * id + 1 from rfl, h]
  rw [if_pos (by omega), show parentId (2*id+1) = id by unfold parentId; omega]

theorem nodeMem_rightId (base id : Nat) :
    nodeMem base (rightId id) = nodeMem base id + nodeSize (rightId id) * PGSIZE := by
  have h := nodeMem_succ base (2 * id + 1)
  rw [show rightId id = 2 * id + 1 + 1 from rfl, h]
  rw [if_neg (by omega), show parentId (2*id+1+1) = id by unfold parentId; omega]

/-! ## Level bounds and block geometry -/

theorem nodeLvl_le (j : Nat) : ∀ id, 2 ^ j ≤ id + 1 → nodeLvl id ≤ 14 - j := by
  induction j with
  | zero =>
    intro id _
    induction id using Nat.strong_induction_on with
    | _ id ih =>
      match id with
      | 0 => simp [nodeLvl, nodeLvlGo, DEPTH]
      | id + 1 =>
        rw [nodeLvl_succ]
        have := ih (parentId (id + 1)) (parentId_lt (by omega))
        omega
  | succ j ihj =>
    intro id h
    match id with
    | 0 => exfalso; have := Nat.one_le_two_pow (n := j + 1); omega
    | id + 1 =>
      rw [nodeLvl_succ]
      have hp : 2 ^ j ≤ parentId (id + 1) + 1 := by
        have : 2 * 2 ^ j ≤ id + 2 := by
          have : 2 ^ (j + 1) = 2 * 2 ^ j := by ring
          omega
        unfold parentId; omega
      have := ihj (parentId (id + 1)) hp
      omega

theorem nodeLvl_ge (j : Nat) : ∀ id, id + 1 < 2 ^ (j + 1) → 14 - j ≤ nodeLvl id := by
  induction j with
  | zero =>
    intro id h
    have : id = 0 := by omega
    subst this; simp [nodeLvl, nodeLvlGo, DEPTH]
  | succ j ihj =>
    intro id h
    match id with
    | 0 => simp [nodeLvl, nodeLvlGo, DEPTH]; omega
    | id + 1 =>
      rw [nodeLvl_succ]
      have hp : parentId (id + 1) + 1 < 2 ^ (j + 1) := by
        have : 2 ^ (j + 1 + 1) = 2 * 2 ^ (j + 1) := by ring
        unfold parentId; omega
      have := ihj (parentId (id + 1)) hp
      omega

theorem nodeLvl_le_14 (id : Nat) : nodeLvl id ≤ 14 := by
  have := nodeLvl_le 0 id (by simp)
  omega

theorem nodeLvl_eq_zero_of_ge {id : Nat} (h : PAGES - 1 ≤ id) : nodeLvl id = 0 := by
  have := nodeLvl_le 14 id (by simp [PAGES] at h ⊢; omega)
  omega

theorem nodeLvl_pos_of_lt {id : Nat} (h : id < PAGES - 1) : 1 ≤ nodeLvl id := by
  have := nodeLvl_ge 13 id (by simp [PAGES] at h ⊢; omega)
  omega

theorem lt_of_nodeLvl_pos {id : Nat} (h : 1 ≤ nodeLvl id) : id < PAGES - 1 := by
  by_contra hc
  have := nodeLvl_eq_zero_of_ge (show PAGES - 1 ≤ id by omega)
  omega

theorem rightId_lt_NODES {id : Nat} (h : 1 ≤ nodeLvl id) : rightId id < NODES := by
  have := lt_of_nodeLvl_pos h
  unfold rightId NODES PAGES at *
  simp [PAGES] at this
  omega

theorem eq_zero_of_nodeLvl_14 {id : Nat} (h : nodeLvl id = 14) : id = 0 := by
  by_contra hc
  have := nodeLvl_le 1 id (by simp; omega)
  omega

theorem nodeLvl_parent {id : Nat} (h1 : 1 ≤ id) (h2 : id < NODES) :
    nodeLvl (parentId id) = nodeLvl id + 1 := by
  have hp : parentId id < PAGES - 1 := by
    simp only [parentId, PAGES, NODES] at h2 ⊢; omega
  have hpos := nodeLvl_pos_of_lt hp
  match id, h1 with
  | id + 1, _ =>
    rw [nodeLvl_succ]
    omega

theorem nodeSize_eq_pow : ∀ id, id < NODES → nodeSize id = 2 ^ nodeLvl id := by
  intro id
  induction id using Nat.strong_induction_on with
  | _ id ih =>
    match id with
    | 0 =>
      intro _
      show nodeSize 0 = 2 ^ nodeLvl 0
      simp [nodeSize, nodeSizeGo, nodeLvl, nodeLvlGo, DEPTH, PAGES]
    | id + 1 =>
      intro h
      have hp2 : parentId (id + 1) < NODES := by
        have := parentId_lt (show 0 < id + 1 by omega); omega
      have hlvlp : nodeLvl (parentId (id + 1)) = nodeLvl (id + 1) + 1 :=
        nodeLvl_parent (by omega) h
      rw [nodeSize_succ, ih (parentId (id + 1)) (parentId_lt (by omega)) hp2, hlvlp]
      rw [pow_succ]
      omega

theorem nodeSize_pos {id : Nat} (h : id < NODES) : 1 ≤ nodeSize id := by
  rw [nodeSize_eq_pow id h]
  exact Nat.one_le_two_pow

/-- Iterated parent: the `j`-th ancestor of `v` (saturating at the root). -/
def pIter : Nat → Nat → Nat
  | 0, v => v
  | j + 1, v => pIter j (parentId v)

theorem pIter_succ_out (j v : Nat) : pIter (j + 1) v = parentId (pIter j v) := by
  induction j generalizing v with
  | zero => rfl
  | succ j ih => exact ih (parentId v)

theorem pIter_le (j v : Nat) : pIter j v ≤ v := by
  induction j generalizing v with
  | zero => exact Nat.le_refl v
  | succ j ih =>
    have h1 : parentId v ≤ v := by unfold parentId; omega
    exact Nat.le_trans (ih (parentId v)) h1

theorem pIter_lt_NODES {j v : Nat} (h : v < NODES) : pIter j v < NODES :=
  Nat.lt_of_le_of_lt (pIter_le j v) h

theorem pIter_parent_comm (i : Nat) : ∀ w, parentId (pIter i w) = pIter i (parentId w) := by
  induction i with
  | zero => intro w; rfl
  | succ i ih => intro w; exact ih (parentId w)

theorem pIter_add (i j v : Nat) : pIter (i + j) v = pIter i (pIter j v) := by
  induction j generalizing v i with
  | zero => rfl
  | succ j ih =>
    show pIter (i + j) (parentId v) = pIter i (pIter j (parentId v))
    apply ih

/-- An odd node is the left child of its parent. -/
theorem leftId_parentId {v : Nat} (h : v % 2 = 1) : leftId (parentId v) = v := by
  unfold leftId parentId; omega

/-- A nonzero even node is the right child of its parent. -/
theorem rightId_parentId {v : Nat} (h1 : 1 ≤ v) (h2 : v % 2 = 0) :
    rightId (parentId v) = v := by
  unfold rightId parentId; omega

/-- The two pages-sizes relation between a parent and its halves. -/
theorem nodeSize_parent_eq {v : Nat} (h1 : 1 ≤ v) (h2 : v < NODES) :
    nodeSize (parentId v) = 2 * nodeSize v := by
  have hp : parentId v < NODES := by
    have := parentId_lt (show 0 < v by omega); omega
  have hlvlp : nodeLvl (parentId v) = nodeLvl v + 1 := nodeLvl_parent h1 h2
  rw [nodeSize_eq_pow _ hp, nodeSize_eq_pow _ h2, hlvlp, pow_succ]
  ring

/-- A child's block is contained in its parent's block. -/
theorem child_contained (base : Nat) {v : Nat} (h1 : 1 ≤ v) (h2 : v < NODES) :
    nodeMem base (parentId v) ≤ nodeMem base v ∧
    nodeMem base v + nodeSize v * PGSIZE ≤
      nodeMem base (parentId v) + nodeSize (parentId v) * PGSIZE := by
  have hsz := nodeSize_parent_eq h1 h2
  match v, h1 with
  | v + 1, _ =>
    rw [nodeMem_succ]
    by_cases hpar : (v + 1) % 2 = 1
    · rw [if_pos hpar]
      constructor
      · exact Nat.le_refl _
      · have : nodeSize (v + 1) * PGSIZE ≤ nodeSize (parentId (v + 1)) * PGSIZE := by
          apply Nat.mul_le_mul_right; omega
        omega
    · rw [if_neg hpar]
      constructor
      · omega
      · have : nodeSize (v + 1) * PGSIZE + nodeSize (v + 1) * PGSIZE
            = nodeSize (parentId (v + 1)) * PGSIZE := by
          rw [hsz]; ring
        omega

/-- An ancestor's block contains the node's block. -/
theorem anc_contained (base : Nat) (j : Nat) : ∀ v, v < NODES →
    nodeMem base (pIter j v) ≤ nodeMem base v ∧
    nodeMem base v + nodeSize v * PGSIZE ≤
      nodeMem base (pIter j v) + nodeSize (pIter j v) * PGSIZE := by
  induction j with
  | zero => intro v _; exact ⟨Nat.le_refl _, Nat.le_refl _⟩
  | succ j ih =>
    intro v hv
    show nodeMem base (pIter j (parentId v)) ≤ _ ∧ _
    match v with
    | 0 => exact ih 0 hv
    | v + 1 =>
      have hp : parentId (v + 1) < NODES := by
        have := parentId_lt (show 0 < v + 1 by omega); omega
      have hc := child_contained base (v := v + 1) (by omega) hv
      have hi := ih (parentId (v + 1)) hp
      exact ⟨Nat.le_trans hi.1 hc.1, Nat.le_trans hc.2 hi.2⟩

/-- The left half ends exactly where the right half begins. -/
theorem sibling_split (base : Nat) (p : Nat) :
    nodeMem base (leftId p) + nodeSize (leftId p) * PGSIZE = nodeMem base (rightId p) := by
  rw [nodeMem_leftId, nodeMem_rightId, nodeSize_leftId, nodeSize_rightId]

/-- Distinct nodes at the same level have disjoint blocks. -/
theorem disj_same_lvl (base : Nat) : ∀ u v, u < NODES → v < NODES →
    nodeLvl u = nodeLvl v → u ≠ v →
    nodeMem base u + nodeSize u * PGSIZE ≤ nodeMem base v ∨
    nodeMem base v + nodeSize v * PGSIZE ≤ nodeMem base u := by
  have key : ∀ n u v, u + v ≤ n → u < NODES → v < NODES →
      nodeLvl u = nodeLvl v → u ≠ v →
      nodeMem base u + nodeSize u * PGSIZE ≤ nodeMem base v ∨
      nodeMem base v + nodeSize v * PGSIZE ≤ nodeMem base u := by
    intro n
    induction n with
    | zero => intro u v h _ _ _ hne; omega
    | succ n ih =>
      intro u v hn hu hv hlvl hne
      have hu1 : 1 ≤ u := by
        by_contra hc
        have hu0 : u = 0 := by omega
        subst hu0
        have : nodeLvl v = 14 := by
          have : nodeLvl 0 = 14 := by simp [nodeLvl, nodeLvlGo, DEPTH]
          omega
        exact hne (eq_zero_of_nodeLvl_14 this).symm
      have hv1 : 1 ≤ v := by
        by_contra hc
        have hv0 : v = 0 := by omega
        subst hv0
        have : nodeLvl u = 14 := by
          have : nodeLvl 0 = 14 := by simp [nodeLvl, nodeLvlGo, DEPTH]
          omega
        exact hne (eq_zero_of_nodeLvl_14 this)
      by_cases hpeq : parentId u = parentId v
      · -- siblings: one is the left child, the other the right child
        have hpl : 1 ≤ nodeLvl (parentId u) := by
          rw [nodeLvl_parent hu1 hu]; omega
        have hmod : u % 2 ≠ v % 2 := by
          intro hm; apply hne; unfold parentId at hpeq; omega
        rcases Nat.mod_two_eq_zero_or_one u with hu2 | hu2
        · have hv2 : v % 2 = 1 := by omega
          right
          have e1 : rightId (parentId u) = u := rightId_parentId hu1 hu2
          have e2 : leftId (parentId u) = v := by rw [hpeq]; exact leftId_parentId hv2
          have hsp := sibling_split base (parentId u)
          rw [e1, e2] at hsp
          omega
        · have hv2 : v % 2 = 0 := by omega
          left
          have e1 : leftId (parentId u) = u := leftId_parentId hu2
          have e2 : rightId (parentId u) = v := by rw [hpeq]; exact rightId_parentId hv1 hv2
          have hsp := sibling_split base (parentId u)
          rw [e1, e2] at hsp
          omega
      · -- distinct parents at the same level: recurse
        have hpu : parentId u < NODES := by
          have := parentId_lt (show 0 < u by omega); omega
        have hpv : parentId v < NODES := by
          have := parentId_lt (show 0 < v by omega); omega
        have hlvlp : nodeLvl (parentId u) = nodeLvl (parentId v) := by
          rw [nodeLvl_parent hu1 hu, nodeLvl_parent hv1 hv, hlvl]
        have hlt : parentId u + parentId v ≤ n := by
          have l1 := parentId_lt (show 0 < u by omega)
          have l2 := parentId_lt (show 0 < v by omega)
          omega
        have hd := ih (parentId u) (parentId v) hlt hpu hpv hlvlp hpeq
        have hcu := child_contained base hu1 hu
        have hcv := child_contained base hv1 hv
        rcases hd with hd | hd
        · left; omega
        · right; omega
  intro u v hu hv hlvl hne
  exact key (u + v) u v (Nat.le_refl _) hu hv hlvl hne

/-- The level of an iterated parent, as long as the chain stays within the
tree (does not pass the root). -/
theorem nodeLvl_pIter (j : Nat) : ∀ v, v < NODES → nodeLvl v + j ≤ 14 →
    nodeLvl (pIter j v) = nodeLvl v + j := by
  induction j with
  | zero => intro v _ _; rfl
  | succ j ih =>
    intro v hv hle
    have hv1 : 1 ≤ v := by
      by_contra hc
      have : v = 0 := by omega
      subst this
      have : nodeLvl 0 = 14 := by simp [nodeLvl, nodeLvlGo, DEPTH]
      omega
    have hp : parentId v < NODES := by
      have := parentId_lt (show 0 < v by omega); omega
    have hlp := nodeLvl_parent hv1 hv
    show nodeLvl (pIter j (parentId v)) = _
    rw [ih (parentId v) hp (by omega), hlp]
    omega

/-- Any two distinct nodes are in ancestor relation or have disjoint blocks. -/
theorem anc_or_disj (base : Nat) {u v : Nat} (hu : u < NODES) (hv : v < NODES)
    (hne : u ≠ v) :
    (∃ j, 1 ≤ j ∧ pIter j v = u) ∨ (∃ j, 1 ≤ j ∧ pIter j u = v) ∨
    (nodeMem base u + nodeSize u * PGSIZE ≤ nodeMem base v ∨
     nodeMem base v + nodeSize v * PGSIZE ≤ nodeMem base u) := by
  rcases Nat.le_total (nodeLvl v) (nodeLvl u) with hle | hle
  · -- u is at the same or a shallower level: lift v
    set d := nodeLvl u - nodeLvl v with hd
    have hlvl : nodeLvl (pIter d v) = nodeLvl u := by
      rw [nodeLvl_pIter d v hv (by have := nodeLvl_le_14 u; omega)]; omega
    by_cases heq : pIter d v = u
    · left
      refine ⟨d, ?_, heq⟩
      rcases Nat.eq_zero_or_pos d with h0 | h0
      · exfalso; apply hne; rw [← heq, h0]; rfl
      · omega
    · right; right
      have hdisj := disj_same_lvl base u (pIter d v) hu (pIter_lt_NODES hv) hlvl.symm
        (fun h => heq h.symm)
      have hcont := anc_contained base d v hv
      rcases hdisj with h | h
      · left; omega
      · right; omega
  · set d := nodeLvl v - nodeLvl u with hd
    have hlvl : nodeLvl (pIter d u) = nodeLvl v := by
      rw [nodeLvl_pIter d u hu (by have := nodeLvl_le_14 v; omega)]; omega
    by_cases heq : pIter d u = v
    · right; left
      refine ⟨d, ?_, heq⟩
      rcases Nat.eq_zero_or_pos d with h0 | h0
      · exfalso; apply hne; rw [← heq, h0]; rfl
      · omega
    · right; right
      have hdisj := disj_same_lvl base (pIter d u) v (pIter_lt_NODES hu) hv hlvl
        heq
      have hcont := anc_contained base d u hu
      rcases hdisj with h | h
      · left; omega
      · right; omega

/-! ## The mutable allocator state and the three operations -/

/-- Pointwise update of a function out of `Nat`. -/
def upd {α : Type} (f : Nat → α) (i : Nat) (v : α) : Nat → α :=
  fun j => if j = i then v else f j

@[simp] theorem upd_same {α : Type} (f : Nat → α) (i : Nat) (v : α) : upd f i v i = v := by
  simp [upd]

@[simp] theorem upd_ne {α : Type} (f : Nat → α) (i j : Nat) (v : α) (h : j ≠ i) :
    upd f i v j = f j := by
  simp [upd, h]

/-- The mutable part of `buddy_metadata`: per-node `state` (0 nonexistent,
1 used, 2 inner, 3 free), the free-list `prev`/`next` pointers, and the
per-level list heads `lists` and lengths `sizes` (a C `int`). -/
structure BuddyState where
  state : Nat → Nat
  prevP : Nat → Option Nat
  nextP : Nat → Option Nat
  lists : Nat → Option Nat
  sizes : Nat → Int

/-- `add_free_node` (buddy_alloc.c lines 49-57): push `n` at the head of the
free list of its level, fixing the old head's `prev` when it exists. -/
def add_free_node (s : BuddyState) (n : Nat) : BuddyState :=
  let s1 : BuddyState := { s with sizes := upd s.sizes (nodeLvl n) (s.sizes (nodeLvl n) + 1) }
  let s2 : BuddyState := { s1 with nextP := upd s1.nextP n (s1.lists (nodeLvl n)) }
  let s3 : BuddyState := { s2 with lists := upd s2.lists (nodeLvl n) (some n) }
  let s4 : BuddyState := { s3 with prevP := upd s3.prevP n none }
  match s4.nextP n with
  | some m => { s4 with prevP := upd s4.prevP m (some n) }
  | none => s4

/-- The O(1) doubly-linked-list removal that appears verbatim at both
removal sites (buddy_alloc.c lines 166-174 for the coalesced buddy and
lines 221-229 for the node taken off the head of a list): fix the
neighbouring `prev`/`next` pointers (or the list head) and decrement the
level's count.  The two sites clear the removed node's own pointers
afterwards, so that is left to the call sites. -/
def unlink (s : BuddyState) (n : Nat) : BuddyState :=
  let s1 : BuddyState :=
    match s.prevP n with
    | some p => { s with nextP := upd s.nextP p (s.nextP n) }
    | none => { s with lists := upd s.lists (nodeLvl n) (s.nextP n) }
  let s2 : BuddyState :=
    match s1.nextP n with
    | some m => { s1 with prevP := upd s1.prevP m (s1.prevP n) }
    | none => s1
  { s2 with sizes := upd s2.sizes (nodeLvl n) (s2.sizes (nodeLvl n) - 1) }

/-- The coalescing loop of `buddy_free` (lines 162-178): while the current
node is not the root and its buddy is free, mark both nonexistent, unlink
the buddy from its free list, clear the buddy's pointers and ascend.  The
fuel counts remaining iterations; `DEPTH` covers every run that starts at a
node of the tree because each iteration moves one level up. -/
def coalesceGo : Nat → BuddyState → Nat → BuddyState × Nat
  | 0, s, id => (s, id)
  | fuel + 1, s, id =>
    if id ≠ 0 ∧ s.state (neighbourId id) = 3 then
      let nb := neighbourId id
      let s1 : BuddyState := { s with state := upd s.state id 0 }
      let s2 : BuddyState := { s1 with state := upd s1.state nb 0 }
      let s3 : BuddyState := unlink s2 nb
      let s4 : BuddyState := { s3 with prevP := upd s3.prevP nb none }
      let s5 : BuddyState := { s4 with nextP := upd s4.nextP nb none }
      coalesceGo fuel s5 (parentId id)
    else (s, id)

/-- The descent loop of `buddy_free` (lines 141-148): from the root, while
the current node is inner, go to the left child if the right child's
`memory` lies strictly above `pa`, else to the right child.  Fuel `DEPTH`
covers every descent that starts at the root. -/
def free_locate (base pa : Nat) (s : BuddyState) : Nat → Nat → Nat
  | 0, id => id
  | fuel + 1, id =>
    if s.state id = 2 then
      if pa < nodeMem base (rightId id) then free_locate base pa s fuel (leftId id)
      else free_locate base pa s fuel (rightId id)
    else id

/-- `buddy_free` (lines 134-183).  The Boolean result is `true` exactly when
the C code calls `panic`; since `panic` does not return, the state returned
on those runs is the state at the moment of the call (the code has made no
modification yet at either panic site). -/
def buddy_free (endA physTop pa : Nat) (s : BuddyState) : BuddyState × Bool :=
  if pa = 0 ∨ pa % PGSIZE ≠ 0 ∨ pa < endA ∨ physTop ≤ pa then (s, true)
  else
    let base := PGROUNDUP endA
    let cur := free_locate base pa s DEPTH 0
    if s.state cur ≠ 1 ∨ nodeMem base cur ≠ pa then (s, true)
    else if cur = 0 then
      let s1 := add_free_node s cur
      ({ s1 with state := upd s1.state cur 3 }, false)
    else
      let p := coalesceGo DEPTH s cur
      let s1 := add_free_node p.1 p.2
      ({ s1 with state := upd s1.state p.2 3 }, false)

/-- The `pow2`/`lvl` loop of `buddy_alloc` (lines 192-196): double `pow2`
and bump `lvl` until `pow2 ≥ n`.  Reached only for `0 < n ≤ 512`, for which
fuel 10 covers every iteration (`pow2` runs through `1, 2, …, 512`). -/
def alloc_pow (n : Int) : Nat → Nat × Nat → Nat × Nat
  | 0, pl => pl
  | fuel + 1, (pow2, lvl) =>
    if (pow2 : Int) < n then alloc_pow n fuel (pow2 * 2, lvl + 1) else (pow2, lvl)

/-- The `split_lvl` scan of `buddy_alloc` (lines 204-210): the first level
in `lvl, lvl+1, …, DEPTH-1` whose count is positive, if any.  The fuel is
exactly the number of levels left to scan. -/
def find_splitGo (s : BuddyState) : Nat → Nat → Option Nat
  | 0, _ => none
  | fuel + 1, idx => if 0 < s.sizes idx then some idx else find_splitGo s fuel (idx + 1)

/-- The `split_lvl` scan, starting at level `lvl`. -/
def find_split (s : BuddyState) (lvl : Nat) : Option Nat :=
  find_splitGo s (DEPTH - lvl) lvl

/-- The splitting loop of `buddy_alloc` (lines 234-239): while the current
node's level exceeds the target, mark it inner, add its right child to the
free list, mark the right child free, and descend into the left child.
Each iteration lowers the level by one and levels are below `DEPTH`, so
fuel `DEPTH` covers every run. -/
def alloc_splitGo (lvl : Nat) : Nat → BuddyState → Nat → BuddyState × Nat
  | 0, s, cur => (s, cur)
  | fuel + 1, s, cur =>
    if lvl < nodeLvl cur then
      let s1 : BuddyState := { s with state := upd s.state cur 2 }
      let s2 : BuddyState := add_free_node s1 (rightId cur)
      let s3 : BuddyState := { s2 with state := upd s2.state (rightId cur) 3 }
      alloc_splitGo lvl fuel s3 (leftId cur)
    else (s, cur)

/-- Result of `buddy_alloc`: the C return value (`none` is the null
pointer), the final state, and whether `acquire` was reached. -/
structure AllocResult where
  ret : Option Nat
  st : BuddyState
  locked : Bool

/-- `buddy_alloc` (lines 186-245). -/
def buddy_alloc (endA : Nat) (n : Int) (s : BuddyState) : AllocResult :=
  if n ≤ 0 ∨ 512 < n then ⟨none, s, false⟩
  else
    let pl := alloc_pow n 10 (1, 0)
    if n ≠ (pl.1 : Int) then ⟨none, s, false⟩
    else
      match find_split s pl.2 with
      | none => ⟨none, s, true⟩
      | some splitLvl =>
        let cur := (s.lists splitLvl).getD 0
        let s1 : BuddyState := unlink s cur
        let s2 : BuddyState := { s1 with prevP := upd s1.prevP cur none }
        let s3 : BuddyState := { s2 with nextP := upd s2.nextP cur none }
        let p := alloc_splitGo pl.2 DEPTH s3 cur
        ⟨some (nodeMem (PGROUNDUP endA) p.2),
         { p.1 with state := upd p.1.state p.2 1 }, true⟩

/-- `buddy_init` (lines 76-131): all lists empty and all counts zero, the
root free and pushed onto the free list of level `DEPTH - 1`, every other
node nonexistent with null pointers.  (The structural fields the loop also
assigns are the pure functions `nodeLvl`, `nodeSize`, `nodeMem`,
`parentId`, `leftChild`, `rightChild`, `neighbourId` above.) -/
def initState : BuddyState :=
  let s0 : BuddyState :=
    { state := fun id => if id = 0 then 3 else 0
      prevP := fun _ => none
      nextP := fun _ => none
      lists := fun _ => none
      sizes := fun _ => 0 }
  add_free_node s0 0

/-- The states reachable from `buddy_init` by completed calls.  A panicking
`buddy_free` halts the kernel, so it produces no reachable state. -/
inductive Reachable (endA physTop : Nat) : BuddyState → Prop where
  | init : Reachable endA physTop initState
  | alloc (n : Int) {s : BuddyState} :
      Reachable endA physTop s → Reachable endA physTop (buddy_alloc endA n s).st
  | free (pa : Nat) {s : BuddyState} :
      Reachable endA physTop s → (buddy_free endA physTop pa s).2 = false →
      Reachable endA physTop (buddy_free endA physTop pa s).1

/-! ## Field-level descriptions of `add_free_node` and `unlink` -/

theorem add_free_node_state (s : BuddyState) (n : Nat) :
    (add_free_node s n).state = s.state := by
  unfold add_free_node
  cases h : s.lists (nodeLvl n) <;> simp [h]

theorem add_free_node_sizes (s : BuddyState) (n : Nat) :
    (add_free_node s n).sizes = upd s.sizes (nodeLvl n) (s.sizes (nodeLvl n) + 1) := by
  unfold add_free_node
  cases h : s.lists (nodeLvl n) <;> simp [h]

theorem add_free_node_lists (s : BuddyState) (n : Nat) :
    (add_free_node s n).lists = upd s.lists (nodeLvl n) (some n) := by
  unfold add_free_node
  cases h : s.lists (nodeLvl n) <;> simp [h]

theorem add_free_node_nextP (s : BuddyState) (n : Nat) :
    (add_free_node s n).nextP = upd s.nextP n (s.lists (nodeLvl n)) := by
  unfold add_free_node
  cases h : s.lists (nodeLvl n) <;> simp [h]

theorem add_free_node_prevP (s : BuddyState) (n : Nat) :
    (add_free_node s n).prevP =
      match s.lists (nodeLvl n) with
      | some h => upd (upd s.prevP n none) h (some n)
      | none => upd s.prevP n none := by
  unfold add_free_node
  cases h : s.lists (nodeLvl n) <;> simp [h, upd_same]

theorem unlink_state (s : BuddyState) (n : Nat) : (unlink s n).state = s.state := by
  unfold unlink
  cases hp : s.prevP n <;> cases hm : s.nextP n <;> simp [hp, hm, upd, ite_self]

theorem unlink_sizes (s : BuddyState) (n : Nat) :
    (unlink s n).sizes = upd s.sizes (nodeLvl n) (s.sizes (nodeLvl n) - 1) := by
  unfold unlink
  cases hp : s.prevP n <;> cases hm : s.nextP n <;> simp [hp, hm, upd, ite_self]

theorem unlink_lists (s : BuddyState) (n : Nat) :
    (unlink s n).lists =
      match s.prevP n with
      | none => upd s.lists (nodeLvl n) (s.nextP n)
      | some _ => s.lists := by
  unfold unlink
  cases hp : s.prevP n <;> cases hm : s.nextP n <;> simp [hp, hm, upd, ite_self]

theorem unlink_nextP (s : BuddyState) (n : Nat) :
    (unlink s n).nextP =
      match s.prevP n with
      | some p => upd s.nextP p (s.nextP n)
      | none => s.nextP := by
  unfold unlink
  cases hp : s.prevP n <;> cases hm : s.nextP n <;> simp [hp, hm, upd, ite_self]

theorem unlink_prevP (s : BuddyState) (n : Nat) :
    (unlink s n).prevP =
      match s.nextP n with
      | some m => upd s.prevP m (s.prevP n)
      | none => s.prevP := by
  unfold unlink
  cases hp : s.prevP n <;> cases hm : s.nextP n <;> simp [hp, hm, upd, ite_self]

/-! ## The doubly-linked free-list representation and the global invariant -/

/-- `dllFrom s pv cur L`: starting at the pointer `cur` whose predecessor is
`pv`, following the `next` pointers spells out exactly `L`, and every
element's `prev` pointer points back at its predecessor. -/
def dllFrom (s : BuddyState) : Option Nat → Option Nat → List Nat → Prop
  | _, cur, [] => cur = none
  | pv, cur, a :: L => cur = some a ∧ s.prevP a = pv ∧ dllFrom s (some a) (s.nextP a) L

/-- `L` is the correctly linked free list of level `l`: the chain from the
head spells `L`, it has no duplicates, the level's count equals its length,
and it holds exactly the nodes that are free at level `l`. -/
def freeListAt (s : BuddyState) (l : Nat) (L : List Nat) : Prop :=
  dllFrom s none (s.lists l) L ∧ L.Nodup ∧ s.sizes l = L.length ∧
  ∀ id, id ∈ L ↔ (s.state id = 3 ∧ nodeLvl id = l)

/-- The global invariant of the allocator state, re-established after
`buddy_init` and after every completed `buddy_alloc`/`buddy_free`. -/
structure Inv (s : BuddyState) : Prop where
  root_ne : s.state 0 ≠ 0
  state_lt : ∀ id, s.state id < 4
  bounded : ∀ id, NODES ≤ id → s.state id = 0
  parent_inner : ∀ id, 0 < id → id < NODES → (s.state id ≠ 0 ↔ s.state (parentId id) = 2)
  inner_lvl : ∀ id, s.state id = 2 → 1 ≤ nodeLvl id
  used_low : ∀ id, s.state id = 1 → nodeLvl id ≤ 9
  eager : ∀ id, 0 < id → s.state id = 3 → s.state (neighbourId id) ≠ 3
  clean : ∀ id, s.state id ≠ 3 → s.prevP id = none ∧ s.nextP id = none
  freelists : ∀ l, l < DEPTH → ∃ L, freeListAt s l L

theorem dllFrom_congr {s s' : BuddyState} {L : List Nat}
    (hL : ∀ a ∈ L, s'.prevP a = s.prevP a ∧ s'.nextP a = s.nextP a) :
    ∀ pv cur, dllFrom s pv cur L → dllFrom s' pv cur L := by
  induction L with
  | nil => intro pv cur h; exact h
  | cons a L ih =>
    intro pv cur h
    obtain ⟨h1, h2, h3⟩ := h
    have ha := hL a (by simp)
    refine ⟨h1, by rw [ha.1]; exact h2, ?_⟩
    rw [ha.2]
    exact ih (fun x hx => hL x (by simp [hx])) (some a) (s.nextP a) h3

/-- In a linked list, every member's `next` pointer that is a member of the
tail, and all members are spelled by the chain. -/
theorem dllFrom_mem_state {s : BuddyState} {L : List Nat} :
    ∀ pv cur, dllFrom s pv cur L → ∀ a ∈ L, True := by
  intro _ _ _ _ _; trivial

/-- A nonempty prefix before `n` forces `n`'s `prev` pointer to be the last
element of that prefix. -/
theorem dllFrom_prev_of_prefix {s : BuddyState} {n : Nat} {L₂ : List Nat} :
    ∀ (L₁ : List Nat) (pv cur : Option Nat), L₁ ≠ [] →
      dllFrom s pv cur (L₁ ++ n :: L₂) → ∃ p ∈ L₁, s.prevP n = some p := by
  intro L₁
  induction L₁ with
  | nil => intro pv cur h; exact absurd rfl h
  | cons a L₁ ih =>
    intro pv cur _ hd
    obtain ⟨h1, h2, h3⟩ := hd
    rcases L₁ with _ | ⟨b, L₁'⟩
    · obtain ⟨g1, g2, _⟩ := h3
      exact ⟨a, by simp, g2⟩
    · obtain ⟨p, hp, hpeq⟩ := ih (some a) (s.nextP a) (by simp) h3
      exact ⟨p, by simp [hp], hpeq⟩

/-- The successor pointer of `n` is the head of what follows it. -/
theorem dllFrom_next_at {s : BuddyState} {n : Nat} {L₂ : List Nat} :
    ∀ (X : List Nat) (pv cur : Option Nat), dllFrom s pv cur (X ++ n :: L₂) →
      s.nextP n = L₂.head? := by
  intro X
  induction X with
  | nil =>
    intro pv cur h
    obtain ⟨_, _, h3⟩ := h
    cases L₂ with
    | nil => exact h3
    | cons m L₂' => exact h3.1
  | cons a X ih =>
    intro pv cur h
    exact ih (some a) (s.nextP a) h.2.2

/-- Removing `n` by `unlink` re-links the rest of its chain. -/
theorem dllFrom_unlink_aux (s : BuddyState) (n : Nat) (L₂ : List Nat)
    (hp2 : ∀ x ∈ L₂, s.prevP n ≠ some x) :
    ∀ (L₁ : List Nat) (pv cur : Option Nat),
      dllFrom s pv cur (L₁ ++ n :: L₂) → (L₁ ++ n :: L₂).Nodup →
      dllFrom (unlink s n) pv (if L₁ = [] then s.nextP n else cur) (L₁ ++ L₂) := by
  intro L₁
  induction L₁ with
  | nil =>
    intro pv cur h hnd
    obtain ⟨h1, h2, h3⟩ := h
    simp only [List.nil_append, if_pos rfl]
    cases L₂ with
    | nil => exact h3
    | cons m L₂' =>
      obtain ⟨hm, hpm, h4⟩ := h3
      have hmL : m ∉ L₂' := by
        simp [List.nodup_cons] at hnd
        exact hnd.2.1
      refine ⟨hm, ?_, ?_⟩
      · rw [unlink_prevP, hm]
        show upd s.prevP m (s.prevP n) m = pv
        rw [upd_same, h2]
      · have hnx : (unlink s n).nextP m = s.nextP m := by
          rw [unlink_nextP]
          cases hpn : s.prevP n with
          | none => rfl
          | some p =>
            have : p ≠ m := by
              intro he; exact hp2 m (by simp) (by rw [hpn, he])
            exact upd_ne _ _ _ _ (fun he => this he.symm)
        rw [hnx]
        refine dllFrom_congr ?_ (some m) (s.nextP m) h4
        intro x hx
        constructor
        · rw [unlink_prevP, hm]
          exact upd_ne _ _ _ _ (fun he => hmL (he ▸ hx))
        · rw [unlink_nextP]
          cases hpn : s.prevP n with
          | none => rfl
          | some p =>
            have : p ≠ x := by
              intro he; exact hp2 x (by simp [hx]) (by rw [hpn, he])
            exact upd_ne _ _ _ _ (fun he => this he.symm)
  | cons a L₁1 ih =>
    intro pv cur h hnd
    obtain ⟨h1, h2, h3⟩ := h
    have hnext : s.nextP n = L₂.head? := dllFrom_next_at L₁1 (some a) (s.nextP a) h3
    have hnd1 := List.nodup_cons.mp hnd
    have hamem : a ∉ L₁1 ++ n :: L₂ := hnd1.1
    simp only [List.cons_append, if_neg (by simp : (a :: L₁1 : List Nat) ≠ [])]
    refine ⟨h1, ?_, ?_⟩
    · -- the prev pointer of `a` survives the unlink
      rw [unlink_prevP]
      cases hm : s.nextP n with
      | none => exact h2
      | some m =>
        have hmem : m ∈ L₂ := by
          rw [hm] at hnext
          cases L₂ with
          | nil => simp at hnext
          | cons m' L₂' => simp at hnext; simp [hnext]
        have hne : a ≠ m := by
          intro he
          exact hamem (by simp [he, hmem])
        show upd s.prevP m (s.prevP n) a = pv
        rw [upd_ne _ _ _ _ hne, h2]
    · -- tail: either `a` directly precedes `n`, or recurse
      have hih := ih (some a) (s.nextP a) h3 hnd1.2
      cases hL11 : L₁1 with
      | nil =>
        subst hL11
        obtain ⟨g1, g2, _⟩ := h3
        have hnn : (unlink s n).nextP a = s.nextP n := by
          rw [unlink_nextP, g2]
          exact upd_same _ _ _
        rw [hnn]
        simpa using hih
      | cons b L₁1' =>
        subst hL11
        obtain ⟨p, hpmem, hpeq⟩ := dllFrom_prev_of_prefix (b :: L₁1') (some a) (s.nextP a)
          (by simp) h3
        have hnn : (unlink s n).nextP a = s.nextP a := by
          rw [unlink_nextP, hpeq]
          refine upd_ne _ _ _ _ ?_
          intro he
          exact hamem (he ▸ List.mem_append_left (n :: L₂) hpmem)
        rw [hnn]
        simpa using hih

/-- Unlinking a member of a level's chain re-links that chain. -/
theorem dllFrom_unlink_self (s : BuddyState) (n : Nat) (L₁ L₂ : List Nat)
    (hL : dllFrom s none (s.lists (nodeLvl n)) (L₁ ++ n :: L₂))
    (hnd : (L₁ ++ n :: L₂).Nodup) :
    dllFrom (unlink s n) none ((unlink s n).lists (nodeLvl n)) (L₁ ++ L₂) := by
  cases hL1 : L₁ with
  | nil =>
    subst hL1
    obtain ⟨h1, h2, h3⟩ := hL
    have hp2 : ∀ x ∈ L₂, s.prevP n ≠ some x := by
      intro x _ he; rw [h2] at he; cases he
    have haux := dllFrom_unlink_aux s n L₂ hp2 [] none (s.lists (nodeLvl n)) ⟨h1, h2, h3⟩ hnd
    have hl : (unlink s n).lists (nodeLvl n) = s.nextP n := by
      rw [unlink_lists, h2]
      show upd s.lists (nodeLvl n) (s.nextP n) (nodeLvl n) = s.nextP n
      exact upd_same _ _ _
    rw [hl]
    simpa using haux
  | cons a L₁' =>
    subst hL1
    obtain ⟨p, hp, hpeq⟩ := dllFrom_prev_of_prefix (a :: L₁') none (s.lists (nodeLvl n))
      (by simp) hL
    have hdisj : List.Disjoint (a :: L₁') (n :: L₂) := List.disjoint_of_nodup_append hnd
    have hp2 : ∀ x ∈ L₂, s.prevP n ≠ some x := by
      intro x hx he
      rw [hpeq] at he
      have : p = x := by injection he
      exact hdisj hp (by simp [this, hx])
    have haux := dllFrom_unlink_aux s n L₂ hp2 (a :: L₁') none (s.lists (nodeLvl n)) hL hnd
    have hl : (unlink s n).lists (nodeLvl n) = s.lists (nodeLvl n) := by
      rw [unlink_lists, hpeq]
    rw [hl]
    simpa using haux

/-- Unlinking `n` does not disturb a chain that avoids `n` and its two
linked neighbours. -/
theorem dllFrom_unlink_other (s : BuddyState) (n : Nat) {L' : List Nat} {l' : Nat}
    (hl : l' ≠ nodeLvl n)
    (h1 : ∀ a ∈ L', a ≠ n ∧ s.prevP n ≠ some a ∧ s.nextP n ≠ some a)
    (hL : dllFrom s none (s.lists l') L') :
    dllFrom (unlink s n) none ((unlink s n).lists l') L' := by
  have hll : (unlink s n).lists l' = s.lists l' := by
    rw [unlink_lists]
    cases hpn : s.prevP n with
    | none => exact upd_ne _ _ _ _ hl
    | some p => rfl
  rw [hll]
  refine dllFrom_congr ?_ none (s.lists l') hL
  intro a ha
  constructor
  · rw [unlink_prevP]
    cases hm : s.nextP n with
    | none => rfl
    | some m =>
      have : a ≠ m := by
        intro he; exact (h1 a ha).2.2 (by rw [hm, he])
      show upd s.prevP m (s.prevP n) a = s.prevP a
      exact upd_ne _ _ _ _ this
  · rw [unlink_nextP]
    cases hpn : s.prevP n with
    | none => rfl
    | some p =>
      have : a ≠ p := by
        intro he; exact (h1 a ha).2.1 (by rw [hpn, he])
      show upd s.nextP p (s.nextP n) a = s.nextP a
      exact upd_ne _ _ _ _ this

/-- Pushing a fresh node with `add_free_node` extends its level's chain at
the head. -/
theorem dllFrom_add (s : BuddyState) (n : Nat) (L : List Nat)
    (hL : dllFrom s none (s.lists (nodeLvl n)) L) (hn : n ∉ L) (hnd : L.Nodup) :
    dllFrom (add_free_node s n) none ((add_free_node s n).lists (nodeLvl n)) (n :: L) := by
  have hlists : (add_free_node s n).lists (nodeLvl n) = some n := by
    rw [add_free_node_lists]; exact upd_same _ _ _
  rw [hlists]
  cases hh : s.lists (nodeLvl n) with
  | none =>
    have hLnil : L = [] := by
      cases L with
      | nil => rfl
      | cons a L' => rw [hh] at hL; cases hL.1
    subst hLnil
    refine ⟨rfl, ?_, ?_⟩
    · rw [add_free_node_prevP, hh]
      show upd s.prevP n none n = none
      exact upd_same _ _ _
    · show (add_free_node s n).nextP n = none
      rw [add_free_node_nextP]
      show upd s.nextP n (s.lists (nodeLvl n)) n = none
      rw [upd_same, hh]
  | some hd =>
    obtain ⟨L', rfl⟩ : ∃ L', L = hd :: L' := by
      cases L with
      | nil => rw [hh] at hL; cases hL
      | cons a L' =>
        rw [hh] at hL
        have : a = hd := by have := hL.1; injection this; omega
        exact ⟨L', by rw [this]⟩
    rw [hh] at hL
    obtain ⟨_, hphd, hchain⟩ := hL
    have hnhd : n ≠ hd := by intro he; exact hn (by simp [he])
    have hndc := List.nodup_cons.mp hnd
    refine ⟨rfl, ?_, ?_⟩
    · rw [add_free_node_prevP, hh]
      show upd (upd s.prevP n none) hd (some n) n = none
      rw [upd_ne _ _ _ _ hnhd, upd_same]
    · have hnx : (add_free_node s n).nextP n = some hd := by
        rw [add_free_node_nextP]
        show upd s.nextP n (s.lists (nodeLvl n)) n = some hd
        rw [upd_same, hh]
      rw [hnx]
      refine ⟨rfl, ?_, ?_⟩
      · rw [add_free_node_prevP, hh]
        show upd (upd s.prevP n none) hd (some n) hd = some n
        exact upd_same _ _ _
      · have hnxhd : (add_free_node s n).nextP hd = s.nextP hd := by
          rw [add_free_node_nextP]
          exact upd_ne _ _ _ _ (fun he => hnhd he.symm)
        rw [hnxhd]
        refine dllFrom_congr ?_ (some hd) (s.nextP hd) hchain
        intro x hx
        have hxn : x ≠ n := fun he => hn (by simp [← he, hx])
        have hxhd : x ≠ hd := fun he => hndc.1 (he ▸ hx)
        constructor
        · rw [add_free_node_prevP, hh]
          show upd (upd s.prevP n none) hd (some n) x = s.prevP x
          rw [upd_ne _ _ _ _ hxhd, upd_ne _ _ _ _ hxn]
        · rw [add_free_node_nextP]
          exact upd_ne _ _ _ _ hxn

/-- Pushing a node does not disturb another level's chain. -/
theorem dllFrom_add_other (s : BuddyState) (n : Nat) {L' : List Nat} {l' : Nat}
    (hl : l' ≠ nodeLvl n)
    (h1 : ∀ a ∈ L', a ≠ n ∧ s.lists (nodeLvl n) ≠ some a)
    (hL : dllFrom s none (s.lists l') L') :
    dllFrom (add_free_node s n) none ((add_free_node s n).lists l') L' := by
  have hll : (add_free_node s n).lists l' = s.lists l' := by
    rw [add_free_node_lists]; exact upd_ne _ _ _ _ hl
  rw [hll]
  refine dllFrom_congr ?_ none (s.lists l') hL
  intro a ha
  constructor
  · rw [add_free_node_prevP]
    cases hh : s.lists (nodeLvl n) with
    | none =>
      show upd s.prevP n none a = s.prevP a
      exact upd_ne _ _ _ _ (h1 a ha).1
    | some hd =>
      have : a ≠ hd := fun he => (h1 a ha).2 (by rw [hh, he])
      show upd (upd s.prevP n none) hd (some n) a = s.prevP a
      rw [upd_ne _ _ _ _ this, upd_ne _ _ _ _ (h1 a ha).1]
  · rw [add_free_node_nextP]
    exact upd_ne _ _ _ _ (h1 a ha).1

/-- A chain predicate only reads `prevP` and `nextP`. -/
theorem dllFrom_eqFields {s s' : BuddyState} (hp : s'.prevP = s.prevP)
    (hn : s'.nextP = s.nextP) {L : List Nat} :
    ∀ pv cur, dllFrom s pv cur L → dllFrom s' pv cur L := by
  intro pv cur h
  exact dllFrom_congr (fun a _ => ⟨by rw [hp], by rw [hn]⟩) pv cur h

theorem dllFrom_head_cons {s : BuddyState} {h : Nat} {L : List Nat} {pv : Option Nat}
    (hd : dllFrom s pv (some h) L) : ∃ L', L = h :: L' := by
  cases L with
  | nil => cases hd
  | cons a L' =>
    have : a = h := by have := hd.1; injection this; omega
    exact ⟨L', by rw [this]⟩

/-- The node reached by descending left `j` times. -/
def leftIter : Nat → Nat → Nat
  | 0, c => c
  | j + 1, c => leftIter j (leftId c)

theorem pIter_leftIter (j : Nat) : ∀ c, pIter j (leftIter j c) = c := by
  induction j with
  | zero => intro c; rfl
  | succ j ih =>
    intro c
    show pIter (j + 1) (leftIter j (leftId c)) = c
    rw [show j + 1 = 1 + j by omega, pIter_add, ih (leftId c)]
    show parentId (leftId c) = c
    exact parentId_leftId c

theorem leftIter_ge (j : Nat) : ∀ c, c ≤ leftIter j c := by
  induction j with
  | zero => intro c; exact Nat.le_refl c
  | succ j ih =>
    intro c
    have h1 : c < leftId c := by unfold leftId; omega
    exact Nat.le_trans (Nat.le_of_lt h1) (ih (leftId c))

theorem leftIter_gt {j : Nat} (c : Nat) (h : 0 < j) : c < leftIter j c := by
  match j, h with
  | j + 1, _ =>
    have h1 : c < leftId c := by unfold leftId; omega
    exact Nat.lt_of_lt_of_le h1 (leftIter_ge j (leftId c))

theorem nodeLvl_leftIter (j : Nat) : ∀ c, j ≤ nodeLvl c → nodeLvl (leftIter j c) = nodeLvl c - j := by
  induction j with
  | zero => intro c _; rfl
  | succ j ih =>
    intro c hj
    show nodeLvl (leftIter j (leftId c)) = nodeLvl c - (j + 1)
    rw [ih (leftId c) (by rw [nodeLvl_leftId]; omega), nodeLvl_leftId]
    omega

theorem nodeMem_leftIter (base : Nat) (j : Nat) : ∀ c, nodeMem base (leftIter j c) = nodeMem base c := by
  induction j with
  | zero => intro c; rfl
  | succ j ih =>
    intro c
    show nodeMem base (leftIter j (leftId c)) = nodeMem base c
    rw [ih (leftId c), nodeMem_leftId]

theorem leftIter_lt_NODES (j : Nat) : ∀ c, c < NODES → j ≤ nodeLvl c →
    leftIter j c < NODES := by
  induction j with
  | zero => intro c h _; exact h
  | succ j ih =>
    intro c hc hj
    show leftIter j (leftId c) < NODES
    have h1 : rightId c < NODES := rightId_lt_NODES (by omega)
    have h2 : leftId c < NODES := by unfold leftId rightId at *; omega
    exact ih (leftId c) h2 (by rw [nodeLvl_leftId]; omega)

/-- Ancestors of a node are no larger, so a node's strict descendants never
reach back up to it. -/
theorem no_desc_of_le {v c : Nat} (hne : ∀ j, 0 < j → pIter j v ≠ c)
    (hv : v ≠ c) : ∀ j, pIter j v ≠ c := by
  intro j
  cases j with
  | zero => exact hv
  | succ j => exact hne (j + 1) (by omega)

theorem pIter_ne_of_gt {v c : Nat} (h : v < c) : ∀ j, pIter j v ≠ c := by
  intro j he
  have := pIter_le j v
  omega

/-- `cur` is not a descendant of its left child. -/
theorem cur_not_desc_left (c : Nat) : ∀ j, pIter j c ≠ leftId c := by
  intro j he
  have h1 := pIter_le j c
  unfold leftId at he
  omega

/-- The right child is not a descendant of the left child. -/
theorem right_not_desc_left (c : Nat) : ∀ j, pIter j (rightId c) ≠ leftId c := by
  intro j he
  cases j with
  | zero =>
    simp only [pIter] at he
    unfold rightId leftId at he
    omega
  | succ j =>
    have : pIter (j + 1) (rightId c) = pIter j (parentId (rightId c)) := rfl
    rw [this, parentId_rightId] at he
    have := pIter_le j c
    unfold leftId at he
    omega

theorem neighbourId_rightId (c : Nat) : neighbourId (rightId c) = leftId c := by
  unfold neighbourId rightId leftId
  rw [if_neg (by omega), if_neg (by omega)]
  omega

theorem neighbourId_leftId (c : Nat) : neighbourId (leftId c) = rightId c := by
  unfold neighbourId rightId leftId
  rw [if_neg (by omega), if_pos (by omega)]

@[simp] theorem nodeLvl_zero : nodeLvl 0 = 14 := rfl

/-- The loop invariant of the splitting descent of `buddy_alloc`: it holds
whenever the loop guard is about to be tested with current node `cur` and
target level `t`.  It is the global invariant weakened exactly where the
split is in progress: `cur` has been taken off its free list but its state
is not final yet, so the free-list membership law excludes `cur` and the
parent law skips it. -/
structure PreSplit (t : Nat) (s : BuddyState) (cur : Nat) : Prop where
  t_le : t ≤ nodeLvl cur
  t9 : t ≤ 9
  cur_lt : cur < NODES
  cur_not_used : s.state cur ≠ 1
  root_ne : s.state 0 ≠ 0
  state_lt : ∀ id, s.state id < 4
  bounded : ∀ id, NODES ≤ id → s.state id = 0
  parent_ok : cur = 0 ∨ s.state (parentId cur) = 2
  parent_inner : ∀ id, 0 < id → id < NODES → id ≠ cur →
    (s.state id ≠ 0 ↔ s.state (parentId id) = 2)
  inner_lvl : ∀ id, s.state id = 2 → 1 ≤ nodeLvl id
  used_low : ∀ id, s.state id = 1 → nodeLvl id ≤ 9
  eager : ∀ id, 0 < id → s.state id = 3 → s.state (neighbourId id) ≠ 3
  clean : ∀ id, s.state id ≠ 3 → s.prevP id = none ∧ s.nextP id = none
  cur_clean : s.prevP cur = none ∧ s.nextP cur = none
  desc : ∀ w j, pIter j w = cur → w ≠ cur → s.state w = 0
  freelists : ∀ l, l < DEPTH → ∃ L, dllFrom s none (s.lists l) L ∧ L.Nodup ∧
    s.sizes l = (L.length : Int) ∧
    ∀ id, id ∈ L ↔ (s.state id = 3 ∧ nodeLvl id = l ∧ id ≠ cur)

/-- What the splitting loop produces, relative to its input state `s`:
after the final node is marked used, the global invariant holds again; the
final node is the iterated left child at the target level with the same
base address; one free node was pushed at the head of each level passed;
all other levels, and everything outside the subtree of `cur`, are
untouched. -/
structure SplitOut (t : Nat) (s : BuddyState) (cur : Nat) (out : BuddyState × Nat) : Prop where
  inv : Inv { out.1 with state := upd out.1.state out.2 1 }
  fin_eq : out.2 = leftIter (nodeLvl cur - t) cur
  fin_lvl : nodeLvl out.2 = t
  fin_mem : ∀ base, nodeMem base out.2 = nodeMem base cur
  fin_lt : out.2 < NODES
  fin_not_used : s.state out.2 ≠ 1
  sizes_lo : ∀ l, t ≤ l → l < nodeLvl cur → out.1.sizes l = s.sizes l + 1
  sizes_hi : ∀ l, l < t ∨ nodeLvl cur ≤ l → out.1.sizes l = s.sizes l
  lists_hi : ∀ l, l < t ∨ nodeLvl cur ≤ l → out.1.lists l = s.lists l
  pushes : ∀ j, j < nodeLvl cur - t →
    out.1.state (leftIter j cur) = 2 ∧
    out.1.state (rightId (leftIter j cur)) = 3 ∧
    nodeLvl (rightId (leftIter j cur)) = nodeLvl cur - 1 - j ∧
    out.1.lists (nodeLvl cur - 1 - j) = some (rightId (leftIter j cur))
  used_iff : ∀ v, v ≠ out.2 → (out.1.state v = 1 ↔ s.state v = 1)
  state_frame : ∀ v, (∀ j, pIter j v ≠ cur) → out.1.state v = s.state v

theorem splitOut_base {t : Nat} {s : BuddyState} {cur : Nat}
    (hP : PreSplit t s cur) (ht : nodeLvl cur = t) : SplitOut t s cur (s, cur) := by
  have hcur0 : cur ≠ 0 := by
    intro he
    have := hP.t9
    rw [he] at ht
    simp at ht
    omega
  have hsm_prevP : ({ s with state := upd s.state cur 1 } : BuddyState).prevP = s.prevP := rfl
  have hsm_nextP : ({ s with state := upd s.state cur 1 } : BuddyState).nextP = s.nextP := rfl
  refine ⟨?_, by rw [ht, Nat.sub_self]; rfl, ht, fun base => rfl,
    hP.cur_lt, hP.cur_not_used, by intro l h1 h2; exfalso; omega,
    fun l _ => rfl, fun l _ => rfl,
    by intro j hj; exfalso; omega, fun v _ => Iff.rfl, fun v _ => rfl⟩
  · constructor
    · show upd s.state cur 1 0 ≠ 0
      rw [upd_ne _ _ _ _ (fun he => hcur0 he.symm)]
      exact hP.root_ne
    · intro id
      show upd s.state cur 1 id < 4
      by_cases hid : id = cur
      · rw [hid, upd_same]; omega
      · rw [upd_ne _ _ _ _ hid]; exact hP.state_lt id
    · intro id hle
      show upd s.state cur 1 id = 0
      have hne : id ≠ cur := by
        intro he
        rw [he] at hle
        have := hP.cur_lt
        omega
      rw [upd_ne _ _ _ _ hne]
      exact hP.bounded id hle
    · intro id hpos hlt
      show upd s.state cur 1 id ≠ 0 ↔ upd s.state cur 1 (parentId id) = 2
      by_cases hid : id = cur
      · have hpne : parentId cur ≠ cur := by
          have := parentId_lt (show 0 < cur by omega)
          omega
        rw [hid, upd_same, upd_ne _ _ _ _ hpne]
        rcases hP.parent_ok with h | h
        · exact absurd h hcur0
        · simp [h]
      · rw [upd_ne _ _ _ _ hid]
        by_cases hpid : parentId id = cur
        · have hchild : pIter 1 id = cur := by
            show pIter 0 (parentId id) = cur
            exact hpid
          have h0 : s.state id = 0 := hP.desc id 1 hchild hid
          rw [h0, hpid, upd_same]
          simp
        · rw [upd_ne _ _ _ _ hpid]
          exact hP.parent_inner id hpos hlt hid
    · intro id h2
      have h2' : upd s.state cur 1 id = 2 := h2
      by_cases hid : id = cur
      · rw [hid, upd_same] at h2'; omega
      · rw [upd_ne _ _ _ _ hid] at h2'
        exact hP.inner_lvl id h2'
    · intro id h1
      have h1' : upd s.state cur 1 id = 1 := h1
      by_cases hid : id = cur
      · rw [hid]
        have := hP.t9
        omega
      · rw [upd_ne _ _ _ _ hid] at h1'
        exact hP.used_low id h1'
    · intro id hpos h3
      have h3' : upd s.state cur 1 id = 3 := h3
      by_cases hid : id = cur
      · rw [hid, upd_same] at h3'; omega
      · rw [upd_ne _ _ _ _ hid] at h3'
        have := hP.eager id hpos h3'
        show upd s.state cur 1 (neighbourId id) ≠ 3
        by_cases hnb : neighbourId id = cur
        · rw [hnb, upd_same]; omega
        · rw [upd_ne _ _ _ _ hnb]; exact this
    · intro id h3
      have h3' : upd s.state cur 1 id ≠ 3 := h3
      show s.prevP id = none ∧ s.nextP id = none
      by_cases hid : id = cur
      · rw [hid]; exact hP.cur_clean
      · rw [upd_ne _ _ _ _ hid] at h3'
        exact hP.clean id h3'
    · intro l hl
      obtain ⟨L, hdll, hnd, hsz, hmem⟩ := hP.freelists l hl
      refine ⟨L, ?_, hnd, hsz, ?_⟩
      · exact dllFrom_eqFields hsm_prevP hsm_nextP none _ hdll
      · intro id
        show id ∈ L ↔ upd s.state cur 1 id = 3 ∧ nodeLvl id = l
        by_cases hid : id = cur
        · subst hid
          rw [upd_same]
          simp only [hmem]
          constructor
          · rintro ⟨_, _, h⟩; exact absurd rfl h
          · rintro ⟨h, _⟩; omega
        · rw [upd_ne _ _ _ _ hid]
          rw [hmem]
          constructor
          · rintro ⟨a, b, _⟩; exact ⟨a, b⟩
          · rintro ⟨a, b⟩; exact ⟨a, b, hid⟩

/-- The head of a free list is a free node of that level, distinct from the
node the split is working on. -/
theorem PreSplit.head_free {t : Nat} {s : BuddyState} {cur : Nat} (hP : PreSplit t s cur)
    {l x : Nat} (hl : l < DEPTH) (hx : s.lists l = some x) :
    s.state x = 3 ∧ nodeLvl x = l ∧ x ≠ cur := by
  obtain ⟨L, hdll, _, _, hmem⟩ := hP.freelists l hl
  rw [hx] at hdll
  obtain ⟨L', rfl⟩ := dllFrom_head_cons hdll
  exact (hmem x).mp (by simp)

theorem preSplit_step {t : Nat} {s : BuddyState} {cur : Nat}
    (hP : PreSplit t s cur) (hlt : t < nodeLvl cur) :
    PreSplit t
      { add_free_node { s with state := upd s.state cur 2 } (rightId cur) with
        state := upd (add_free_node { s with state := upd s.state cur 2 } (rightId cur)).state
          (rightId cur) 3 }
      (leftId cur) := by
  set r := rightId cur with hr
  set cl := leftId cur with hcl
  set s1 : BuddyState := { s with state := upd s.state cur 2 } with hs1
  set s2 : BuddyState := add_free_node s1 r with hs2
  set s3 : BuddyState := { s2 with state := upd s2.state r 3 } with hs3
  set lr := nodeLvl r with hlr0
  suffices hgoal : PreSplit t s3 cl by exact hgoal
  -- basic arithmetic facts
  have hlvl1 : 1 ≤ nodeLvl cur := by omega
  have hrN : r < NODES := rightId_lt_NODES hlvl1
  have hclN : cl < NODES := by rw [hcl, hr] at *; unfold leftId rightId at *; omega
  have hlr : lr = nodeLvl cur - 1 := by rw [hlr0, hr, nodeLvl_rightId]
  have hclvl : nodeLvl cl = nodeLvl cur - 1 := by rw [hcl, nodeLvl_leftId]
  have hlrD : lr < DEPTH := by
    have := nodeLvl_le_14 cur
    unfold DEPTH
    omega
  have hrcur : r ≠ cur := by rw [hr]; unfold rightId; omega
  have hclcur : cl ≠ cur := by rw [hcl]; unfold leftId; omega
  have hclr : cl ≠ r := by rw [hcl, hr]; unfold leftId rightId; omega
  have hr_ne0 : r ≠ 0 := by rw [hr]; unfold rightId; omega
  have hcl_ne0 : cl ≠ 0 := by rw [hcl]; unfold leftId; omega
  -- states of the two children in `s`
  have hpr : pIter 1 r = cur := by
    show pIter 0 (parentId r) = cur
    rw [hr]
    exact parentId_rightId cur
  have hpcl : pIter 1 cl = cur := by
    show pIter 0 (parentId cl) = cur
    rw [hcl]
    exact parentId_leftId cur
  have hr0 : s.state r = 0 := hP.desc r 1 hpr hrcur
  have hcl0 : s.state cl = 0 := hP.desc cl 1 hpcl hclcur
  have hclean_r : s.prevP r = none ∧ s.nextP r = none := hP.clean r (by omega)
  -- field descriptions of `s3`
  have hs3state : s3.state = upd (upd s.state cur 2) r 3 := by
    rw [hs3, hs2]
    show upd (add_free_node s1 r).state r 3 = _
    rw [add_free_node_state, hs1]
  have hs3lists : s3.lists = upd s.lists lr (some r) := by
    rw [hs3, hs2]
    show (add_free_node s1 r).lists = _
    rw [add_free_node_lists, hs1]
  have hs3sizes : s3.sizes = upd s.sizes lr (s.sizes lr + 1) := by
    rw [hs3, hs2]
    show (add_free_node s1 r).sizes = _
    rw [add_free_node_sizes, hs1]
  have hs3nextP : s3.nextP = upd s.nextP r (s.lists lr) := by
    rw [hs3, hs2]
    show (add_free_node s1 r).nextP = _
    rw [add_free_node_nextP, hs1]
  have hs3prevP : s3.prevP =
      (match s.lists lr with
       | some h => upd (upd s.prevP r none) h (some r)
       | none => upd s.prevP r none) := by
    rw [hs3, hs2]
    show (add_free_node s1 r).prevP = _
    rw [add_free_node_prevP, hs1]
  have hs1prev : s1.prevP = s.prevP := by rw [hs1]
  have hs1next : s1.nextP = s.nextP := by rw [hs1]
  have hs1lists : s1.lists = s.lists := by rw [hs1]
  have hs32prev : s3.prevP = s2.prevP := by rw [hs3]
  have hs32next : s3.nextP = s2.nextP := by rw [hs3]
  have hs32lists : s3.lists = s2.lists := by rw [hs3]
  -- pointwise state evaluation in `s3`
  have hstate_r : s3.state r = 3 := by rw [hs3state]; exact upd_same _ _ _
  have hstate_cur : s3.state cur = 2 := by
    rw [hs3state, upd_ne _ _ _ _ (fun he => hrcur he.symm), upd_same]
  have hstate_other : ∀ x, x ≠ cur → x ≠ r → s3.state x = s.state x := by
    intro x h1 h2
    rw [hs3state, upd_ne _ _ _ _ h2, upd_ne _ _ _ _ h1]
  have hstate_cl : s3.state cl = 0 := by rw [hstate_other cl hclcur hclr]; exact hcl0
  have hstate_r2 : upd s2.state r 3 r = 3 := hstate_r
  have hstate_cur2 : upd s2.state r 3 cur = 2 := hstate_cur
  have hstate_cl2 : upd s2.state r 3 cl = 0 := hstate_cl
  have hstate_other2 : ∀ x, x ≠ cur → x ≠ r → upd s2.state r 3 x = s.state x := hstate_other
  -- prev pointers that are untouched
  have hprev_other : ∀ x, x ≠ r → s.lists lr ≠ some x → s3.prevP x = s.prevP x := by
    intro x h1 h2
    rw [hs3prevP]
    cases hh : s.lists lr with
    | none =>
      show upd s.prevP r none x = s.prevP x
      exact upd_ne _ _ _ _ h1
    | some hd =>
      have : x ≠ hd := fun he => h2 (by rw [hh, he])
      show upd (upd s.prevP r none) hd (some r) x = s.prevP x
      rw [upd_ne _ _ _ _ this, upd_ne _ _ _ _ h1]
  have hnext_other : ∀ x, x ≠ r → s3.nextP x = s.nextP x := by
    intro x h1
    rw [hs3nextP]
    exact upd_ne _ _ _ _ h1
  have hhead_ne : ∀ x, s.lists lr = some x → s.state x = 3 ∧ nodeLvl x = lr ∧ x ≠ cur :=
    fun x hx => hP.head_free hlrD hx
  refine ⟨?_, hP.t9, hclN, ?_, ?_, ?_, ?_, ?_, ?_, ?_, ?_, ?_, ?_, ?_, ?_, ?_⟩
  · -- t_le
    omega
  · -- cur_not_used
    rw [hstate_cl]; omega
  · -- root_ne
    by_cases h0 : cur = 0
    · rw [h0] at hstate_cur
      rw [hstate_cur]
      omega
    · rw [hstate_other 0 (fun he => h0 he.symm) (fun he => hr_ne0 he.symm)]
      exact hP.root_ne
  · -- state_lt
    intro id
    by_cases h1 : id = r
    · rw [h1, hstate_r]; omega
    by_cases h2 : id = cur
    · rw [h2, hstate_cur]; omega
    · rw [hstate_other id h2 h1]; exact hP.state_lt id
  · -- bounded
    intro id hle
    rw [hstate_other id (by intro he; rw [he] at hle; have := hP.cur_lt; omega)
      (by intro he; rw [he] at hle; omega)]
    exact hP.bounded id hle
  · -- parent_ok
    right
    have : parentId cl = cur := by rw [hcl]; exact parentId_leftId cur
    rw [this, hstate_cur]
  · -- parent_inner
    intro id hpos hidN hne
    by_cases h1 : id = cur
    · have hposc : 0 < cur := h1 ▸ hpos
      have hpar_ne_cur : parentId cur ≠ cur := by have := parentId_lt hposc; omega
      have hpar_ne_r : parentId cur ≠ r := by
        have := parentId_lt hposc
        rw [hr]; unfold rightId; omega
      rw [h1, hstate_cur, hstate_other (parentId cur) hpar_ne_cur hpar_ne_r]
      rcases hP.parent_ok with h | h
      · omega
      · simp [h]
    by_cases h2 : id = r
    · have hpid : parentId r = cur := by rw [hr]; exact parentId_rightId cur
      rw [h2, hstate_r, hpid, hstate_cur]
      simp
    · -- id outside {cur, r, cl}
      rw [hstate_other id h1 h2]
      by_cases hp1 : parentId id = cur
      · -- then id would be one of the two children
        exfalso
        have : id = cl ∨ id = r := by
          rw [hcl, hr]
          unfold parentId at hp1
          unfold leftId rightId
          omega
        rcases this with h | h
        · exact hne h
        · exact h2 h
      by_cases hp2 : parentId id = r
      · -- id is a child of the right child: still nonexistent
        have hdesc : pIter 2 id = cur := by
          show pIter 1 (parentId id) = cur
          rw [hp2]
          exact hpr
        have hidcur : id ≠ cur := h1
        have h0 : s.state id = 0 := hP.desc id 2 hdesc hidcur
        rw [h0, hp2, hstate_r]
        simp
      · rw [hstate_other (parentId id) hp1 hp2]
        exact hP.parent_inner id hpos hidN h1
  · -- inner_lvl
    intro id h2
    by_cases hid : id = r
    · rw [hid, hstate_r] at h2; omega
    by_cases hid2 : id = cur
    · rw [hid2]; omega
    · rw [hstate_other id hid2 hid] at h2
      exact hP.inner_lvl id h2
  · -- used_low
    intro id h1
    by_cases hid : id = r
    · rw [hid, hstate_r] at h1; omega
    by_cases hid2 : id = cur
    · rw [hid2, hstate_cur] at h1; omega
    · rw [hstate_other id hid2 hid] at h1
      exact hP.used_low id h1
  · -- eager
    intro id hpos h3
    by_cases hid : id = r
    · have hnbr : neighbourId id = cl := by rw [hid, hr, hcl]; exact neighbourId_rightId cur
      rw [hnbr, hstate_cl]
      omega
    by_cases hid2 : id = cur
    · rw [hid2, hstate_cur] at h3; omega
    · rw [hstate_other id hid2 hid] at h3
      have hold := hP.eager id hpos h3
      by_cases hnb : neighbourId id = cur
      · rw [hnb, hstate_cur]; omega
      by_cases hnb2 : neighbourId id = r
      · -- then id is the left child, whose state is 0, contradiction
        exfalso
        have : id = cl := by
          rw [hr] at hnb2
          rw [hcl]
          unfold neighbourId rightId leftId at *
          by_cases hio : id % 2 = 1
          · rw [if_neg (by omega), if_pos hio] at hnb2; omega
          · rw [if_neg (by omega), if_neg hio] at hnb2; omega
        rw [this, hcl0] at h3
        omega
      · rw [hstate_other (neighbourId id) hnb hnb2]
        exact hold
  · -- clean
    intro id hne3
    by_cases hid : id = r
    · rw [hid, hstate_r] at hne3; omega
    have hid_head : s.lists lr ≠ some id := by
      intro hx
      have := (hhead_ne id hx).1
      by_cases hid2 : id = cur
      · rw [hid2] at hx; exact (hhead_ne cur hx).2.2 rfl
      · rw [hstate_other id hid2 hid, this] at hne3; omega
    constructor
    · rw [hprev_other id hid hid_head]
      by_cases hid2 : id = cur
      · rw [hid2]; exact hP.cur_clean.1
      · rw [hstate_other id hid2 hid] at hne3
        exact (hP.clean id hne3).1
    · rw [hnext_other id hid]
      by_cases hid2 : id = cur
      · rw [hid2]; exact hP.cur_clean.2
      · rw [hstate_other id hid2 hid] at hne3
        exact (hP.clean id hne3).2
  · -- cur_clean for the left child
    have hclhead : s.lists lr ≠ some cl := by
      intro hx
      have := (hhead_ne cl hx).1
      rw [hcl0] at this
      omega
    constructor
    · rw [hprev_other cl hclr hclhead]
      exact (hP.clean cl (by rw [hcl0]; omega)).1
    · rw [hnext_other cl hclr]
      exact (hP.clean cl (by rw [hcl0]; omega)).2
  · -- desc
    intro w j hw hne
    have hwcur : w ≠ cur := by
      intro he
      rw [he] at hw
      exact cur_not_desc_left cur j (by rw [← hcl]; exact hw)
    have hwr : w ≠ r := by
      intro he
      rw [he] at hw
      exact right_not_desc_left cur j (by rw [← hcl]; exact hw)
    rw [hstate_other w hwcur hwr]
    have hdesc : pIter (1 + j) w = cur := by
      rw [pIter_add, hw, hpcl]
    exact hP.desc w (1 + j) hdesc hwcur
  · -- freelists
    intro l hl
    have hlreq : nodeLvl r = lr := rfl
    by_cases hll : l = lr
    · rw [hll]
      obtain ⟨L, hdll, hnd, hsz, hmem⟩ := hP.freelists lr hlrD
      have hrnotL : r ∉ L := by
        intro hmem2
        have := (hmem r).mp hmem2
        rw [hr0] at this
        omega
      have hdll1 : dllFrom s1 none (s1.lists (nodeLvl r)) L := by
        rw [hs1lists, hlreq]
        exact dllFrom_eqFields hs1prev hs1next none _ hdll
      have hadd := dllFrom_add s1 r L hdll1 hrnotL hnd
      rw [← hs2] at hadd
      refine ⟨r :: L, ?_, List.nodup_cons.mpr ⟨hrnotL, hnd⟩, ?_, ?_⟩
      · rw [hs32lists, ← hlreq]
        exact dllFrom_eqFields hs32prev hs32next none _ hadd
      · rw [hs3sizes, upd_same, hsz, List.length_cons]
        push_cast
        omega
      · intro id
        by_cases hid : id = r
        · rw [hid]
          constructor
          · intro _
            exact ⟨hstate_r2, rfl, fun he => hclr he.symm⟩
          · intro _
            exact List.mem_cons_self r L
        · simp only [List.mem_cons, hid, false_or]
          rw [hmem]
          by_cases hid2 : id = cur
          · rw [hid2, hstate_cur2]
            constructor
            · rintro ⟨_, _, h⟩; exact absurd rfl h
            · rintro ⟨h, _⟩; omega
          by_cases hid3 : id = cl
          · rw [hid3, hcl0, hstate_cl2]
            constructor
            · rintro ⟨h, _⟩; omega
            · rintro ⟨_, _, h⟩; exact absurd rfl h
          · rw [hstate_other2 id hid2 hid]
            constructor
            · rintro ⟨a, b, _⟩; exact ⟨a, b, hid3⟩
            · rintro ⟨a, b, _⟩; exact ⟨a, b, hid2⟩
    · obtain ⟨L, hdll, hnd, hsz, hmem⟩ := hP.freelists l hl
      have hside : ∀ a ∈ L, a ≠ r ∧ s1.lists (nodeLvl r) ≠ some a := by
        rw [hs1lists, hlreq]
        intro a ha
        have hmema := (hmem a).mp ha
        constructor
        · intro he
          rw [he, hr0] at hmema
          omega
        · intro he
          have h1 := (hhead_ne a he).2.1
          have h2 := hmema.2.1
          omega
      have hdll1 : dllFrom s1 none (s1.lists l) L := by
        rw [hs1lists]
        exact dllFrom_eqFields hs1prev hs1next none _ hdll
      have hadd := dllFrom_add_other s1 r (show l ≠ nodeLvl r by rw [hlreq]; exact hll) hside hdll1
      rw [← hs2] at hadd
      refine ⟨L, ?_, hnd, ?_, ?_⟩
      · rw [hs32lists]
        exact dllFrom_eqFields hs32prev hs32next none _ hadd
      · rw [hs3sizes, upd_ne _ _ _ _ hll, hsz]
      · intro id
        rw [hmem]
        by_cases hid2 : id = cur
        · rw [hid2, hstate_cur]
          constructor
          · rintro ⟨_, _, h⟩; exact absurd rfl h
          · rintro ⟨h, _⟩; omega
        by_cases hid : id = r
        · rw [hid, hr0, hstate_r]
          constructor
          · rintro ⟨h, _⟩; omega
          · rintro ⟨_, h, _⟩
            rw [hlreq] at h
            exact absurd h.symm hll
        by_cases hid3 : id = cl
        · rw [hid3, hcl0, hstate_cl]
          constructor
          · rintro ⟨h, _⟩; omega
          · rintro ⟨_, _, h⟩; exact absurd rfl h
        · rw [hstate_other id hid2 hid]
          constructor
          · rintro ⟨a, b, _⟩; exact ⟨a, b, hid3⟩
          · rintro ⟨a, b, _⟩; exact ⟨a, b, hid2⟩

theorem splitOut_step {t : Nat} {s : BuddyState} {cur : Nat}
    (hP : PreSplit t s cur) (hlt : t < nodeLvl cur) {out : BuddyState × Nat}
    (hout : SplitOut t
      { add_free_node { s with state := upd s.state cur 2 } (rightId cur) with
        state := upd (add_free_node { s with state := upd s.state cur 2 } (rightId cur)).state
          (rightId cur) 3 }
      (leftId cur) out) :
    SplitOut t s cur out := by
  set r := rightId cur with hr
  set cl := leftId cur with hcl
  set s1 : BuddyState := { s with state := upd s.state cur 2 } with hs1
  set s2 : BuddyState := add_free_node s1 r with hs2
  set s3 : BuddyState := { s2 with state := upd s2.state r 3 } with hs3
  set lr := nodeLvl r with hlr0
  have hlreq : nodeLvl r = lr := rfl
  have hlvl1 : 1 ≤ nodeLvl cur := by omega
  have hrN : r < NODES := rightId_lt_NODES hlvl1
  have hlr : lr = nodeLvl cur - 1 := by rw [hlr0, hr, nodeLvl_rightId]
  have hclvl : nodeLvl cl = nodeLvl cur - 1 := by rw [hcl, nodeLvl_leftId]
  have hrcur : r ≠ cur := by rw [hr]; unfold rightId; omega
  have hclcur : cl ≠ cur := by rw [hcl]; unfold leftId; omega
  have hclgt : cur < cl := by rw [hcl]; unfold leftId; omega
  have hpr : pIter 1 r = cur := by
    show pIter 0 (parentId r) = cur
    rw [hr]
    exact parentId_rightId cur
  have hpcl : pIter 1 cl = cur := by
    show pIter 0 (parentId cl) = cur
    rw [hcl]
    exact parentId_leftId cur
  have hr0 : s.state r = 0 := hP.desc r 1 hpr hrcur
  have hs3state : s3.state = upd (upd s.state cur 2) r 3 := by
    rw [hs3, hs2]
    show upd (add_free_node s1 r).state r 3 = _
    rw [add_free_node_state, hs1]
  have hs3lists : s3.lists = upd s.lists lr (some r) := by
    rw [hs3, hs2]
    show (add_free_node s1 r).lists = _
    rw [add_free_node_lists, hs1]
  have hs3sizes : s3.sizes = upd s.sizes lr (s.sizes lr + 1) := by
    rw [hs3, hs2]
    show (add_free_node s1 r).sizes = _
    rw [add_free_node_sizes, hs1]
  have hstate_r : s3.state r = 3 := by rw [hs3state]; exact upd_same _ _ _
  have hstate_cur : s3.state cur = 2 := by
    rw [hs3state, upd_ne _ _ _ _ (fun he => hrcur he.symm), upd_same]
  have hstate_other : ∀ x, x ≠ cur → x ≠ r → s3.state x = s.state x := by
    intro x h1 h2
    rw [hs3state, upd_ne _ _ _ _ h2, upd_ne _ _ _ _ h1]
  have hli : ∀ j, leftIter (j + 1) cur = leftIter j cl := fun j => rfl
  have hkk : nodeLvl cur - t = (nodeLvl cl - t) + 1 := by omega
  -- the final node, seen from `s`
  have hfin_eq : out.2 = leftIter (nodeLvl cur - t) cur := by
    rw [hkk, hli, hout.fin_eq, hclvl]
  have hfin_desc : pIter (nodeLvl cur - t) out.2 = cur := by
    rw [hkk, show (nodeLvl cl - t) + 1 = 1 + (nodeLvl cl - t) by omega, pIter_add,
      hout.fin_eq, pIter_leftIter, hpcl]
  have hfin_ne_cur : out.2 ≠ cur := by
    rw [hout.fin_eq]
    intro he
    have := leftIter_ge (nodeLvl cl - t) cl
    omega
  refine ⟨hout.inv, hfin_eq, hout.fin_lvl, ?_, hout.fin_lt, ?_, ?_, ?_, ?_, ?_, ?_, ?_⟩
  · -- fin_mem
    intro base
    rw [hout.fin_mem base, hcl, nodeMem_leftId]
  · -- fin_not_used
    have h0 : s.state out.2 = 0 := hP.desc out.2 (nodeLvl cur - t) hfin_desc hfin_ne_cur
    rw [h0]
    omega
  · -- sizes_lo
    intro l h1 h2
    by_cases hl : l = lr
    · rw [hout.sizes_hi l (Or.inr (by omega)), hs3sizes, hl, upd_same]
    · rw [hout.sizes_lo l h1 (by omega), hs3sizes, upd_ne _ _ _ _ hl]
  · -- sizes_hi
    intro l hl
    have hllr : l ≠ lr := by omega
    rw [hout.sizes_hi l (by omega), hs3sizes, upd_ne _ _ _ _ hllr]
  · -- lists_hi
    intro l hl
    have hllr : l ≠ lr := by omega
    rw [hout.lists_hi l (by omega), hs3lists, upd_ne _ _ _ _ hllr]
  · -- pushes
    intro j hj
    cases j with
    | zero =>
      have hfr1 : out.1.state cur = s3.state cur :=
        hout.state_frame cur (fun j => cur_not_desc_left cur j)
      have hfr2 : out.1.state r = s3.state r :=
        hout.state_frame r (fun j => right_not_desc_left cur j)
      have hfr3 : out.1.lists (nodeLvl cur - 1) = s3.lists (nodeLvl cur - 1) :=
        hout.lists_hi (nodeLvl cur - 1) (Or.inr (by omega))
      refine ⟨?_, ?_, ?_, ?_⟩
      · show out.1.state cur = 2
        rw [hfr1, hstate_cur]
      · show out.1.state (rightId cur) = 3
        rw [← hr, hfr2, hstate_r]
      · show nodeLvl (rightId cur) = nodeLvl cur - 1 - 0
        rw [← hr]
        omega
      · show out.1.lists (nodeLvl cur - 1 - 0) = some (rightId cur)
        rw [← hr]
        rw [show nodeLvl cur - 1 - 0 = nodeLvl cur - 1 by omega, hfr3, hs3lists,
          show nodeLvl cur - 1 = lr by omega, upd_same]
    | succ j =>
      have hj' : j < nodeLvl cl - t := by omega
      obtain ⟨p1, p2, p3, p4⟩ := hout.pushes j hj'
      refine ⟨?_, ?_, ?_, ?_⟩
      · rw [hli]; exact p1
      · rw [hli]; exact p2
      · rw [hli, p3]; omega
      · rw [hli, show nodeLvl cur - 1 - (j + 1) = nodeLvl cl - 1 - j by omega]
        exact p4
  · -- used_iff
    intro v hv
    rw [hout.used_iff v hv]
    by_cases h1 : v = cur
    · rw [h1, hstate_cur]
      have := hP.cur_not_used
      constructor
      · intro h; omega
      · intro h; exact absurd h this
    by_cases h2 : v = r
    · rw [h2, hstate_r, hr0]
      omega
    · rw [hstate_other v h1 h2]
  · -- state_frame
    intro v hvd
    have hvd' : ∀ j, pIter j v ≠ cl := by
      intro j he
      have : pIter (1 + j) v = cur := by
        rw [pIter_add, he, hpcl]
      exact hvd (1 + j) this
    have h1 : v ≠ cur := hvd 0
    have h2 : v ≠ r := by
      intro he
      exact hvd 1 (by rw [he, hpr])
    rw [hout.state_frame v hvd', hstate_other v h1 h2]

/-- Full description of the splitting loop, by induction on its fuel. -/
theorem alloc_splitGo_spec : ∀ (fuel t : Nat) (s : BuddyState) (cur : Nat),
    PreSplit t s cur → nodeLvl cur - t ≤ fuel →
    SplitOut t s cur (alloc_splitGo t fuel s cur) := by
  intro fuel
  induction fuel with
  | zero =>
    intro t s cur hP hf
    have ht : nodeLvl cur = t := by have := hP.t_le; omega
    exact splitOut_base hP ht
  | succ fuel ih =>
    intro t s cur hP hf
    by_cases hlt : t < nodeLvl cur
    · have hstep : alloc_splitGo t (fuel + 1) s cur =
          alloc_splitGo t fuel
            { add_free_node { s with state := upd s.state cur 2 } (rightId cur) with
              state := upd (add_free_node { s with state := upd s.state cur 2 }
                (rightId cur)).state (rightId cur) 3 }
            (leftId cur) := by
        show (if t < nodeLvl cur then _ else _) = _
        rw [if_pos hlt]
      rw [hstep]
      have hfuel : nodeLvl (leftId cur) - t ≤ fuel := by
        rw [nodeLvl_leftId]
        omega
      exact splitOut_step hP hlt (ih t _ (leftId cur) (preSplit_step hP hlt) hfuel)
    · have ht : nodeLvl cur = t := by have := hP.t_le; omega
      have hend : alloc_splitGo t (fuel + 1) s cur = (s, cur) := by
        show (if t < nodeLvl cur then _ else _) = _
        rw [if_neg hlt]
      rw [hend]
      exact splitOut_base hP ht

/-! ## Consequences of the invariant, and the two scan loops of `buddy_alloc` -/

theorem Inv.state3_lt {s : BuddyState} (hInv : Inv s) {x : Nat} (h3 : s.state x = 3) :
    x < NODES := by
  by_contra hc
  have := hInv.bounded x (by omega)
  omega

theorem Inv.state1_lt {s : BuddyState} (hInv : Inv s) {x : Nat} (h1 : s.state x = 1) :
    x < NODES := by
  by_contra hc
  have := hInv.bounded x (by omega)
  omega

theorem Inv.head_mem {s : BuddyState} (hInv : Inv s) {l x : Nat} (hl : l < DEPTH)
    (hx : s.lists l = some x) : s.state x = 3 ∧ nodeLvl x = l := by
  obtain ⟨L, hdll, _, _, hmem⟩ := hInv.freelists l hl
  rw [hx] at hdll
  obtain ⟨L', rfl⟩ := dllFrom_head_cons hdll
  exact (hmem x).mp (by simp)

theorem Inv.head_of_sizes {s : BuddyState} (hInv : Inv s) {l : Nat} (hl : l < DEPTH)
    (hpos : 0 < s.sizes l) : ∃ x, s.lists l = some x := by
  obtain ⟨L, hdll, _, hsz, _⟩ := hInv.freelists l hl
  cases L with
  | nil => rw [hsz] at hpos; simp at hpos
  | cons a L' =>
    obtain ⟨h1, _, _⟩ := hdll
    exact ⟨a, h1⟩

/-- Below a node that is not inner, everything is nonexistent. -/
theorem desc_zero {s : BuddyState} (hInv : Inv s) {v : Nat} (hv : s.state v ≠ 2) :
    ∀ j w, pIter j w = v → w ≠ v → s.state w = 0 := by
  have key : ∀ j w, pIter j w = v → (w = v ∨ s.state w = 0) := by
    intro j
    induction j with
    | zero => intro w hw; exact Or.inl hw
    | succ j ih =>
      intro w hw
      have hw' : pIter j (parentId w) = v := hw
      rcases ih (parentId w) hw' with hc | hc
      · by_cases hw0 : w = 0
        · left
          rw [hw0]
          rw [hw0, show parentId 0 = 0 from rfl] at hc
          exact hc
        by_cases hwN : NODES ≤ w
        · exact Or.inr (hInv.bounded w hwN)
        · right
          have hpi := hInv.parent_inner w (by omega) (by omega)
          rw [hc] at hpi
          by_contra hne0
          exact hv (hpi.mp hne0)
      · by_cases hw0 : w = 0
        · exfalso
          rw [hw0, show parentId 0 = 0 from rfl] at hc
          exact hInv.root_ne hc
        by_cases hwN : NODES ≤ w
        · exact Or.inr (hInv.bounded w hwN)
        · right
          have hpi := hInv.parent_inner w (by omega) (by omega)
          by_contra hne0
          have h2 := hpi.mp hne0
          rw [hc] at h2
          omega
  intro j w hw hne
  rcases key j w hw with h | h
  · exact absurd h hne
  · exact h

/-- The `pow2` loop computes the least power of two that is at least `n`,
along with its exponent, provided the fuel covers the doubling range. -/
theorem alloc_pow_spec (n : Int) : ∀ (fuel pow lvl : Nat),
    pow = 2 ^ lvl → n ≤ ((2 ^ (lvl + fuel) : Nat) : Int) →
    (alloc_pow n fuel (pow, lvl)).1 = 2 ^ (alloc_pow n fuel (pow, lvl)).2 ∧
    n ≤ (((alloc_pow n fuel (pow, lvl)).1 : Nat) : Int) ∧
    ((alloc_pow n fuel (pow, lvl)).2 = lvl ∨
      (((2 ^ ((alloc_pow n fuel (pow, lvl)).2 - 1) : Nat) : Int) < n)) ∧
    lvl ≤ (alloc_pow n fuel (pow, lvl)).2 := by
  intro fuel
  induction fuel with
  | zero =>
    intro pow lvl hpow hle
    refine ⟨hpow, ?_, Or.inl rfl, Nat.le_refl _⟩
    show n ≤ ((pow : Nat) : Int)
    rw [hpow]
    simpa using hle
  | succ fuel ih =>
    intro pow lvl hpow hle
    have hstep : alloc_pow n (fuel + 1) (pow, lvl) =
        if (pow : Int) < n then alloc_pow n fuel (pow * 2, lvl + 1) else (pow, lvl) := rfl
    rw [hstep]
    by_cases hc : (pow : Int) < n
    · rw [if_pos hc]
      have h1 : pow * 2 = 2 ^ (lvl + 1) := by rw [hpow, pow_succ]
      have h2 : n ≤ ((2 ^ ((lvl + 1) + fuel) : Nat) : Int) := by
        rw [show (lvl + 1) + fuel = lvl + (fuel + 1) by omega]
        exact hle
      have hih := ih (pow * 2) (lvl + 1) h1 h2
      refine ⟨hih.1, hih.2.1, ?_, by omega⟩
      rcases hih.2.2.1 with h | h
      · right
        rw [h]
        simpa [hpow] using hc
      · exact Or.inr h
    · rw [if_neg hc]
      exact ⟨hpow, by omega, Or.inl rfl, Nat.le_refl _⟩

theorem find_splitGo_none {s : BuddyState} : ∀ (fuel idx : Nat),
    find_splitGo s fuel idx = none ↔ ∀ l, idx ≤ l → l < idx + fuel → ¬(0 < s.sizes l) := by
  intro fuel
  induction fuel with
  | zero =>
    intro idx
    constructor
    · intro _ l h1 h2
      omega
    · intro _
      rfl
  | succ fuel ih =>
    intro idx
    show (if 0 < s.sizes idx then some idx else find_splitGo s fuel (idx + 1)) = none ↔ _
    by_cases hc : 0 < s.sizes idx
    · rw [if_pos hc]
      constructor
      · intro h; cases h
      · intro h
        exact absurd hc (h idx (Nat.le_refl _) (by omega))
    · rw [if_neg hc]
      rw [ih (idx + 1)]
      constructor
      · intro h l h1 h2
        by_cases hl : l = idx
        · rw [hl]; exact hc
        · exact h l (by omega) (by omega)
      · intro h l h1 h2
        exact h l (by omega) (by omega)

theorem find_splitGo_some {s : BuddyState} : ∀ (fuel idx m : Nat),
    find_splitGo s fuel idx = some m →
    idx ≤ m ∧ m < idx + fuel ∧ 0 < s.sizes m ∧ ∀ l, idx ≤ l → l < m → ¬(0 < s.sizes l) := by
  intro fuel
  induction fuel with
  | zero => intro idx m h; cases h
  | succ fuel ih =>
    intro idx m h
    rw [show find_splitGo s (fuel + 1) idx =
      (if 0 < s.sizes idx then some idx else find_splitGo s fuel (idx + 1)) from rfl] at h
    by_cases hc : 0 < s.sizes idx
    · rw [if_pos hc] at h
      have : idx = m := by injection h
      subst this
      exact ⟨Nat.le_refl _, by omega, hc, fun l h1 h2 => by omega⟩
    · rw [if_neg hc] at h
      obtain ⟨h1, h2, h3, h4⟩ := ih (idx + 1) m h
      refine ⟨by omega, by omega, h3, ?_⟩
      intro l hl1 hl2
      by_cases hl : l = idx
      · rw [hl]; exact hc
      · exact h4 l (by omega) hl2

/-- After `buddy_alloc` removes the head `H` of the free list at the split
level and clears its pointers, the split-loop invariant holds at `H`. -/
theorem preSplit_unlink_head {s : BuddyState} (hInv : Inv s) {t m H : Nat} {sC : BuddyState}
    (ht9 : t ≤ 9) (htm : t ≤ m) (hmD : m < DEPTH) (hH : s.lists m = some H)
    (hCstate : sC.state = s.state)
    (hCprev : sC.prevP =
      upd (match s.nextP H with
           | some m2 => upd s.prevP m2 none
           | none => s.prevP) H none)
    (hCnext : sC.nextP = upd s.nextP H none)
    (hClists : sC.lists = upd s.lists m (s.nextP H))
    (hCsizes : sC.sizes = upd s.sizes m (s.sizes m - 1)) :
    PreSplit t sC H := by
  obtain ⟨L0, hdll, hnd, hsz, hmem⟩ := hInv.freelists m hmD
  rw [hH] at hdll
  obtain ⟨L', rfl⟩ := dllFrom_head_cons hdll
  obtain ⟨_, hprevH, hchain⟩ := hdll
  have hmemH := (hmem H).mp (by simp)
  have hH3 : s.state H = 3 := hmemH.1
  have hHlvl : nodeLvl H = m := hmemH.2
  have hHN : H < NODES := hInv.state3_lt hH3
  have hndc := List.nodup_cons.mp hnd
  have hHnotL : H ∉ L' := hndc.1
  -- pointwise pointer facts in `sC`
  have hCprevH : sC.prevP H = none := by rw [hCprev]; exact upd_same _ _ _
  have hCnextH : sC.nextP H = none := by rw [hCnext]; exact upd_same _ _ _
  have hCnext_other : ∀ x, x ≠ H → sC.nextP x = s.nextP x := by
    intro x hx
    rw [hCnext]
    exact upd_ne _ _ _ _ hx
  have hCprev_other : ∀ x, x ≠ H → s.nextP H ≠ some x → sC.prevP x = s.prevP x := by
    intro x hx1 hx2
    rw [hCprev]
    rw [upd_ne _ _ _ _ hx1]
    cases hnx : s.nextP H with
    | none => rfl
    | some m2 =>
      have : x ≠ m2 := fun he => hx2 (by rw [hnx, he])
      show upd s.prevP m2 none x = s.prevP x
      exact upd_ne _ _ _ _ this
  have hCprev_m2 : ∀ x, s.nextP H = some x → x ≠ H → sC.prevP x = none := by
    intro x hx1 hx2
    rw [hCprev, upd_ne _ _ _ _ hx2, hx1]
    show upd s.prevP x none x = none
    exact upd_same _ _ _
  refine ⟨by omega, ht9, hHN, by rw [hCstate, hH3]; omega, ?_, ?_, ?_, ?_, ?_, ?_, ?_, ?_,
    ?_, ⟨hCprevH, hCnextH⟩, ?_, ?_⟩
  · -- root_ne
    rw [hCstate]; exact hInv.root_ne
  · -- state_lt
    intro id; rw [hCstate]; exact hInv.state_lt id
  · -- bounded
    intro id h; rw [hCstate]; exact hInv.bounded id h
  · -- parent_ok
    by_cases h0 : H = 0
    · exact Or.inl h0
    · right
      rw [hCstate]
      exact (hInv.parent_inner H (by omega) hHN).mp (by rw [hH3]; omega)
  · -- parent_inner
    intro id h1 h2 _
    rw [hCstate]
    exact hInv.parent_inner id h1 h2
  · -- inner_lvl
    intro id h; rw [hCstate] at h; exact hInv.inner_lvl id h
  · -- used_low
    intro id h; rw [hCstate] at h; exact hInv.used_low id h
  · -- eager
    intro id h1 h3
    rw [hCstate] at h3 ⊢
    exact hInv.eager id h1 h3
  · -- clean
    intro id hne3
    rw [hCstate] at hne3
    have hidH : id ≠ H := by intro he; rw [he, hH3] at hne3; omega
    constructor
    · rw [hCprev, upd_ne _ _ _ _ hidH]
      cases hnx : s.nextP H with
      | none => exact (hInv.clean id hne3).1
      | some m2 =>
        by_cases him : id = m2
        · rw [him]
          show upd s.prevP m2 none m2 = none
          exact upd_same _ _ _
        · show upd s.prevP m2 none id = none
          rw [upd_ne _ _ _ _ him]
          exact (hInv.clean id hne3).1
    · rw [hCnext_other id hidH]
      exact (hInv.clean id hne3).2
  · -- desc
    intro w j hw hne
    rw [hCstate]
    exact desc_zero hInv (by rw [hH3]; omega) j w hw hne
  · -- freelists
    intro l hl
    by_cases hlm : l = m
    · -- the split level: the tail of the old list
      subst hlm
      refine ⟨L', ?_, hndc.2, ?_, ?_⟩
      · have hhead : sC.lists l = s.nextP H := by rw [hClists]; exact upd_same _ _ _
        rw [hhead]
        cases hL' : L' with
        | nil => rw [hL'] at hchain; exact hchain
        | cons h2 L'' =>
          rw [hL'] at hchain hHnotL hndc
          obtain ⟨hnx2, hpv2, hchain2⟩ := hchain
          have hh2H : h2 ≠ H := by intro he; exact hHnotL (by simp [he])
          refine ⟨hnx2, hCprev_m2 h2 hnx2 hh2H, ?_⟩
          rw [hCnext_other h2 hh2H]
          refine dllFrom_congr ?_ _ _ hchain2
          intro x hx
          have hxH : x ≠ H := by
            intro he
            exact hHnotL (List.mem_cons.mpr (Or.inr (he ▸ hx)))
          have hxh2 : x ≠ h2 := by
            intro he
            have := hndc.2
            rw [List.nodup_cons] at this
            exact this.1 (he ▸ hx)
          constructor
          · refine hCprev_other x hxH ?_
            rw [hnx2]
            intro he
            have : h2 = x := by injection he
            exact hxh2 this.symm
          · exact hCnext_other x hxH
      · rw [hCsizes, upd_same, hsz]
        simp
      · intro id
        rw [hCstate]
        constructor
        · intro hid
          have := (hmem id).mp (by simp [hid])
          exact ⟨this.1, this.2, fun he => hHnotL (he ▸ hid)⟩
        · rintro ⟨a, b, c⟩
          have := (hmem id).mpr ⟨a, b⟩
          simp at this
          rcases this with h | h
          · exact absurd h c
          · exact h
    · -- other levels
      obtain ⟨Ll, hdlll, hndl, hszl, hmeml⟩ := hInv.freelists l hl
      have hl_ne : ∀ x ∈ Ll, x ≠ H ∧ s.nextP H ≠ some x := by
        intro x hx
        have hx3 := (hmeml x).mp hx
        constructor
        · intro he
          rw [he] at hx3
          omega
        · intro he
          -- x would be the second node of level `m`
          cases hL' : L' with
          | nil =>
            rw [hL'] at hchain
            rw [hchain] at he
            cases he
          | cons h2 L'' =>
            rw [hL'] at hchain
            have hnx2 := hchain.1
            rw [hnx2] at he
            have hxh2 : h2 = x := by injection he
            have hmem2 := (hmem h2).mp (by rw [hL']; simp)
            rw [hxh2] at hmem2
            omega
      refine ⟨Ll, ?_, hndl, ?_, ?_⟩
      · have hhead : sC.lists l = s.lists l := by
          rw [hClists]
          exact upd_ne _ _ _ _ hlm
        rw [hhead]
        refine dllFrom_congr ?_ _ _ hdlll
        intro x hx
        exact ⟨hCprev_other x (hl_ne x hx).1 (hl_ne x hx).2, hCnext_other x (hl_ne x hx).1⟩
      · rw [hCsizes, upd_ne _ _ _ _ hlm]
        exact hszl
      · intro id
        rw [hCstate, hmeml]
        constructor
        · rintro ⟨a, b⟩
          refine ⟨a, b, ?_⟩
          intro he
          rw [he, hHlvl] at b
          exact hlm b.symm
        · rintro ⟨a, b, _⟩
          exact ⟨a, b⟩

theorem Inv.head_prev {s : BuddyState} (hInv : Inv s) {l x : Nat} (hl : l < DEPTH)
    (hx : s.lists l = some x) : s.prevP x = none := by
  obtain ⟨L, hdll, _, _, _⟩ := hInv.freelists l hl
  rw [hx] at hdll
  obtain ⟨L', rfl⟩ := dllFrom_head_cons hdll
  exact hdll.2.1

/-- Anatomy of a successful `buddy_alloc`: the computed target level, the
split level and the head taken off its list, the state `sC` right after the
head removal, and the fact that the rest of the run is `alloc_splitGo`
followed by marking the reached node used. -/
theorem buddy_alloc_some_elim {endA : Nat} {n : Int} {s : BuddyState} (hInv : Inv s)
    (hret : (buddy_alloc endA n s).ret ≠ none) :
    ∃ (t m H : Nat) (sC : BuddyState),
      0 < n ∧ n = ((2 ^ t : Nat) : Int) ∧ t ≤ 9 ∧
      find_split s t = some m ∧ t ≤ m ∧ m < DEPTH ∧ 0 < s.sizes m ∧
      s.lists m = some H ∧ s.state H = 3 ∧ nodeLvl H = m ∧ H < NODES ∧
      s.prevP H = none ∧
      sC.state = s.state ∧
      sC.prevP = upd (match s.nextP H with
        | some m2 => upd s.prevP m2 none
        | none => s.prevP) H none ∧
      sC.nextP = upd s.nextP H none ∧
      sC.lists = upd s.lists m (s.nextP H) ∧
      sC.sizes = upd s.sizes m (s.sizes m - 1) ∧
      PreSplit t sC H ∧
      SplitOut t sC H (alloc_splitGo t DEPTH sC H) ∧
      (buddy_alloc endA n s).st =
        { (alloc_splitGo t DEPTH sC H).1 with
          state := upd (alloc_splitGo t DEPTH sC H).1.state (alloc_splitGo t DEPTH sC H).2 1 } ∧
      (buddy_alloc endA n s).ret =
        some (nodeMem (PGROUNDUP endA) (alloc_splitGo t DEPTH sC H).2) := by
  by_cases h1 : n ≤ 0 ∨ 512 < n
  · exfalso
    apply hret
    show (buddy_alloc endA n s).ret = none
    unfold buddy_alloc
    rw [if_pos h1]
  have hn1 : 0 < n ∧ n ≤ 512 := by omega
  have hap := alloc_pow_spec n 10 1 0 (by norm_num)
    (by show n ≤ ((1024 : Nat) : Int); push_cast; omega)
  by_cases h2 : n ≠ ((alloc_pow n 10 (1, 0)).1 : Int)
  · exfalso
    apply hret
    show (buddy_alloc endA n s).ret = none
    unfold buddy_alloc
    rw [if_neg h1, if_pos h2]
  push_neg at h2
  set t := (alloc_pow n 10 (1, 0)).2 with ht
  have hnp : n = ((2 ^ t : Nat) : Int) := by rw [h2, hap.1]
  have ht9 : t ≤ 9 := by
    rcases hap.2.2.1 with h | h
    · omega
    · have hlt512 : ((2 ^ (t - 1) : Nat) : Int) < 512 := by omega
      have : (2 ^ (t - 1) : Nat) < 512 := by exact_mod_cast hlt512
      have h29 : (2 : Nat) ^ (t - 1) < 2 ^ 9 := this
      have := (Nat.pow_lt_pow_iff_right (by omega : 1 < 2)).mp h29
      omega
  cases hfs : find_split s t with
  | none =>
    exfalso
    apply hret
    show (buddy_alloc endA n s).ret = none
    unfold buddy_alloc
    rw [if_neg h1, if_neg (by push_neg; exact h2)]
    rw [← ht, hfs]
  | some m =>
    have hfsp := find_splitGo_some (DEPTH - t) t m hfs
    have htm : t ≤ m := hfsp.1
    have hmD : m < DEPTH := by have := hfsp.2.1; omega
    have hpos : 0 < s.sizes m := hfsp.2.2.1
    obtain ⟨H, hH⟩ := hInv.head_of_sizes hmD hpos
    have hmemH := hInv.head_mem hmD hH
    have hH3 : s.state H = 3 := hmemH.1
    have hHlvl : nodeLvl H = m := hmemH.2
    have hHN : H < NODES := hInv.state3_lt hH3
    have hprevH : s.prevP H = none := hInv.head_prev hmD hH
    -- the state right after removing the head and clearing its pointers
    refine ⟨t, m, H,
      { { unlink s H with prevP := upd (unlink s H).prevP H none } with
        nextP := upd { unlink s H with prevP := upd (unlink s H).prevP H none }.nextP H none },
      hn1.1, hnp, ht9, hfs, htm, hmD, hpos, hH, hH3, hHlvl, hHN, hprevH,
      ?_, ?_, ?_, ?_, ?_, ?_, ?_, ?_, ?_⟩
    case _ =>
      show (unlink s H).state = s.state
      rw [unlink_state]
    case _ =>
      show upd (unlink s H).prevP H none = _
      rw [unlink_prevP, hprevH]
    case _ =>
      show upd (unlink s H).nextP H none = upd s.nextP H none
      rw [unlink_nextP, hprevH]
    case _ =>
      show (unlink s H).lists = upd s.lists m (s.nextP H)
      rw [unlink_lists, hprevH, hHlvl]
    case _ =>
      show (unlink s H).sizes = upd s.sizes m (s.sizes m - 1)
      rw [unlink_sizes, hHlvl]
    case _ =>
      exact preSplit_unlink_head hInv ht9 htm hmD hH
        (by show (unlink s H).state = s.state; rw [unlink_state])
        (by show upd (unlink s H).prevP H none = _; rw [unlink_prevP, hprevH])
        (by show upd (unlink s H).nextP H none = upd s.nextP H none
            rw [unlink_nextP, hprevH])
        (by show (unlink s H).lists = upd s.lists m (s.nextP H)
            rw [unlink_lists, hprevH, hHlvl])
        (by show (unlink s H).sizes = upd s.sizes m (s.sizes m - 1)
            rw [unlink_sizes, hHlvl])
    case _ =>
      refine alloc_splitGo_spec DEPTH t _ H ?_ ?_
      · exact preSplit_unlink_head hInv ht9 htm hmD hH
          (by show (unlink s H).state = s.state; rw [unlink_state])
          (by show upd (unlink s H).prevP H none = _; rw [unlink_prevP, hprevH])
          (by show upd (unlink s H).nextP H none = upd s.nextP H none
              rw [unlink_nextP, hprevH])
          (by show (unlink s H).lists = upd s.lists m (s.nextP H)
              rw [unlink_lists, hprevH, hHlvl])
          (by show (unlink s H).sizes = upd s.sizes m (s.sizes m - 1)
              rw [unlink_sizes, hHlvl])
      · rw [hHlvl]
        have hmD' : m < 15 := hmD
        show m - t ≤ 15
        omega
    case _ =>
      show (buddy_alloc endA n s).st = _
      unfold buddy_alloc
      rw [if_neg h1, if_neg (by push_neg; exact h2), ← ht]
      simp only [hfs, hH, Option.getD_some]
    case _ =>
      show (buddy_alloc endA n s).ret = _
      unfold buddy_alloc
      rw [if_neg h1, if_neg (by push_neg; exact h2), ← ht]
      simp only [hfs, hH, Option.getD_some]

theorem pow_cast_inj {k t : Nat} (h : ((2 ^ k : Nat) : Int) = ((2 ^ t : Nat) : Int)) :
    k = t := by
  have hN : (2 : Nat) ^ k = 2 ^ t := by exact_mod_cast h
  exact Nat.pow_right_injective (by omega) hN

/-- `buddy_alloc` returns the null pointer exactly when the request is
invalid or no free node exists at or above the target level. -/
theorem buddy_alloc_none_iff (endA : Nat) (n : Int) (s : BuddyState) :
    (buddy_alloc endA n s).ret = none ↔
      (n ≤ 0 ∨ 512 < n ∨ (¬∃ k : Nat, n = ((2 ^ k : Nat) : Int)) ∨
       (∃ k : Nat, n = ((2 ^ k : Nat) : Int) ∧ ∀ l, k ≤ l → l < DEPTH → s.sizes l ≤ 0)) := by
  by_cases h1 : n ≤ 0 ∨ 512 < n
  · constructor
    · intro _
      rcases h1 with h | h
      · exact Or.inl h
      · exact Or.inr (Or.inl h)
    · intro _
      show (buddy_alloc endA n s).ret = none
      unfold buddy_alloc
      rw [if_pos h1]
  have hn1 : 0 < n ∧ n ≤ 512 := by omega
  have hap := alloc_pow_spec n 10 1 0 (by norm_num)
    (by show n ≤ ((1024 : Nat) : Int); push_cast; omega)
  set t := (alloc_pow n 10 (1, 0)).2 with ht
  by_cases h2 : n ≠ ((alloc_pow n 10 (1, 0)).1 : Int)
  · constructor
    · intro _
      right; right; left
      rintro ⟨k, hk⟩
      apply h2
      have hle : n ≤ ((2 ^ t : Nat) : Int) := by rw [← hap.1]; exact hap.2.1
      have hkt : k = t := by
        rcases hap.2.2.1 with h | h
        · rw [h] at hle
          have hle1 : n ≤ 1 := by simpa using hle
          have h2k : (2 : Nat) ^ k ≤ 1 := by
            have : ((2 ^ k : Nat) : Int) ≤ 1 := by rw [← hk]; exact hle1
            exact_mod_cast this
          have hk0 : k = 0 := by
            by_contra hc
            have h2le : 2 ≤ (2 : Nat) ^ k :=
              calc 2 = 2 ^ 1 := by norm_num
              _ ≤ 2 ^ k := Nat.pow_le_pow_right (by omega) (by omega)
            omega
          omega
        · have hlo : ((2 ^ (t - 1) : Nat) : Int) < n := h
          rw [hk] at hle hlo
          have hleN : (2 : Nat) ^ k ≤ 2 ^ t := by exact_mod_cast hle
          have hloN : (2 : Nat) ^ (t - 1) < 2 ^ k := by exact_mod_cast hlo
          have h1' := (Nat.pow_le_pow_iff_right (by omega : 1 < 2)).mp hleN
          have h2' := (Nat.pow_lt_pow_iff_right (by omega : 1 < 2)).mp hloN
          omega
      rw [hap.1, hk, hkt]
    · intro _
      show (buddy_alloc endA n s).ret = none
      unfold buddy_alloc
      rw [if_neg h1, if_pos h2]
  · push_neg at h2
    have hnp : n = ((2 ^ t : Nat) : Int) := by rw [h2, hap.1]
    have ht9 : t ≤ 9 := by
      rcases hap.2.2.1 with h | h
      · omega
      · have hlt512 : ((2 ^ (t - 1) : Nat) : Int) < 512 := by omega
        have hN : (2 ^ (t - 1) : Nat) < 512 := by exact_mod_cast hlt512
        have h512 : (512 : Nat) = 2 ^ 9 := by norm_num
        rw [h512] at hN
        have := (Nat.pow_lt_pow_iff_right (by omega : 1 < 2)).mp hN
        omega
    cases hfs : find_split s t with
    | none =>
      have hnone := (find_splitGo_none (DEPTH - t) t).mp hfs
      constructor
      · intro _
        right; right; right
        refine ⟨t, hnp, ?_⟩
        intro l hl1 hl2
        have := hnone l hl1 (by omega)
        omega
      · intro _
        show (buddy_alloc endA n s).ret = none
        unfold buddy_alloc
        rw [if_neg h1, if_neg (by push_neg; exact h2), ← ht, hfs]
    | some m =>
      have hfsp := find_splitGo_some (DEPTH - t) t m hfs
      constructor
      · intro hnone
        exfalso
        revert hnone
        show ¬((buddy_alloc endA n s).ret = none)
        unfold buddy_alloc
        rw [if_neg h1, if_neg (by push_neg; exact h2), ← ht]
        simp only [hfs]
        cases hH : s.lists m <;> simp
      · rintro (h | h | h | ⟨k, hk, hcond⟩)
        · omega
        · omega
        · exact absurd ⟨t, hnp⟩ h
        · exfalso
          have hkt : k = t := pow_cast_inj (by rw [← hk, ← hnp])
          rw [hkt] at hcond
          have := hcond m hfsp.1 (by have := hfsp.2.1; omega)
          have := hfsp.2.2.1
          omega

/-- A null return leaves the state untouched. -/
theorem buddy_alloc_none_st (endA : Nat) (n : Int) (s : BuddyState)
    (h : (buddy_alloc endA n s).ret = none) : (buddy_alloc endA n s).st = s := by
  unfold buddy_alloc at h ⊢
  by_cases h1 : n ≤ 0 ∨ 512 < n
  · rw [if_pos h1]
  rw [if_neg h1] at h ⊢
  by_cases h2 : n ≠ ((alloc_pow n 10 (1, 0)).1 : Int)
  · rw [if_pos h2]
  rw [if_neg h2] at h ⊢
  cases hfs : find_split s (alloc_pow n 10 (1, 0)).2 with
  | none => simp only [hfs]
  | some m =>
    simp only [hfs] at h
    cases hH : s.lists m <;> simp [hH] at h

/-- A request rejected for its size never reaches `acquire`. -/
theorem buddy_alloc_locked_false (endA : Nat) (n : Int) (s : BuddyState)
    (h : n ≤ 0 ∨ 512 < n ∨ ¬∃ k : Nat, n = ((2 ^ k : Nat) : Int)) :
    (buddy_alloc endA n s).locked = false := by
  unfold buddy_alloc
  by_cases h1 : n ≤ 0 ∨ 512 < n
  · rw [if_pos h1]
  rw [if_neg h1]
  have hn1 : 0 < n ∧ n ≤ 512 := by omega
  have hap := alloc_pow_spec n 10 1 0 (by norm_num)
    (by show n ≤ ((1024 : Nat) : Int); push_cast; omega)
  by_cases h2 : n ≠ ((alloc_pow n 10 (1, 0)).1 : Int)
  · rw [if_pos h2]
  · exfalso
    push_neg at h2
    rcases h with h | h | h
    · omega
    · omega
    · refine absurd ⟨(alloc_pow n 10 (1, 0)).2, ?_⟩ h
      conv_lhs => rw [h2]
      rw [hap.1]

/-- `buddy_alloc` preserves the global invariant. -/
theorem Inv_alloc (endA : Nat) (n : Int) {s : BuddyState} (hInv : Inv s) :
    Inv (buddy_alloc endA n s).st := by
  by_cases hret : (buddy_alloc endA n s).ret = none
  · rw [buddy_alloc_none_st endA n s hret]
    exact hInv
  · obtain ⟨t, m, H, sC, h⟩ := buddy_alloc_some_elim hInv hret
    rw [h.2.2.2.2.2.2.2.2.2.2.2.2.2.2.2.2.2.2.2.1]
    exact h.2.2.2.2.2.2.2.2.2.2.2.2.2.2.2.2.2.2.1.inv

/-! ## Additional tree geometry for the free path -/

/-- Fourteen parent steps from anywhere in the tree reach the root. -/
theorem pIter_depth_root : ∀ (j v : Nat), v < 2 ^ (j + 1) - 1 → pIter j v = 0 := by
  intro j
  induction j with
  | zero =>
    intro v hv
    have : v = 0 := by omega
    rw [this]; rfl
  | succ j ih =>
    intro v hv
    show pIter j (parentId v) = 0
    apply ih
    have h2 : 2 ^ (j + 1 + 1) = 2 * 2 ^ (j + 1) := by ring
    unfold parentId
    omega

theorem pIter_root {v : Nat} (hv : v < NODES) : pIter 14 v = 0 := by
  apply pIter_depth_root
  have : NODES = 2 ^ 15 - 1 := by norm_num [NODES, PAGES]
  omega

theorem neighbourId_ne {id : Nat} (h : id ≠ 0) : neighbourId id ≠ id := by
  unfold neighbourId
  rw [if_neg h]
  by_cases hp : id % 2 = 1 <;> simp [hp] <;> omega

theorem neighbourId_ne_zero {id : Nat} (h : id ≠ 0) : neighbourId id ≠ 0 := by
  unfold neighbourId
  rw [if_neg h]
  by_cases hp : id % 2 = 1 <;> simp [hp] <;> omega

theorem parentId_neighbourId {id : Nat} (h : id ≠ 0) :
    parentId (neighbourId id) = parentId id := by
  unfold neighbourId parentId
  rw [if_neg h]
  by_cases hp : id % 2 = 1 <;> simp [hp] <;> omega

theorem neighbourId_invol {x : Nat} (hx : x ≠ 0) :
    neighbourId (neighbourId x) = x := by
  by_cases hp : x % 2 = 1
  · have h1 : neighbourId x = x + 1 := by unfold neighbourId; rw [if_neg hx, if_pos hp]
    have h2 : neighbourId (x + 1) = x := by
      unfold neighbourId
      rw [if_neg (by omega), if_neg (by omega)]
      omega
    rw [h1, h2]
  · have h1 : neighbourId x = x - 1 := by unfold neighbourId; rw [if_neg hx, if_neg hp]
    have h2 : neighbourId (x - 1) = x := by
      unfold neighbourId
      rw [if_neg (by omega), if_pos (by omega)]
      omega
    rw [h1, h2]

theorem neighbourId_inj {x y : Nat} (hx : x ≠ 0) (hy : y ≠ 0)
    (h : neighbourId x = neighbourId y) : x = y := by
  have := congrArg neighbourId h
  rw [neighbourId_invol hx, neighbourId_invol hy] at this
  exact this

/-- The level of a buddy equals the node's level. -/
theorem nodeLvl_neighbourId {c : Nat} (hc : c ≠ 0) :
    nodeLvl (neighbourId c) = nodeLvl c := by
  by_cases hp : c % 2 = 1
  · have h1 : neighbourId c = c + 1 := by unfold neighbourId; rw [if_neg hc, if_pos hp]
    have h2 : leftId (parentId c) = c := leftId_parentId hp
    have h3 : rightId (parentId c) = c + 1 := by unfold rightId parentId; omega
    rw [h1, ← h3, nodeLvl_rightId]
    conv_rhs => rw [← h2, nodeLvl_leftId]
  · have hp0 : c % 2 = 0 := by omega
    have h1 : neighbourId c = c - 1 := by unfold neighbourId; rw [if_neg hc, if_neg hp]
    have h2 : rightId (parentId c) = c := rightId_parentId (by omega) hp0
    have h3 : leftId (parentId c) = c - 1 := by unfold leftId parentId; omega
    rw [h1, ← h3, nodeLvl_leftId]
    conv_rhs => rw [← h2, nodeLvl_rightId]

/-- The two children of a node's parent are the node and its buddy. -/
theorem sibling_lr {c : Nat} (hc : c ≠ 0) :
    (leftId (parentId c) = c ∧ rightId (parentId c) = neighbourId c) ∨
    (leftId (parentId c) = neighbourId c ∧ rightId (parentId c) = c) := by
  unfold leftId rightId parentId neighbourId
  rw [if_neg hc]
  by_cases hp : c % 2 = 1 <;> simp [hp] <;> omega

theorem children_of_parent {c p : Nat} (hc : c ≠ 0) (hp : parentId c = p) :
    c = leftId p ∨ c = rightId p := by
  unfold parentId at hp
  unfold leftId rightId
  omega

/-- A strict ancestor sits below half the node's index. -/
theorem pIter_lb {j cur : Nat} (hj : 1 ≤ j) (hc : cur ≠ 0) :
    2 * pIter j cur + 1 ≤ cur := by
  match j, hj with
  | j + 1, _ =>
    have h1 : pIter (j + 1) cur = pIter j (parentId cur) := rfl
    rw [h1]
    have h2 := pIter_le j (parentId cur)
    have h3 : 2 * parentId cur + 1 ≤ cur := by unfold parentId; omega
    omega

/-- The buddy of a strict ancestor is neither the node nor the node's buddy. -/
theorem nb_pIter_ne {i cur : Nat} (hi : 1 ≤ i) (hc : cur ≠ 0)
    (hpi : pIter i cur ≠ 0) :
    neighbourId (pIter i cur) ≠ cur ∧ neighbourId (pIter i cur) ≠ neighbourId cur := by
  have hlb := pIter_lb hi hc
  constructor
  · intro he
    have h2 : neighbourId (pIter i cur) ≤ pIter i cur + 1 := by
      unfold neighbourId
      rw [if_neg hpi]
      by_cases hp : pIter i cur % 2 = 1
      · rw [if_pos hp]
      · rw [if_neg hp]; omega
    have h3 : 1 ≤ pIter i cur := Nat.pos_of_ne_zero hpi
    omega
  · intro he
    have := neighbourId_inj hpi hc he
    omega

theorem leftIter_add (i : Nat) : ∀ (j c : Nat), leftIter (i + j) c = leftIter i (leftIter j c) := by
  intro j
  induction j with
  | zero => intro c; rfl
  | succ j ih =>
    intro c
    have h1 : leftIter (i + (j + 1)) c = leftIter (i + j) (leftId c) := by
      rw [show i + (j + 1) = (i + j) + 1 by omega]
      rfl
    have h2 : leftIter (j + 1) c = leftIter j (leftId c) := rfl
    rw [h1, h2]
    exact ih (leftId c)

theorem pIter_leftIter_of_le {i k : Nat} (h : i ≤ k) (c : Nat) :
    pIter i (leftIter k c) = leftIter (k - i) c := by
  have h1 : leftIter k c = leftIter i (leftIter (k - i) c) := by
    rw [← leftIter_add]
    congr 1
    omega
  rw [h1, pIter_leftIter]

theorem rightId_ne_leftIter {j x : Nat} (hj : 1 ≤ j) : leftIter j x ≠ rightId x := by
  match j, hj with
  | 1, _ =>
    show leftId x ≠ rightId x
    unfold leftId rightId
    omega
  | j + 2, _ =>
    have h1 : leftIter (j + 2) x = leftIter j (leftId (leftId x)) := rfl
    have h2 := leftIter_ge j (leftId (leftId x))
    rw [h1]
    unfold leftId rightId at *
    omega

/-- Every `memory` address is the arena base plus a whole number of pages. -/
theorem nodeMem_pgsize (base : Nat) : ∀ v, ∃ c, nodeMem base v = base + c * PGSIZE := by
  have key : ∀ n v, v ≤ n → ∃ c, nodeMem base v = base + c * PGSIZE := by
    intro n
    induction n with
    | zero =>
      intro v hv
      have hv0 : v = 0 := by omega
      exact ⟨0, by rw [hv0]; show base = base + 0 * PGSIZE; omega⟩
    | succ n ih =>
      intro v hv
      match v with
      | 0 => exact ⟨0, by show base = base + 0 * PGSIZE; omega⟩
      | v + 1 =>
        have hp : parentId (v + 1) ≤ n := by unfold parentId; omega
        obtain ⟨c, hc⟩ := ih (parentId (v + 1)) hp
        rw [nodeMem_succ]
        by_cases hpar : (v + 1) % 2 = 1
        · rw [if_pos hpar]; exact ⟨c, hc⟩
        · rw [if_neg hpar]
          exact ⟨c + nodeSize (v + 1), by rw [hc]; ring⟩
  intro v
  exact key v v (Nat.le_refl v)

/-- Every node's block lies inside the arena `[base, base + PAGES * PGSIZE)`. -/
theorem nodeMem_bounds (base : Nat) {v : Nat} (hv : v < NODES) :
    base ≤ nodeMem base v ∧ nodeMem base v + nodeSize v * PGSIZE ≤ base + PAGES * PGSIZE := by
  have h := anc_contained base 14 v hv
  rw [pIter_root hv] at h
  have h1 : nodeMem base 0 = base := rfl
  have h2 : nodeSize 0 = PAGES := rfl
  rw [h1, h2] at h
  exact h

theorem le_PGROUNDUP (a : Nat) : a ≤ PGROUNDUP a := by
  unfold PGROUNDUP PGSIZE
  omega

theorem PGROUNDUP_mod (a : Nat) : PGROUNDUP a % PGSIZE = 0 := by
  unfold PGROUNDUP
  exact Nat.mul_mod_left _ _

/-- Strict ancestors of a node that exists are all inner, as far up as the
chain has not passed the root. -/
theorem anc_inner {s : BuddyState} (hInv : Inv s) {w : Nat} (hw : s.state w ≠ 0)
    (hwN : w < NODES) : ∀ i, pIter i w ≠ 0 → s.state (pIter (i + 1) w) = 2 := by
  intro i
  induction i with
  | zero =>
    intro h0
    have h1 : pIter 1 w = parentId w := by rw [pIter_succ_out]; rfl
    rw [h1]
    exact (hInv.parent_inner w (Nat.pos_of_ne_zero h0) hwN).mp hw
  | succ i ih =>
    intro h
    have hprev : pIter i w ≠ 0 := by
      intro he
      apply h
      rw [pIter_succ_out, he]
      rfl
    have h2 := ih hprev
    have hpos : 0 < pIter (i + 1) w := Nat.pos_of_ne_zero h
    have hlt : pIter (i + 1) w < NODES := pIter_lt_NODES hwN
    have h3 := (hInv.parent_inner _ hpos hlt).mp (by rw [h2]; omega)
    rw [pIter_succ_out (i + 1) w]
    exact h3

theorem used_ne_zero {s : BuddyState} (hInv : Inv s) {u : Nat} (hu : s.state u = 1) :
    u ≠ 0 := by
  intro he
  have h9 := hInv.used_low u hu
  rw [he, nodeLvl_zero] at h9
  omega

/-- Two distinct used nodes cover disjoint byte ranges. -/
theorem used_disjoint (base : Nat) {s : BuddyState} (hInv : Inv s) {u v : Nat}
    (hu : s.state u = 1) (hv : s.state v = 1) (hne : u ≠ v) :
    nodeMem base u + nodeSize u * PGSIZE ≤ nodeMem base v ∨
    nodeMem base v + nodeSize v * PGSIZE ≤ nodeMem base u := by
  have huN := hInv.state1_lt hu
  have hvN := hInv.state1_lt hv
  have key : ∀ a b : Nat, s.state a = 1 → s.state b = 1 → b < NODES →
      ∀ j, 1 ≤ j → pIter j b ≠ a := by
    intro a b ha hb hbN j hj he
    by_cases h0 : pIter (j - 1) b = 0
    · have ha0 : a = 0 := by
        rw [← he, show j = (j - 1) + 1 by omega, pIter_succ_out, h0]
        rfl
      exact absurd ha0 (used_ne_zero hInv ha)
    · have h2 := anc_inner hInv (by rw [hb]; omega) hbN (j - 1) h0
      rw [show (j - 1) + 1 = j by omega, he] at h2
      omega
  rcases anc_or_disj base huN hvN hne with ⟨j, hj1, hj⟩ | ⟨j, hj1, hj⟩ | h
  · exact absurd hj (key u v hu hv hvN j hj1)
  · exact absurd hj (key v u hv hu huN j hj1)
  · exact h

/-- The used node covering a given base address is unique. -/
theorem used_mem_unique {base : Nat} {s : BuddyState} (hInv : Inv s) {u v : Nat}
    (hu : s.state u = 1) (hv : s.state v = 1)
    (hmem : nodeMem base u = nodeMem base v) : u = v := by
  by_contra hne
  have hsz := nodeSize_pos (hInv.state1_lt hu)
  have hsz2 := nodeSize_pos (hInv.state1_lt hv)
  have hpg : 1 ≤ PGSIZE := by norm_num [PGSIZE]
  rcases used_disjoint base hInv hu hv hne with h | h
  · have := Nat.mul_le_mul hsz hpg
    omega
  · have := Nat.mul_le_mul hsz2 hpg
    omega

/-- Any strict descendant of `H` is on the left spine down to
`leftIter k H`, or weakly below one of the right children hanging off that
spine, or strictly below `leftIter k H` itself. -/
theorem desc_split : ∀ (k H v jv : Nat), pIter jv v = H → v ≠ H →
    (∃ j, 1 ≤ j ∧ j ≤ k ∧ v = leftIter j H) ∨
    (∃ j jj, j < k ∧ pIter jj v = rightId (leftIter j H)) ∨
    (∃ jj, pIter jj v = leftIter k H ∧ v ≠ leftIter k H) := by
  intro k
  induction k with
  | zero =>
    intro H v jv h hne
    exact Or.inr (Or.inr ⟨jv, h, hne⟩)
  | succ k ih =>
    intro H v jv h hne
    have hex : ∃ j, pIter j v = H := ⟨jv, h⟩
    have hspec := Nat.find_spec hex
    have hj0pos : Nat.find hex ≠ 0 := by
      intro he
      apply hne
      have h0 : pIter 0 v = H := by rw [← he]; exact hspec
      exact h0
    obtain ⟨j1, hj1⟩ : ∃ j1, Nat.find hex = j1 + 1 := ⟨Nat.find hex - 1, by omega⟩
    have hc_ne : pIter j1 v ≠ H := Nat.find_min hex (by omega)
    have hpar : parentId (pIter j1 v) = H := by
      rw [← pIter_succ_out, ← hj1]
      exact hspec
    have hc0 : pIter j1 v ≠ 0 := by
      intro he
      rw [he] at hpar
      have h00 : parentId 0 = 0 := rfl
      rw [h00] at hpar
      exact hc_ne (by rw [he, ← hpar])
    rcases children_of_parent hc0 hpar with hcl | hcr
    · by_cases hveq : v = leftId H
      · exact Or.inl ⟨1, by omega, by omega, by rw [hveq]; rfl⟩
      · rcases ih (leftId H) v j1 hcl hveq with ⟨j, ha, hb, hcc⟩ | ⟨j, jj, ha, hb⟩ | ⟨jj, ha, hb⟩
        · refine Or.inl ⟨j + 1, by omega, by omega, ?_⟩
          rw [hcc]
          rfl
        · refine Or.inr (Or.inl ⟨j + 1, jj, by omega, ?_⟩)
          rw [hb]
          rfl
        · refine Or.inr (Or.inr ⟨jj, ?_, ?_⟩)
          · rw [ha]; rfl
          · intro he
            apply hb
            rw [he]
            rfl
    · exact Or.inr (Or.inl ⟨0, j1, by omega, by rw [hcr]; rfl⟩)

/-! ## The coalescing loop of `buddy_free` -/

/-- The loop invariant of the coalescing ascent of `buddy_free`: it holds
whenever the loop guard is about to be tested with current node `cur`.  It
is the global invariant except that `cur` is still used (first iteration)
or inner with both children already erased (later iterations), and will
only become free after the loop.  The free lists satisfy the full
consistency law throughout, because the loop erases a node's state in the
same step that unlinks it. -/
structure PreFree (s : BuddyState) (cur : Nat) : Prop where
  cur_lt : cur < NODES
  cur_st : s.state cur = 1 ∨ s.state cur = 2
  root_ne : s.state 0 ≠ 0
  state_lt : ∀ id, s.state id < 4
  bounded : ∀ id, NODES ≤ id → s.state id = 0
  parent_ok : cur = 0 ∨ s.state (parentId cur) = 2
  parent_inner : ∀ id, 0 < id → id < NODES → parentId id ≠ cur →
    (s.state id ≠ 0 ↔ s.state (parentId id) = 2)
  inner_lvl : ∀ id, s.state id = 2 → 1 ≤ nodeLvl id
  used_low : ∀ id, s.state id = 1 → nodeLvl id ≤ 9
  eager : ∀ id, 0 < id → s.state id = 3 → s.state (neighbourId id) ≠ 3
  clean : ∀ id, s.state id ≠ 3 → s.prevP id = none ∧ s.nextP id = none
  desc : ∀ w j, pIter j w = cur → w ≠ cur → s.state w = 0
  freelists : ∀ l, l < DEPTH → ∃ L, freeListAt s l L

/-- A used node of an invariant state is a valid entry point of the
coalescing loop. -/
theorem preFree_of_used {s : BuddyState} (hInv : Inv s) {u : Nat}
    (hu : s.state u = 1) : PreFree s u := by
  have huN := hInv.state1_lt hu
  refine ⟨huN, Or.inl hu, hInv.root_ne, hInv.state_lt, hInv.bounded, ?_,
    fun id h1 h2 _ => hInv.parent_inner id h1 h2, hInv.inner_lvl, hInv.used_low,
    hInv.eager, hInv.clean, ?_, hInv.freelists⟩
  · have hu0 := used_ne_zero hInv hu
    exact Or.inr ((hInv.parent_inner u (Nat.pos_of_ne_zero hu0) huN).mp (by omega))
  · intro w j hj hw
    exact desc_zero hInv (by rw [hu]; omega) j w hj hw

/-- Mid-loop version of `desc_zero`: below a node that is neither inner nor
the loop's current node, everything is nonexistent. -/
theorem preFree_desc_zero {s : BuddyState} {cur : Nat} (hP : PreFree s cur) {v : Nat}
    (hv : s.state v ≠ 2) (hvcur : v ≠ cur) :
    ∀ j w, pIter j w = v → w ≠ v → s.state w = 0 := by
  have key : ∀ j w, pIter j w = v → (w = v ∨ s.state w = 0) := by
    intro j
    induction j with
    | zero => intro w hw; exact Or.inl hw
    | succ j ih =>
      intro w hw
      have hw' : pIter j (parentId w) = v := hw
      rcases ih (parentId w) hw' with hc | hc
      · by_cases hw0 : w = 0
        · left
          rw [hw0]
          rw [hw0, show parentId 0 = 0 from rfl] at hc
          exact hc
        by_cases hwN : NODES ≤ w
        · exact Or.inr (hP.bounded w hwN)
        · right
          have hpi := hP.parent_inner w (by omega) (by omega) (by rw [hc]; exact hvcur)
          rw [hc] at hpi
          by_contra hne0
          exact hv (hpi.mp hne0)
      · by_cases hw0 : w = 0
        · exfalso
          rw [hw0, show parentId 0 = 0 from rfl] at hc
          exact hP.root_ne hc
        by_cases hwN : NODES ≤ w
        · exact Or.inr (hP.bounded w hwN)
        · right
          have hpcur : parentId w ≠ cur := by
            intro he
            rw [he] at hc
            rcases hP.cur_st with h1 | h1 <;> omega
          have hpi := hP.parent_inner w (by omega) (by omega) hpcur
          by_contra hne0
          have h2 := hpi.mp hne0
          rw [hc] at h2
          omega
  intro j w hw hne
  rcases key j w hw with h | h
  · exact absurd h hne
  · exact h

/-- One iteration of the coalescing loop preserves the loop invariant: with
the guard true for `cur`, erasing `cur` and its buddy `nb`, unlinking `nb`
and clearing its pointers leaves a valid loop state at `parentId cur`.  The
five field equations describe the state the loop body builds. -/
theorem preFree_step {s s5 : BuddyState} {cur nb : Nat} (hP : PreFree s cur)
    (hc0 : cur ≠ 0) (hnbdef : nb = neighbourId cur) (hnb3 : s.state nb = 3)
    (h5state : s5.state = upd (upd s.state cur 0) nb 0)
    (h5prev : s5.prevP = upd (unlink s nb).prevP nb none)
    (h5next : s5.nextP = upd (unlink s nb).nextP nb none)
    (h5lists : s5.lists = (unlink s nb).lists)
    (h5sizes : s5.sizes = (unlink s nb).sizes) :
    PreFree s5 (parentId cur) := by
  have hnbne : nb ≠ cur := by rw [hnbdef]; exact neighbourId_ne hc0
  have hnb0 : nb ≠ 0 := by rw [hnbdef]; exact neighbourId_ne_zero hc0
  have hnbN : nb < NODES := by
    by_contra hcon
    have := hP.bounded nb (by omega)
    omega
  have hnblvl : nodeLvl nb = nodeLvl cur := by rw [hnbdef]; exact nodeLvl_neighbourId hc0
  have hparnb : parentId nb = parentId cur := by rw [hnbdef]; exact parentId_neighbourId hc0
  have hcN := hP.cur_lt
  have hplt : parentId cur < cur := parentId_lt (Nat.pos_of_ne_zero hc0)
  have hpN : parentId cur < NODES := by omega
  have hp2 : s.state (parentId cur) = 2 := by
    rcases hP.parent_ok with h | h
    · exact absurd h hc0
    · exact h
  have hcur_st := hP.cur_st
  have hnbval : nb = cur + 1 ∨ (nb = cur - 1 ∧ 2 ≤ cur) := by
    rw [hnbdef]
    unfold neighbourId
    rw [if_neg hc0]
    by_cases hpar : cur % 2 = 1
    · left; rw [if_pos hpar]
    · right; rw [if_neg hpar]; omega
  have hpval : parentId cur = (cur - 1) / 2 := rfl
  have hpnb : parentId cur ≠ nb := by omega
  have hst : ∀ id, id ≠ cur → id ≠ nb → s5.state id = s.state id := by
    intro id h1 h2
    rw [h5state]
    show upd (upd s.state cur 0) nb 0 id = s.state id
    rw [upd_ne _ _ _ _ h2, upd_ne _ _ _ _ h1]
  have hstcur : s5.state cur = 0 := by
    rw [h5state]
    show upd (upd s.state cur 0) nb 0 cur = 0
    rw [upd_ne _ _ _ _ (fun he => hnbne he.symm)]
    exact upd_same _ _ _
  have hstnb : s5.state nb = 0 := by
    rw [h5state]; exact upd_same _ _ _
  have hlnbD : nodeLvl nb < DEPTH := by
    have := nodeLvl_le_14 nb
    show nodeLvl nb < 15
    omega
  obtain ⟨L, hdll, hnd, hsz, hmem⟩ := hP.freelists (nodeLvl nb) hlnbD
  have hnbL : nb ∈ L := (hmem nb).mpr ⟨hnb3, rfl⟩
  obtain ⟨L₁, L₂, hLeq⟩ := List.append_of_mem hnbL
  have hnext_st : ∀ x, s.nextP nb = some x → x ∈ L := by
    intro x hx
    rw [hLeq] at hdll
    have h2 := dllFrom_next_at L₁ none (s.lists (nodeLvl nb)) hdll
    rw [hx] at h2
    cases hL2 : L₂ with
    | nil => rw [hL2] at h2; cases h2
    | cons b L₂' =>
      rw [hL2] at h2
      have hxb : x = b := by injection h2
      rw [hLeq, hL2, hxb]
      simp
  have hprev_st : ∀ x, s.prevP nb = some x → x ∈ L := by
    intro x hx
    cases hL1 : L₁ with
    | nil =>
      rw [hLeq, hL1] at hdll
      have h2 := hdll.2.1
      rw [hx] at h2
      cases h2
    | cons a L₁' =>
      rw [hLeq, hL1] at hdll
      obtain ⟨p, hp, hpeq⟩ := dllFrom_prev_of_prefix (a :: L₁') none _ (by simp) hdll
      rw [hx] at hpeq
      have hxp : x = p := by injection hpeq
      rw [hLeq, hL1, hxp]
      simp only [List.mem_append, List.mem_cons]
      rcases List.mem_cons.mp hp with h | h
      · exact Or.inl (Or.inl h)
      · exact Or.inl (Or.inr h)
  have hptr3 : ∀ x, (s.nextP nb = some x ∨ s.prevP nb = some x) →
      s.state x = 3 ∧ nodeLvl x = nodeLvl nb := by
    intro x hx
    have hxL : x ∈ L := by
      rcases hx with h | h
      · exact hnext_st x h
      · exact hprev_st x h
    exact (hmem x).mp hxL
  have hprev5 : ∀ id, id ≠ nb → s5.prevP id = (unlink s nb).prevP id := by
    intro id h
    rw [h5prev]
    exact upd_ne _ _ _ _ h
  have hnext5 : ∀ id, id ≠ nb → s5.nextP id = (unlink s nb).nextP id := by
    intro id h
    rw [h5next]
    exact upd_ne _ _ _ _ h
  have hprev5nb : s5.prevP nb = none := by rw [h5prev]; exact upd_same _ _ _
  have hnext5nb : s5.nextP nb = none := by rw [h5next]; exact upd_same _ _ _
  refine ⟨hpN, ?_, ?_, ?_, ?_, ?_, ?_, ?_, ?_, ?_, ?_, ?_, ?_⟩
  · -- cur_st
    right
    rw [hst (parentId cur) (by omega) hpnb]
    exact hp2
  · -- root_ne
    rw [hst 0 (fun he => hc0 he.symm) (fun he => hnb0 he.symm)]
    exact hP.root_ne
  · -- state_lt
    intro id
    by_cases h1 : id = cur
    · rw [h1, hstcur]; omega
    by_cases h2 : id = nb
    · rw [h2, hstnb]; omega
    rw [hst id h1 h2]
    exact hP.state_lt id
  · -- bounded
    intro id hid
    rw [hst id (by omega) (by omega)]
    exact hP.bounded id hid
  · -- parent_ok
    by_cases hp0 : parentId cur = 0
    · exact Or.inl hp0
    · right
      have hpp := parentId_lt (Nat.pos_of_ne_zero hp0)
      have h1 : parentId (parentId cur) ≠ cur := by omega
      have h2 := (hP.parent_inner (parentId cur) (Nat.pos_of_ne_zero hp0) hpN h1).mp
        (by omega)
      rw [hst _ (by omega) (by omega)]
      exact h2
  · -- parent_inner
    intro id hpos hlt hpar
    have hidcur : id ≠ cur := fun he => hpar (by rw [he])
    have hidnb : id ≠ nb := fun he => hpar (by rw [he, hparnb])
    rw [hst id hidcur hidnb]
    by_cases hpc : parentId id = cur
    · have h0 : s.state id = 0 := by
        apply hP.desc id 1 _ hidcur
        show pIter 0 (parentId id) = cur
        exact hpc
      rw [hpc, hstcur, h0]
      simp
    · by_cases hpnb2 : parentId id = nb
      · have h0 : s.state id = 0 := by
          have hpi := hP.parent_inner id hpos hlt (by rw [hpnb2]; exact hnbne)
          by_contra hne0
          have h2 := hpi.mp hne0
          rw [hpnb2, hnb3] at h2
          omega
        rw [hpnb2, hstnb, h0]
        simp
      · rw [hst (parentId id) hpc hpnb2]
        exact hP.parent_inner id hpos hlt hpc
  · -- inner_lvl
    intro id h2
    by_cases h1 : id = cur
    · rw [h1, hstcur] at h2; omega
    by_cases h1b : id = nb
    · rw [h1b, hstnb] at h2; omega
    rw [hst id h1 h1b] at h2
    exact hP.inner_lvl id h2
  · -- used_low
    intro id h2
    by_cases h1 : id = cur
    · rw [h1, hstcur] at h2; omega
    by_cases h1b : id = nb
    · rw [h1b, hstnb] at h2; omega
    rw [hst id h1 h1b] at h2
    exact hP.used_low id h2
  · -- eager
    intro id hpos h3
    by_cases h1 : id = cur
    · rw [h1, hstcur] at h3; omega
    by_cases h1b : id = nb
    · rw [h1b, hstnb] at h3; omega
    rw [hst id h1 h1b] at h3
    have hne3 := hP.eager id hpos h3
    by_cases h2 : neighbourId id = cur
    · rw [h2, hstcur]; omega
    by_cases h2b : neighbourId id = nb
    · rw [h2b, hstnb]; omega
    rw [hst _ h2 h2b]
    exact hne3
  · -- clean
    intro id hid3
    by_cases h1 : id = nb
    · rw [h1]; exact ⟨hprev5nb, hnext5nb⟩
    have hid_st : s.state id ≠ 3 := by
      by_cases h2 : id = cur
      · rw [h2]; rcases hcur_st with h | h <;> omega
      · rw [← hst id h2 h1]; exact hid3
    constructor
    · rw [hprev5 id h1, unlink_prevP]
      cases hm : s.nextP nb with
      | none =>
        show s.prevP id = none
        exact (hP.clean id hid_st).1
      | some m =>
        show upd s.prevP m (s.prevP nb) id = none
        have hm3 := (hptr3 m (Or.inl hm)).1
        have hne : id ≠ m := fun he => hid_st (by rw [he]; exact hm3)
        rw [upd_ne _ _ _ _ hne]
        exact (hP.clean id hid_st).1
    · rw [hnext5 id h1, unlink_nextP]
      cases hpn : s.prevP nb with
      | none =>
        show s.nextP id = none
        exact (hP.clean id hid_st).2
      | some p =>
        show upd s.nextP p (s.nextP nb) id = none
        have hp3 := (hptr3 p (Or.inr hpn)).1
        have hne : id ≠ p := fun he => hid_st (by rw [he]; exact hp3)
        rw [upd_ne _ _ _ _ hne]
        exact (hP.clean id hid_st).2
  · -- desc
    intro w j hj hw
    have hex : ∃ i, pIter i w = parentId cur := ⟨j, hj⟩
    have hspec := Nat.find_spec hex
    have hj0 : Nat.find hex ≠ 0 := by
      intro he
      apply hw
      have h0 : pIter 0 w = parentId cur := by rw [← he]; exact hspec
      exact h0
    obtain ⟨j1, hj1⟩ : ∃ j1, Nat.find hex = j1 + 1 := ⟨Nat.find hex - 1, by omega⟩
    have hc_ne : pIter j1 w ≠ parentId cur := Nat.find_min hex (by omega)
    have hpar2 : parentId (pIter j1 w) = parentId cur := by
      rw [← pIter_succ_out, ← hj1]; exact hspec
    have hcc0 : pIter j1 w ≠ 0 := by
      intro he
      rw [he] at hpar2
      have h00 : parentId 0 = 0 := rfl
      rw [h00] at hpar2
      exact hc_ne (by rw [he, ← hpar2])
    have hlr := sibling_lr hc0
    rw [← hnbdef] at hlr
    have hch : pIter j1 w = cur ∨ pIter j1 w = nb := by
      rcases children_of_parent hcc0 hpar2 with h | h <;>
        rcases hlr with ⟨ha, hb⟩ | ⟨ha, hb⟩
      · left; rw [h, ha]
      · right; rw [h, ha]
      · right; rw [h, hb]
      · left; rw [h, hb]
    rcases hch with hcase | hcase
    · by_cases hwc : w = cur
      · rw [hwc]; exact hstcur
      · have h0 := hP.desc w j1 hcase hwc
        have hwnb : w ≠ nb := by
          intro he
          rw [he] at hcase
          cases j1 with
          | zero => exact hnbne hcase
          | succ j2 =>
            have h1 : pIter (j2 + 1) nb = pIter j2 (parentId nb) := rfl
            rw [h1, hparnb] at hcase
            have h2 := pIter_le j2 (parentId cur)
            omega
        rw [hst w hwc hwnb]
        exact h0
    · by_cases hwnb : w = nb
      · rw [hwnb]; exact hstnb
      · have h0 := preFree_desc_zero hP (by rw [hnb3]; omega) hnbne j1 w hcase hwnb
        have hwc : w ≠ cur := by
          intro he
          rw [he] at hcase
          cases j1 with
          | zero => exact hnbne hcase.symm
          | succ j2 =>
            have h1 : pIter (j2 + 1) cur = pIter j2 (parentId cur) := rfl
            rw [h1] at hcase
            have h2 := pIter_le j2 (parentId cur)
            omega
        rw [hst w hwc hwnb]
        exact h0
  · -- freelists
    intro l hl
    by_cases hll : l = nodeLvl nb
    · refine ⟨L₁ ++ L₂, ?_, ?_, ?_, ?_⟩
      · rw [hll, h5lists]
        have hself := dllFrom_unlink_self s nb L₁ L₂
          (by rw [← hLeq]; exact hdll) (by rw [← hLeq]; exact hnd)
        refine dllFrom_congr ?_ none ((unlink s nb).lists (nodeLvl nb)) hself
        intro a ha
        have hnbnot : nb ∉ L₁ ++ L₂ := by
          rw [hLeq] at hnd
          intro hmem2
          rcases List.mem_append.mp hmem2 with h | h
          · exact (List.disjoint_of_nodup_append hnd) h (by simp)
          · have h2 := List.Nodup.of_append_right hnd
            exact (List.nodup_cons.mp h2).1 h
        have hanb : a ≠ nb := fun he => hnbnot (he ▸ ha)
        exact ⟨hprev5 a hanb, hnext5 a hanb⟩
      · have hsub : (L₁ ++ L₂).Sublist (L₁ ++ nb :: L₂) :=
          List.Sublist.append_left (List.sublist_cons_self nb L₂) L₁
        exact List.Nodup.sublist hsub (by rw [← hLeq]; exact hnd)
      · rw [h5sizes, hll, unlink_sizes]
        show upd s.sizes (nodeLvl nb) (s.sizes (nodeLvl nb) - 1) (nodeLvl nb) = _
        rw [upd_same, hsz, hLeq]
        simp only [List.length_append, List.length_cons]
        push_cast
        ring
      · intro id
        have hnbnot : nb ∉ L₁ ++ L₂ := by
          rw [hLeq] at hnd
          intro hmem2
          rcases List.mem_append.mp hmem2 with h | h
          · exact (List.disjoint_of_nodup_append hnd) h (by simp)
          · have h2 := List.Nodup.of_append_right hnd
            exact (List.nodup_cons.mp h2).1 h
        constructor
        · intro hid
          have hidL : id ∈ L := by
            rw [hLeq]
            rcases List.mem_append.mp hid with h | h
            · exact List.mem_append.mpr (Or.inl h)
            · exact List.mem_append.mpr (Or.inr (List.mem_cons_of_mem _ h))
          have hidnb : id ≠ nb := fun he => hnbnot (he ▸ hid)
          obtain ⟨h3, hlvl2⟩ := (hmem id).mp hidL
          have hidcur : id ≠ cur := by
            intro he
            rw [he] at h3
            rcases hcur_st with h | h <;> omega
          rw [hll]
          exact ⟨by rw [hst id hidcur hidnb]; exact h3, hlvl2⟩
        · rintro ⟨h3, hlvl2⟩
          have hidnb : id ≠ nb := by
            intro he
            rw [he, hstnb] at h3
            omega
          have hidcur : id ≠ cur := by
            intro he
            rw [he, hstcur] at h3
            omega
          rw [hst id hidcur hidnb] at h3
          rw [hll] at hlvl2
          have hidL : id ∈ L := (hmem id).mpr ⟨h3, hlvl2⟩
          rw [hLeq] at hidL
          rcases List.mem_append.mp hidL with h | h
          · exact List.mem_append.mpr (Or.inl h)
          · rcases List.mem_cons.mp h with h2 | h2
            · exact absurd h2 hidnb
            · exact List.mem_append.mpr (Or.inr h2)
    · obtain ⟨L', hdll', hnd', hsz', hmem'⟩ := hP.freelists l hl
      have hLprop : ∀ a ∈ L', a ≠ nb ∧ s.prevP nb ≠ some a ∧ s.nextP nb ≠ some a := by
        intro a ha
        obtain ⟨ha3, halvl⟩ := (hmem' a).mp ha
        refine ⟨?_, ?_, ?_⟩
        · intro he
          rw [he] at halvl
          exact hll halvl.symm
        · intro he
          have h2 := (hptr3 a (Or.inr he)).2
          rw [halvl] at h2
          exact hll h2
        · intro he
          have h2 := (hptr3 a (Or.inl he)).2
          rw [halvl] at h2
          exact hll h2
      have hother := dllFrom_unlink_other s nb (fun he => hll he) hLprop hdll'
      refine ⟨L', ?_, hnd', ?_, ?_⟩
      · rw [h5lists]
        refine dllFrom_congr ?_ none ((unlink s nb).lists l) hother
        intro a ha
        have hanb := (hLprop a ha).1
        exact ⟨hprev5 a hanb, hnext5 a hanb⟩
      · rw [h5sizes, unlink_sizes]
        show upd s.sizes (nodeLvl nb) (s.sizes (nodeLvl nb) - 1) l = _
        rw [upd_ne _ _ _ _ hll]
        exact hsz'
      · intro id
        constructor
        · intro hid
          obtain ⟨h3, hlvl2⟩ := (hmem' id).mp hid
          have hidnb : id ≠ nb := by
            intro he
            rw [he] at hlvl2
            exact hll hlvl2.symm
          have hidcur : id ≠ cur := by
            intro he
            rw [he] at h3
            rcases hcur_st with h | h <;> omega
          exact ⟨by rw [hst id hidcur hidnb]; exact h3, hlvl2⟩
        · rintro ⟨h3, hlvl2⟩
          have hidnb : id ≠ nb := by
            intro he
            rw [he, hstnb] at h3
            omega
          have hidcur : id ≠ cur := by
            intro he
            rw [he, hstcur] at h3
            omega
          rw [hst id hidcur hidnb] at h3
          exact (hmem' id).mpr ⟨h3, hlvl2⟩

/-- Unfolding one true iteration of the coalescing loop. -/
theorem coalesceGo_succ_true {fuel : Nat} {s : BuddyState} {cur : Nat}
    (h0 : cur ≠ 0) (h3 : s.state (neighbourId cur) = 3) :
    coalesceGo (fuel + 1) s cur =
      coalesceGo fuel
        { unlink { s with state := upd (upd s.state cur 0) (neighbourId cur) 0 }
            (neighbourId cur) with
          prevP := upd (unlink { s with state := upd (upd s.state cur 0) (neighbourId cur) 0 }
            (neighbourId cur)).prevP (neighbourId cur) none
          nextP := upd (unlink { s with state := upd (upd s.state cur 0) (neighbourId cur) 0 }
            (neighbourId cur)).nextP (neighbourId cur) none }
        (parentId cur) := by
  show (if cur ≠ 0 ∧ s.state (neighbourId cur) = 3 then _ else _) = _
  rw [if_pos ⟨h0, h3⟩]

/-- Unfolding the loop when the guard fails. -/
theorem coalesceGo_succ_false {fuel : Nat} {s : BuddyState} {cur : Nat}
    (h : ¬(cur ≠ 0 ∧ s.state (neighbourId cur) = 3)) :
    coalesceGo (fuel + 1) s cur = (s, cur) := by
  show (if cur ≠ 0 ∧ s.state (neighbourId cur) = 3 then _ else _) = _
  rw [if_neg h]

/-- The coalescing loop, run with enough fuel from a valid loop state,
terminates in a valid loop state with a false guard; every node other than
the entry node keeps its state or is erased; used nodes other than the
entry node survive; the final node is an ancestor of the entry node with
its original state, and the entry node is the final node or erased. -/
theorem coalesceGo_inv : ∀ (fuel : Nat) (s : BuddyState) (cur : Nat), PreFree s cur →
    DEPTH - nodeLvl cur ≤ fuel →
    PreFree (coalesceGo fuel s cur).1 (coalesceGo fuel s cur).2 ∧
    ((coalesceGo fuel s cur).2 = 0 ∨
      (coalesceGo fuel s cur).1.state (neighbourId (coalesceGo fuel s cur).2) ≠ 3) ∧
    (∀ v, (coalesceGo fuel s cur).1.state v = s.state v ∨
      (coalesceGo fuel s cur).1.state v = 0) ∧
    (∀ v, v ≠ cur → s.state v = 1 → (coalesceGo fuel s cur).1.state v = 1) ∧
    (coalesceGo fuel s cur).1.state (coalesceGo fuel s cur).2 =
      s.state (coalesceGo fuel s cur).2 ∧
    (∃ j, (coalesceGo fuel s cur).2 = pIter j cur ∧ ∀ i, i < j → pIter i cur ≠ 0) ∧
    ((coalesceGo fuel s cur).2 = cur ∨ (coalesceGo fuel s cur).1.state cur = 0) := by
  intro fuel
  induction fuel with
  | zero =>
    intro s cur hP hf
    exfalso
    have h14 := nodeLvl_le_14 cur
    have hD : DEPTH = 15 := rfl
    omega
  | succ fuel ih =>
    intro s cur hP hf
    by_cases hg : cur ≠ 0 ∧ s.state (neighbourId cur) = 3
    · rw [coalesceGo_succ_true hg.1 hg.2]
      generalize hS :
        ({ unlink { s with state := upd (upd s.state cur 0) (neighbourId cur) 0 }
            (neighbourId cur) with
          prevP := upd (unlink { s with state := upd (upd s.state cur 0) (neighbourId cur) 0 }
            (neighbourId cur)).prevP (neighbourId cur) none
          nextP := upd (unlink { s with state := upd (upd s.state cur 0) (neighbourId cur) 0 }
            (neighbourId cur)).nextP (neighbourId cur) none } : BuddyState) = s5
      have h5state : s5.state = upd (upd s.state cur 0) (neighbourId cur) 0 := by
        rw [← hS]
        show (unlink { s with state := upd (upd s.state cur 0) (neighbourId cur) 0 }
          (neighbourId cur)).state = _
        rw [unlink_state]
      have h5prev : s5.prevP = upd (unlink s (neighbourId cur)).prevP (neighbourId cur) none := by
        rw [← hS]
        show upd (unlink { s with state := upd (upd s.state cur 0) (neighbourId cur) 0 }
          (neighbourId cur)).prevP (neighbourId cur) none = _
        rw [unlink_prevP, unlink_prevP]
      have h5next : s5.nextP = upd (unlink s (neighbourId cur)).nextP (neighbourId cur) none := by
        rw [← hS]
        show upd (unlink { s with state := upd (upd s.state cur 0) (neighbourId cur) 0 }
          (neighbourId cur)).nextP (neighbourId cur) none = _
        rw [unlink_nextP, unlink_nextP]
      have h5lists : s5.lists = (unlink s (neighbourId cur)).lists := by
        rw [← hS]
        show (unlink { s with state := upd (upd s.state cur 0) (neighbourId cur) 0 }
          (neighbourId cur)).lists = _
        rw [unlink_lists, unlink_lists]
      have h5sizes : s5.sizes = (unlink s (neighbourId cur)).sizes := by
        rw [← hS]
        show (unlink { s with state := upd (upd s.state cur 0) (neighbourId cur) 0 }
          (neighbourId cur)).sizes = _
        rw [unlink_sizes, unlink_sizes]
      have hPs := preFree_step hP hg.1 rfl hg.2 h5state h5prev h5next h5lists h5sizes
      have hcN := hP.cur_lt
      have hlvlp : nodeLvl (parentId cur) = nodeLvl cur + 1 :=
        nodeLvl_parent (Nat.pos_of_ne_zero hg.1) hcN
      have hf' : DEPTH - nodeLvl (parentId cur) ≤ fuel := by
        have hD : DEPTH = 15 := rfl
        have h14 := nodeLvl_le_14 cur
        omega
      obtain ⟨hI1, hI2, hI3, hI4, hI5, ⟨j, hj, hjnz⟩, hI7⟩ := ih s5 (parentId cur) hPs hf'
      have hnbne : neighbourId cur ≠ cur := neighbourId_ne hg.1
      have hnb0 : neighbourId cur ≠ 0 := neighbourId_ne_zero hg.1
      have hst : ∀ v, v ≠ cur → v ≠ neighbourId cur → s5.state v = s.state v := by
        intro v h1 h2
        rw [h5state]
        show upd (upd s.state cur 0) (neighbourId cur) 0 v = s.state v
        rw [upd_ne _ _ _ _ h2, upd_ne _ _ _ _ h1]
      have hstcur : s5.state cur = 0 := by
        rw [h5state]
        show upd (upd s.state cur 0) (neighbourId cur) 0 cur = 0
        rw [upd_ne _ _ _ _ (fun he => hnbne he.symm)]
        exact upd_same _ _ _
      have hstnb : s5.state (neighbourId cur) = 0 := by
        rw [h5state]; exact upd_same _ _ _
      have hnbval : neighbourId cur = cur + 1 ∨ (neighbourId cur = cur - 1 ∧ 2 ≤ cur) := by
        unfold neighbourId
        rw [if_neg hg.1]
        by_cases hpar : cur % 2 = 1
        · left; rw [if_pos hpar]
        · right; rw [if_neg hpar]; omega
      have hpval : parentId cur = (cur - 1) / 2 := rfl
      have hple : ∀ i, pIter (i + 1) cur ≤ parentId cur := by
        intro i
        have h1 : pIter (i + 1) cur = pIter i (parentId cur) := rfl
        rw [h1]
        exact pIter_le i (parentId cur)
      have hj' : (coalesceGo fuel s5 (parentId cur)).2 = pIter (j + 1) cur := by
        rw [hj]; rfl
      refine ⟨hI1, hI2, ?_, ?_, ?_, ?_, ?_⟩
      · intro v
        rcases hI3 v with h | h
        · by_cases h1 : v = cur
          · right; rw [h, h1]; exact hstcur
          by_cases h2 : v = neighbourId cur
          · right; rw [h, h2]; exact hstnb
          · left; rw [h]; exact hst v h1 h2
        · right; exact h
      · intro v hv hv1
        refine hI4 v ?_ ?_
        · intro he
          have hp2 : s.state (parentId cur) = 2 := by
            rcases hP.parent_ok with h | h
            · exact absurd h hg.1
            · exact h
          rw [he, hp2] at hv1
          omega
        · have h2 : v ≠ neighbourId cur := by
            intro he
            rw [he, hg.2] at hv1
            omega
          rw [hst v hv h2]
          exact hv1
      · rw [hI5, hj']
        apply hst
        · have := hple j
          omega
        · have := hple j
          omega
      · refine ⟨j + 1, hj', ?_⟩
        intro i hi
        cases i with
        | zero => exact hg.1
        | succ i2 =>
          have h1 : pIter (i2 + 1) cur = pIter i2 (parentId cur) := rfl
          rw [h1]
          exact hjnz i2 (by omega)
      · right
        rcases hI3 cur with h | h
        · rw [h]; exact hstcur
        · exact h
    · rw [coalesceGo_succ_false hg]
      push_neg at hg
      refine ⟨hP, ?_, fun v => Or.inl rfl, fun v _ h => h, rfl,
        ⟨0, rfl, by intro i hi; omega⟩, Or.inl rfl⟩
      by_cases h0 : cur = 0
      · exact Or.inl h0
      · exact Or.inr (hg h0)

/-- When the coalescing loop exits, pushing the final node and marking it
free restores the global invariant (buddy_alloc.c lines 180-181, and the
root branch 156-157).  The field equations describe the state built by
`add_free_node` followed by the state write. -/
theorem preFree_finish {s s' : BuddyState} {cur : Nat} (hP : PreFree s cur)
    (hstop : cur = 0 ∨ s.state (neighbourId cur) ≠ 3)
    (hs1 : s'.state = upd s.state cur 3)
    (hs2 : s'.prevP = (add_free_node s cur).prevP)
    (hs3 : s'.nextP = (add_free_node s cur).nextP)
    (hs4 : s'.lists = (add_free_node s cur).lists)
    (hs5 : s'.sizes = (add_free_node s cur).sizes) :
    Inv s' := by
  have hns3 : s.state cur ≠ 3 := by rcases hP.cur_st with h | h <;> omega
  have hcN := hP.cur_lt
  have hlv : nodeLvl cur < DEPTH := by
    have := nodeLvl_le_14 cur
    show nodeLvl cur < 15
    omega
  obtain ⟨L, hdll, hnd, hsz, hmem⟩ := hP.freelists (nodeLvl cur) hlv
  have hcurL : cur ∉ L := fun h => hns3 ((hmem cur).mp h).1
  have hstA : ∀ id, id ≠ cur → s'.state id = s.state id := by
    intro id h
    rw [hs1]
    show upd s.state cur 3 id = s.state id
    exact upd_ne _ _ _ _ h
  have hstc : s'.state cur = 3 := by rw [hs1]; exact upd_same _ _ _
  have hheadL : ∀ x, s.lists (nodeLvl cur) = some x →
      s.state x = 3 ∧ nodeLvl x = nodeLvl cur := by
    intro x hx
    rw [hx] at hdll
    obtain ⟨L', hL'⟩ := dllFrom_head_cons hdll
    have hxL : x ∈ L := by rw [hL']; simp
    exact (hmem x).mp hxL
  refine ⟨?_, ?_, ?_, ?_, ?_, ?_, ?_, ?_, ?_⟩
  · -- root_ne
    by_cases h0 : cur = 0
    · rw [h0] at hstc
      rw [hstc]
      omega
    · rw [hstA 0 (fun he => h0 he.symm)]
      exact hP.root_ne
  · -- state_lt
    intro id
    by_cases h : id = cur
    · rw [h, hstc]; omega
    · rw [hstA id h]; exact hP.state_lt id
  · -- bounded
    intro id hid
    rw [hstA id (by omega)]
    exact hP.bounded id hid
  · -- parent_inner
    intro id hpos hlt
    by_cases hidc : id = cur
    · rw [hidc] at hpos
      rw [hidc, hstc]
      have hp2 : s.state (parentId cur) = 2 := by
        rcases hP.parent_ok with h | h
        · exact absurd h (by omega)
        · exact h
      have hpne : parentId cur ≠ cur := by
        have := parentId_lt (show 0 < cur by omega)
        omega
      rw [hstA _ hpne, hp2]
      norm_num
    · rw [hstA id hidc]
      by_cases hpc : parentId id = cur
      · have h0 : s.state id = 0 := by
          apply hP.desc id 1 _ hidc
          show pIter 0 (parentId id) = cur
          exact hpc
        rw [hpc, hstc, h0]
        norm_num
      · rw [hstA _ hpc]
        exact hP.parent_inner id hpos hlt hpc
  · -- inner_lvl
    intro id h2
    by_cases h : id = cur
    · rw [h, hstc] at h2; omega
    · rw [hstA id h] at h2; exact hP.inner_lvl id h2
  · -- used_low
    intro id h2
    by_cases h : id = cur
    · rw [h, hstc] at h2; omega
    · rw [hstA id h] at h2; exact hP.used_low id h2
  · -- eager
    intro id hpos h3
    by_cases h : id = cur
    · rw [h] at hpos
      rcases hstop with h0 | h0
      · omega
      · have hnbne : neighbourId cur ≠ cur := neighbourId_ne (by omega)
        rw [h, hstA _ hnbne]
        exact h0
    · rw [hstA id h] at h3
      have hne3 := hP.eager id hpos h3
      by_cases h2 : neighbourId id = cur
      · exfalso
        have hc0 : cur ≠ 0 := by
          intro he
          rw [he] at h2
          exact neighbourId_ne_zero (by omega) h2
        have hid0 : id ≠ 0 := by omega
        have hideq : id = neighbourId cur := by
          rw [← h2, neighbourId_invol hid0]
        rcases hstop with h0 | h0
        · exact hc0 h0
        · rw [← hideq] at h0
          exact h0 h3
      · rw [hstA _ h2]
        exact hne3
  · -- clean
    intro id hid3
    have hidc : id ≠ cur := by
      intro he
      rw [he, hstc] at hid3
      exact hid3 rfl
    have hid3' : s.state id ≠ 3 := by rw [← hstA id hidc]; exact hid3
    constructor
    · rw [hs2, add_free_node_prevP]
      cases hh : s.lists (nodeLvl cur) with
      | none =>
        show upd s.prevP cur none id = none
        rw [upd_ne _ _ _ _ hidc]
        exact (hP.clean id hid3').1
      | some hd =>
        show upd (upd s.prevP cur none) hd (some cur) id = none
        have hhd3 := (hheadL hd hh).1
        have hne : id ≠ hd := fun he => hid3' (by rw [he]; exact hhd3)
        rw [upd_ne _ _ _ _ hne, upd_ne _ _ _ _ hidc]
        exact (hP.clean id hid3').1
    · rw [hs3, add_free_node_nextP]
      show upd s.nextP cur (s.lists (nodeLvl cur)) id = none
      rw [upd_ne _ _ _ _ hidc]
      exact (hP.clean id hid3').2
  · -- freelists
    intro l hl
    by_cases hll : l = nodeLvl cur
    · refine ⟨cur :: L, ?_, ?_, ?_, ?_⟩
      · rw [hll, hs4]
        have hadd := dllFrom_add s cur L hdll hcurL hnd
        refine dllFrom_congr ?_ none _ hadd
        intro a _
        exact ⟨by rw [hs2], by rw [hs3]⟩
      · exact List.nodup_cons.mpr ⟨hcurL, hnd⟩
      · rw [hs5, add_free_node_sizes, hll]
        show upd s.sizes (nodeLvl cur) (s.sizes (nodeLvl cur) + 1) (nodeLvl cur) = _
        rw [upd_same, hsz, List.length_cons]
        push_cast
        ring
      · intro id
        constructor
        · intro hid
          rcases List.mem_cons.mp hid with h | h
          · rw [h, hll]
            exact ⟨hstc, rfl⟩
          · obtain ⟨h3m, hlvl2⟩ := (hmem id).mp h
            have hne : id ≠ cur := fun he => hcurL (he ▸ h)
            rw [hll]
            exact ⟨by rw [hstA id hne]; exact h3m, hlvl2⟩
        · rintro ⟨h3m, hlvl2⟩
          by_cases hne : id = cur
          · rw [hne]; simp
          · rw [hstA id hne] at h3m
            rw [hll] at hlvl2
            exact List.mem_cons_of_mem _ ((hmem id).mpr ⟨h3m, hlvl2⟩)
    · obtain ⟨L', hdll', hnd', hsz', hmem'⟩ := hP.freelists l hl
      have hprop : ∀ a ∈ L', a ≠ cur ∧ s.lists (nodeLvl cur) ≠ some a := by
        intro a ha
        obtain ⟨ha3, halvl⟩ := (hmem' a).mp ha
        constructor
        · intro he; rw [he] at ha3; exact hns3 ha3
        · intro he
          have hx := hheadL a he
          rw [halvl] at hx
          exact hll hx.2
      have hother := dllFrom_add_other s cur (fun he => hll he) hprop hdll'
      refine ⟨L', ?_, hnd', ?_, ?_⟩
      · rw [hs4]
        refine dllFrom_congr ?_ none _ hother
        intro a _
        exact ⟨by rw [hs2], by rw [hs3]⟩
      · rw [hs5, add_free_node_sizes]
        show upd s.sizes (nodeLvl cur) (s.sizes (nodeLvl cur) + 1) l = _
        rw [upd_ne _ _ _ _ hll]
        exact hsz'
      · intro id
        constructor
        · intro hid
          obtain ⟨h3m, hlvl2⟩ := (hmem' id).mp hid
          have hne : id ≠ cur := fun he => hns3 (he ▸ h3m)
          exact ⟨by rw [hstA id hne]; exact h3m, hlvl2⟩
        · rintro ⟨h3m, hlvl2⟩
          have hne : id ≠ cur := by
            intro he
            rw [he] at hlvl2
            exact hll hlvl2.symm
          rw [hstA id hne] at h3m
          exact (hmem' id).mpr ⟨h3m, hlvl2⟩

/-- `buddy_free` with its `let`s spelled out. -/
theorem buddy_free_eq (endA physTop pa : Nat) (s : BuddyState) :
    buddy_free endA physTop pa s =
      if pa = 0 ∨ pa % PGSIZE ≠ 0 ∨ pa < endA ∨ physTop ≤ pa then (s, true)
      else
        if s.state (free_locate (PGROUNDUP endA) pa s DEPTH 0) ≠ 1 ∨
            nodeMem (PGROUNDUP endA) (free_locate (PGROUNDUP endA) pa s DEPTH 0) ≠ pa
        then (s, true)
        else
          if free_locate (PGROUNDUP endA) pa s DEPTH 0 = 0 then
            ({ add_free_node s (free_locate (PGROUNDUP endA) pa s DEPTH 0) with
               state := upd (add_free_node s (free_locate (PGROUNDUP endA) pa s DEPTH 0)).state
                 (free_locate (PGROUNDUP endA) pa s DEPTH 0) 3 }, false)
          else
            ({ add_free_node
                 (coalesceGo DEPTH s (free_locate (PGROUNDUP endA) pa s DEPTH 0)).1
                 (coalesceGo DEPTH s (free_locate (PGROUNDUP endA) pa s DEPTH 0)).2 with
               state := upd (add_free_node
                   (coalesceGo DEPTH s (free_locate (PGROUNDUP endA) pa s DEPTH 0)).1
                   (coalesceGo DEPTH s (free_locate (PGROUNDUP endA) pa s DEPTH 0)).2).state
                 (coalesceGo DEPTH s (free_locate (PGROUNDUP endA) pa s DEPTH 0)).2 3 },
             false) := rfl

/-- A completed `buddy_free` preserves the global invariant. -/
theorem Inv_free (endA physTop pa : Nat) {s : BuddyState} (hInv : Inv s)
    (hok : (buddy_free endA physTop pa s).2 = false) :
    Inv (buddy_free endA physTop pa s).1 := by
  rw [buddy_free_eq] at hok ⊢
  by_cases h1 : pa = 0 ∨ pa % PGSIZE ≠ 0 ∨ pa < endA ∨ physTop ≤ pa
  · rw [if_pos h1] at hok
    simp at hok
  rw [if_neg h1] at hok ⊢
  by_cases h2 : s.state (free_locate (PGROUNDUP endA) pa s DEPTH 0) ≠ 1 ∨
      nodeMem (PGROUNDUP endA) (free_locate (PGROUNDUP endA) pa s DEPTH 0) ≠ pa
  · rw [if_pos h2] at hok
    simp at hok
  rw [if_neg h2] at hok ⊢
  push_neg at h2
  obtain ⟨hc1, hcmem⟩ := h2
  have hc9 := hInv.used_low _ hc1
  have hc0 : free_locate (PGROUNDUP endA) pa s DEPTH 0 ≠ 0 := by
    intro he
    rw [he, nodeLvl_zero] at hc9
    omega
  rw [if_neg hc0]
  have hP := preFree_of_used hInv hc1
  have hco := coalesceGo_inv DEPTH s (free_locate (PGROUNDUP endA) pa s DEPTH 0) hP
    (by
      have := nodeLvl_le_14 (free_locate (PGROUNDUP endA) pa s DEPTH 0)
      have hD : DEPTH = 15 := rfl
      omega)
  refine preFree_finish hco.1 hco.2.1 ?_ rfl rfl rfl rfl
  show upd (add_free_node
      (coalesceGo DEPTH s (free_locate (PGROUNDUP endA) pa s DEPTH 0)).1
      (coalesceGo DEPTH s (free_locate (PGROUNDUP endA) pa s DEPTH 0)).2).state
    (coalesceGo DEPTH s (free_locate (PGROUNDUP endA) pa s DEPTH 0)).2 3 = _
  rw [add_free_node_state]

/-- The state after `buddy_init` satisfies the global invariant. -/
theorem Inv_initState : Inv initState := by
  have hstate : initState.state = fun id => if id = 0 then 3 else 0 := by
    show (add_free_node _ 0).state = _
    rw [add_free_node_state]
  have hlists : initState.lists = upd (fun _ => none) 14 (some 0) := by
    show (add_free_node _ 0).lists = _
    rw [add_free_node_lists, nodeLvl_zero]
  have hsizes : initState.sizes = upd (fun _ => (0 : Int)) 14 1 := by
    show (add_free_node _ 0).sizes = _
    rw [add_free_node_sizes, nodeLvl_zero]
    rfl
  have hprev : initState.prevP = fun _ => none := by
    show (add_free_node _ 0).prevP = _
    rw [add_free_node_prevP]
    show upd (fun _ => (none : Option Nat)) 0 none = _
    funext j
    show (if j = 0 then none else none) = none
    split <;> rfl
  have hnext : initState.nextP = fun _ => none := by
    show (add_free_node _ 0).nextP = _
    rw [add_free_node_nextP]
    show upd (fun _ => (none : Option Nat)) 0 none = _
    funext j
    show (if j = 0 then none else none) = none
    split <;> rfl
  have hN1 : 1 ≤ NODES := by norm_num [NODES, PAGES]
  refine ⟨?_, ?_, ?_, ?_, ?_, ?_, ?_, ?_, ?_⟩
  · rw [congrFun hstate 0]
    norm_num
  · intro id
    rw [congrFun hstate id]
    split <;> omega
  · intro id hid
    rw [congrFun hstate id, if_neg (by omega)]
  · intro id hpos hlt
    rw [congrFun hstate id, congrFun hstate (parentId id), if_neg (by omega)]
    split <;> norm_num
  · intro id h2
    rw [congrFun hstate id] at h2
    split at h2 <;> omega
  · intro id h2
    rw [congrFun hstate id] at h2
    split at h2 <;> omega
  · intro id hpos h3
    rw [congrFun hstate id, if_neg (by omega)] at h3
    omega
  · intro id _
    exact ⟨congrFun hprev id, congrFun hnext id⟩
  · intro l hl
    by_cases hll : l = 14
    · rw [hll]
      refine ⟨[0], ⟨?_, ?_, ?_⟩, by simp, ?_, ?_⟩
      · rw [hlists]
        exact upd_same _ _ _
      · exact congrFun hprev 0
      · exact congrFun hnext 0
      · rw [hsizes]
        show (1 : Int) = _
        simp
      · intro id
        constructor
        · intro h
          have h0 : id = 0 := by
            rcases List.mem_cons.mp h with h | h
            · exact h
            · exact absurd h (List.not_mem_nil id)
          rw [h0, congrFun hstate 0, nodeLvl_zero]
          norm_num
        · rintro ⟨h3, _⟩
          rw [congrFun hstate id] at h3
          by_cases h0 : id = 0
          · rw [h0]; simp
          · rw [if_neg h0] at h3; omega
    · refine ⟨[], ?_, by simp, ?_, ?_⟩
      · show initState.lists l = none
        rw [hlists]
        exact upd_ne _ _ _ _ hll
      · rw [hsizes]
        show upd (fun _ => (0 : Int)) 14 1 l = _
        rw [upd_ne _ _ _ _ hll]
        simp
      · intro id
        constructor
        · intro h
          exact absurd h (List.not_mem_nil id)
        · rintro ⟨h3, hlvl⟩
          rw [congrFun hstate id] at h3
          by_cases h0 : id = 0
          · rw [h0, nodeLvl_zero] at hlvl
            exact absurd hlvl.symm hll
          · rw [if_neg h0] at h3
            omega

/-- Every reachable state satisfies the global invariant. -/
theorem Reachable_Inv {endA physTop : Nat} {s : BuddyState}
    (h : Reachable endA physTop s) : Inv s := by
  induction h with
  | init => exact Inv_initState
  | alloc n _ ih => exact Inv_alloc endA n ih
  | free pa _ hok ih => exact Inv_free endA physTop pa ih hok

/-- The descent of `buddy_free`, started at any ancestor of a used node
`u` whose block contains `u`'s base address, reaches `u`: at each inner
node the comparison with the right child's base address selects exactly
the child whose block contains the address. -/
theorem free_locate_go {base pa : Nat} {σ : BuddyState} (hInv : Inv σ) {u : Nat}
    (hu : σ.state u = 1) (hpa : pa = nodeMem base u) :
    ∀ j fuel c, j ≤ fuel → pIter j u = c → (∀ i, i < j → pIter i u ≠ 0) →
      free_locate base pa σ fuel c = u := by
  intro j
  induction j with
  | zero =>
    intro fuel c _ hc _
    have hcu : c = u := hc.symm
    cases fuel with
    | zero => exact hcu
    | succ f =>
      show (if σ.state c = 2 then _ else c) = u
      rw [if_neg (by rw [hcu, hu]; omega)]
      exact hcu
  | succ j ih =>
    intro fuel c hle hc hnz
    obtain ⟨f, rfl⟩ : ∃ f, fuel = f + 1 := ⟨fuel - 1, by omega⟩
    have huN := hInv.state1_lt hu
    have hd0 : pIter j u ≠ 0 := hnz j (by omega)
    have hc2 : σ.state c = 2 := by
      rw [← hc]
      exact anc_inner hInv (by rw [hu]; omega) huN j hd0
    have hdp : parentId (pIter j u) = c := by
      rw [← hc, pIter_succ_out]
    have hcont := anc_contained base j u huN
    have hszu : 1 ≤ nodeSize u := nodeSize_pos huN
    have hpg : 1 ≤ PGSIZE := by norm_num [PGSIZE]
    have hszPG := Nat.mul_le_mul hszu hpg
    rcases children_of_parent hd0 hdp with hdl | hdr
    · have hlt : pa < nodeMem base (rightId c) := by
        have hsib := sibling_split base c
        rw [hdl] at hcont
        rw [hpa]
        omega
      show (if σ.state c = 2 then
        if pa < nodeMem base (rightId c) then free_locate base pa σ f (leftId c)
        else free_locate base pa σ f (rightId c) else c) = u
      rw [if_pos hc2, if_pos hlt, ← hdl]
      exact ih f (pIter j u) (by omega) rfl (fun i hi => hnz i (by omega))
    · have hge : ¬pa < nodeMem base (rightId c) := by
        rw [hdr] at hcont
        rw [hpa]
        omega
      show (if σ.state c = 2 then
        if pa < nodeMem base (rightId c) then free_locate base pa σ f (leftId c)
        else free_locate base pa σ f (rightId c) else c) = u
      rw [if_pos hc2, if_neg hge, ← hdr]
      exact ih f (pIter j u) (by omega) rfl (fun i hi => hnz i (by omega))

/-- The descent of `buddy_free` (fuel `DEPTH`, from the root) locates the
used node whose `memory` equals the freed address. -/
theorem free_locate_spec {base pa : Nat} {σ : BuddyState} (hInv : Inv σ) {u : Nat}
    (hu : σ.state u = 1) (hpa : pa = nodeMem base u) :
    free_locate base pa σ DEPTH 0 = u := by
  have huN := hInv.state1_lt hu
  have hex : ∃ j, pIter j u = 0 := ⟨14, pIter_root huN⟩
  have hle : Nat.find hex ≤ 14 := Nat.find_min' hex (pIter_root huN)
  exact free_locate_go hInv hu hpa (Nat.find hex) DEPTH 0
    (by show Nat.find hex ≤ 15; omega) (Nat.find_spec hex)
    (fun i hi => Nat.find_min hex hi)

/-- Exact description of the coalescing loop when the guard outcome at
every step is known in the starting state: the loop runs `k` iterations,
erases the visited nodes and their buddies, stops at the `k`-th ancestor,
and changes nothing else in `state`. -/
theorem coalesceGo_state : ∀ (k fuel : Nat) (s : BuddyState) (cur : Nat),
    (∀ i, i < k → pIter i cur ≠ 0 ∧ s.state (neighbourId (pIter i cur)) = 3) →
    (pIter k cur = 0 ∨ s.state (neighbourId (pIter k cur)) ≠ 3) →
    k < fuel →
    (coalesceGo fuel s cur).2 = pIter k cur ∧
    ∀ v, (coalesceGo fuel s cur).1.state v =
      if ∃ i, i < k ∧ (v = pIter i cur ∨ v = neighbourId (pIter i cur)) then 0
      else s.state v := by
  intro k
  induction k with
  | zero =>
    intro fuel s cur _ hstop hf
    obtain ⟨f, rfl⟩ : ∃ f, fuel = f + 1 := ⟨fuel - 1, by omega⟩
    have hg : ¬(cur ≠ 0 ∧ s.state (neighbourId cur) = 3) := by
      rcases hstop with h | h
      · intro hcon; exact hcon.1 h
      · intro hcon; exact h hcon.2
    rw [coalesceGo_succ_false hg]
    refine ⟨rfl, ?_⟩
    intro v
    rw [if_neg (by rintro ⟨i, hi, _⟩; omega)]
  | succ k ih =>
    intro fuel s cur hg hstop hf
    obtain ⟨f, rfl⟩ : ∃ f, fuel = f + 1 := ⟨fuel - 1, by omega⟩
    have h0 := hg 0 (by omega)
    have hc0 : cur ≠ 0 := h0.1
    have hnb3 : s.state (neighbourId cur) = 3 := h0.2
    rw [coalesceGo_succ_true hc0 hnb3]
    generalize hS :
      ({ unlink { s with state := upd (upd s.state cur 0) (neighbourId cur) 0 }
          (neighbourId cur) with
        prevP := upd (unlink { s with state := upd (upd s.state cur 0) (neighbourId cur) 0 }
          (neighbourId cur)).prevP (neighbourId cur) none
        nextP := upd (unlink { s with state := upd (upd s.state cur 0) (neighbourId cur) 0 }
          (neighbourId cur)).nextP (neighbourId cur) none } : BuddyState) = s5
    have h5state : s5.state = upd (upd s.state cur 0) (neighbourId cur) 0 := by
      rw [← hS]
      show (unlink { s with state := upd (upd s.state cur 0) (neighbourId cur) 0 }
        (neighbourId cur)).state = _
      rw [unlink_state]
    have hnbne : neighbourId cur ≠ cur := neighbourId_ne hc0
    have hnb0 : neighbourId cur ≠ 0 := neighbourId_ne_zero hc0
    have hst : ∀ v, v ≠ cur → v ≠ neighbourId cur → s5.state v = s.state v := by
      intro v h1 h2
      rw [h5state]
      show upd (upd s.state cur 0) (neighbourId cur) 0 v = s.state v
      rw [upd_ne _ _ _ _ h2, upd_ne _ _ _ _ h1]
    have hstcur : s5.state cur = 0 := by
      rw [h5state]
      show upd (upd s.state cur 0) (neighbourId cur) 0 cur = 0
      rw [upd_ne _ _ _ _ (fun he => hnbne he.symm)]
      exact upd_same _ _ _
    have hstnb : s5.state (neighbourId cur) = 0 := by
      rw [h5state]; exact upd_same _ _ _
    have hshift : ∀ i, pIter (i + 1) cur = pIter i (parentId cur) := fun _ => rfl
    have hg' : ∀ i, i < k → pIter i (parentId cur) ≠ 0 ∧
        s5.state (neighbourId (pIter i (parentId cur))) = 3 := by
      intro i hi
      have h1 := hg (i + 1) (by omega)
      have hne := nb_pIter_ne (i := i + 1) (by omega) hc0 h1.1
      constructor
      · have h2 := h1.1
        rw [hshift i] at h2
        exact h2
      · rw [← hshift i, hst _ hne.1 hne.2]
        exact h1.2
    have hstop' : pIter k (parentId cur) = 0 ∨
        s5.state (neighbourId (pIter k (parentId cur))) ≠ 3 := by
      rcases hstop with h | h
      · left
        rw [← hshift k]
        exact h
      · right
        rw [← hshift k]
        by_cases hA : neighbourId (pIter (k + 1) cur) = cur
        · rw [hA, hstcur]; omega
        by_cases hB : neighbourId (pIter (k + 1) cur) = neighbourId cur
        · rw [hB, hstnb]; omega
        · rw [hst _ hA hB]; exact h
    have hIH := ih f s5 (parentId cur) hg' hstop' (by omega)
    refine ⟨?_, ?_⟩
    · rw [hIH.1, ← hshift k]
    · intro v
      rw [hIH.2 v]
      by_cases hcond : ∃ i, i < k ∧
          (v = pIter i (parentId cur) ∨ v = neighbourId (pIter i (parentId cur)))
      · have hcond2 : ∃ i, i < k + 1 ∧
            (v = pIter i cur ∨ v = neighbourId (pIter i cur)) := by
          obtain ⟨i, hi, hv⟩ := hcond
          refine ⟨i + 1, by omega, ?_⟩
          rw [hshift i]
          exact hv
        rw [if_pos hcond, if_pos hcond2]
      · rw [if_neg hcond]
        by_cases h1 : v = cur
        · rw [if_pos ⟨0, by omega, Or.inl h1⟩, h1]
          exact hstcur
        by_cases h2 : v = neighbourId cur
        · rw [if_pos ⟨0, by omega, Or.inr h2⟩, h2]
          exact hstnb
        · have hnot : ¬∃ i, i < k + 1 ∧
              (v = pIter i cur ∨ v = neighbourId (pIter i cur)) := by
            rintro ⟨i, hi, hv⟩
            cases i with
            | zero =>
              rcases hv with h | h
              · exact h1 h
              · exact h2 h
            | succ i2 =>
              apply hcond
              rw [hshift i2] at hv
              exact ⟨i2, by omega, hv⟩
          rw [if_neg hnot]
          exact hst v h1 h2

theorem leftIter_succ_out (j : Nat) : ∀ c, leftIter (j + 1) c = leftId (leftIter j c) := by
  induction j with
  | zero => intro c; rfl
  | succ j ih =>
    intro c
    have h1 : leftIter (j + 1 + 1) c = leftIter (j + 1) (leftId c) := rfl
    rw [h1, ih (leftId c)]
    rfl

/-- Freeing the address a successful `buddy_alloc` returned never panics,
and it restores the `state` function exactly: the coalescing loop retraces
the split chain back up to the node the allocation took off its free list,
and that node ends up free again. -/
theorem roundtrip_state {endA physTop : Nat} {n : Int} {s : BuddyState} (hInv : Inv s)
    {pa : Nat} (hend : 0 < endA) (htop : PGROUNDUP endA + PAGES * PGSIZE ≤ physTop)
    (hret : (buddy_alloc endA n s).ret = some pa) :
    (buddy_free endA physTop pa (buddy_alloc endA n s).st).2 = false ∧
    ∀ v, (buddy_free endA physTop pa (buddy_alloc endA n s).st).1.state v = s.state v := by
  obtain ⟨t, m, H, sC, hn0, hnp, ht9, hfs, htm, hmD, hpos, hH, hH3, hHlvl, hHN, hprevH,
    hCst, hCpr, hCnx, hCls, hCsz, hPre, hOut, hSt, hRet⟩ :=
    buddy_alloc_some_elim hInv (by rw [hret]; simp)
  have hfin_eq := hOut.fin_eq
  rw [hHlvl] at hfin_eq
  have hfinlvl := hOut.fin_lvl
  have hfinN := hOut.fin_lt
  have hInvA : Inv (buddy_alloc endA n s).st := by rw [hSt]; exact hOut.inv
  have hstA_fin : (buddy_alloc endA n s).st.state (alloc_splitGo t DEPTH sC H).2 = 1 := by
    rw [hSt]
    show upd (alloc_splitGo t DEPTH sC H).1.state (alloc_splitGo t DEPTH sC H).2 1 _ = 1
    exact upd_same _ _ _
  have hpa : pa = nodeMem (PGROUNDUP endA) (alloc_splitGo t DEPTH sC H).2 := by
    rw [hret] at hRet
    injection hRet
  have hboundsFin := nodeMem_bounds (PGROUNDUP endA) hfinN
  have hble : endA ≤ PGROUNDUP endA := le_PGROUNDUP endA
  have hszfin := nodeSize_pos hfinN
  have hpg : 1 ≤ PGSIZE := by norm_num [PGSIZE]
  have hszPG := Nat.mul_le_mul hszfin hpg
  have hmod : pa % PGSIZE = 0 := by
    obtain ⟨c, hc⟩ := nodeMem_pgsize (PGROUNDUP endA) (alloc_splitGo t DEPTH sC H).2
    rw [hpa, hc, Nat.add_mul_mod_self_right]
    exact PGROUNDUP_mod endA
  have hptr : ¬(pa = 0 ∨ pa % PGSIZE ≠ 0 ∨ pa < endA ∨ physTop ≤ pa) := by
    push_neg
    refine ⟨?_, hmod, ?_, ?_⟩
    · rw [hpa]; omega
    · rw [hpa]; omega
    · rw [hpa]; omega
  have hloc : free_locate (PGROUNDUP endA) pa (buddy_alloc endA n s).st DEPTH 0 =
      (alloc_splitGo t DEPTH sC H).2 := free_locate_spec hInvA hstA_fin hpa
  have hpif : ∀ i, i ≤ m - t →
      pIter i (alloc_splitGo t DEPTH sC H).2 = leftIter (m - t - i) H := by
    intro i hi
    rw [hfin_eq]
    exact pIter_leftIter_of_le hi H
  have hnz : ∀ i, i < m - t → pIter i (alloc_splitGo t DEPTH sC H).2 ≠ 0 := by
    intro i hi
    rw [hpif i (by omega)]
    have := leftIter_gt H (j := m - t - i) (by omega)
    omega
  have hnbr : ∀ i, i < m - t →
      neighbourId (pIter i (alloc_splitGo t DEPTH sC H).2) =
        rightId (leftIter (m - t - i - 1) H) := by
    intro i hi
    rw [hpif i (by omega)]
    have h1 : leftIter (m - t - i) H = leftId (leftIter (m - t - i - 1) H) := by
      have h2 := leftIter_succ_out (m - t - i - 1) H
      rw [show m - t - i - 1 + 1 = m - t - i by omega] at h2
      exact h2
    rw [h1, neighbourId_leftId]
  have hrfne : ∀ j, j < m - t →
      rightId (leftIter j H) ≠ (alloc_splitGo t DEPTH sC H).2 := by
    intro j hj he
    rw [hfin_eq] at he
    have h1 : leftIter (m - t) H = leftIter (m - t - j) (leftIter j H) := by
      rw [← leftIter_add]
      congr 1
      omega
    rw [h1] at he
    exact rightId_ne_leftIter (by omega) he.symm
  have hrst3 : ∀ j, j < m - t →
      (buddy_alloc endA n s).st.state (rightId (leftIter j H)) = 3 := by
    intro j hj
    have hp := hOut.pushes j (by rw [hHlvl]; omega)
    rw [hSt]
    show upd (alloc_splitGo t DEPTH sC H).1.state (alloc_splitGo t DEPTH sC H).2 1 _ = 3
    rw [upd_ne _ _ _ _ (hrfne j hj)]
    exact hp.2.1
  have hguards : ∀ i, i < m - t →
      pIter i (alloc_splitGo t DEPTH sC H).2 ≠ 0 ∧
      (buddy_alloc endA n s).st.state
        (neighbourId (pIter i (alloc_splitGo t DEPTH sC H).2)) = 3 := by
    intro i hi
    refine ⟨hnz i hi, ?_⟩
    rw [hnbr i hi]
    exact hrst3 (m - t - i - 1) (by omega)
  have hpkf : pIter (m - t) (alloc_splitGo t DEPTH sC H).2 = H := by
    rw [hfin_eq]
    exact pIter_leftIter (m - t) H
  have hstop : pIter (m - t) (alloc_splitGo t DEPTH sC H).2 = 0 ∨
      (buddy_alloc endA n s).st.state
        (neighbourId (pIter (m - t) (alloc_splitGo t DEPTH sC H).2)) ≠ 3 := by
    rw [hpkf]
    by_cases hH0 : H = 0
    · exact Or.inl hH0
    · right
      have hanc : ∀ j, pIter j (neighbourId H) ≠ H := by
        intro j
        cases j with
        | zero => exact neighbourId_ne hH0
        | succ j2 =>
          have h1 : pIter (j2 + 1) (neighbourId H) =
              pIter j2 (parentId (neighbourId H)) := rfl
          rw [h1, parentId_neighbourId hH0]
          intro he
          have h2 := pIter_le j2 (parentId H)
          have h3 := parentId_lt (Nat.pos_of_ne_zero hH0)
          omega
      have hfr := hOut.state_frame (neighbourId H) hanc
      have hne : neighbourId H ≠ (alloc_splitGo t DEPTH sC H).2 := by
        intro he
        rw [← he] at hpkf
        exact hanc (m - t) hpkf
      have hnbH : (buddy_alloc endA n s).st.state (neighbourId H) =
          s.state (neighbourId H) := by
        rw [hSt]
        show upd (alloc_splitGo t DEPTH sC H).1.state
          (alloc_splitGo t DEPTH sC H).2 1 _ = _
        rw [upd_ne _ _ _ _ hne, hfr, hCst]
      rw [hnbH]
      exact hInv.eager H (Nat.pos_of_ne_zero hH0) hH3
  have hmD' : m < 15 := hmD
  have hmt14 : m - t ≤ 14 := by omega
  have hcg := coalesceGo_state (m - t) DEPTH (buddy_alloc endA n s).st
    (alloc_splitGo t DEPTH sC H).2 hguards hstop (by show m - t < 15; omega)
  have hfin0 : (alloc_splitGo t DEPTH sC H).2 ≠ 0 := by
    intro he
    rw [he, nodeLvl_zero] at hfinlvl
    omega
  rw [buddy_free_eq, if_neg hptr, hloc,
    if_neg (by push_neg; exact ⟨hstA_fin, hpa.symm⟩), if_neg hfin0]
  refine ⟨rfl, ?_⟩
  intro v
  show upd (add_free_node
      (coalesceGo DEPTH (buddy_alloc endA n s).st (alloc_splitGo t DEPTH sC H).2).1
      (coalesceGo DEPTH (buddy_alloc endA n s).st (alloc_splitGo t DEPTH sC H).2).2).state
    (coalesceGo DEPTH (buddy_alloc endA n s).st (alloc_splitGo t DEPTH sC H).2).2 3 v
    = s.state v
  rw [add_free_node_state]
  have hcg2 : (coalesceGo DEPTH (buddy_alloc endA n s).st
      (alloc_splitGo t DEPTH sC H).2).2 = H := by
    rw [hcg.1, hpkf]
  rw [hcg2]
  by_cases hvH : v = H
  · rw [hvH, upd_same]
    exact hH3.symm
  · rw [upd_ne _ _ _ _ hvH, hcg.2 v]
    by_cases hz : ∃ i, i < m - t ∧ (v = pIter i (alloc_splitGo t DEPTH sC H).2 ∨
        v = neighbourId (pIter i (alloc_splitGo t DEPTH sC H).2))
    · rw [if_pos hz]
      obtain ⟨i, hi, hv⟩ := hz
      have hdesc : ∃ jj, pIter jj v = H := by
        rcases hv with h | h
        · rw [hpif i (by omega)] at h
          refine ⟨m - t - i, ?_⟩
          rw [h]
          exact pIter_leftIter (m - t - i) H
        · rw [hnbr i hi] at h
          refine ⟨(m - t - i - 1) + 1, ?_⟩
          rw [h]
          have h1 : pIter ((m - t - i - 1) + 1) (rightId (leftIter (m - t - i - 1) H)) =
              pIter (m - t - i - 1) (parentId (rightId (leftIter (m - t - i - 1) H))) := rfl
          rw [h1, parentId_rightId]
          exact pIter_leftIter _ H
      obtain ⟨jj, hjj⟩ := hdesc
      exact (desc_zero hInv (by rw [hH3]; omega) jj v hjj hvH).symm
    · rw [if_neg hz]
      have hvfin : v ≠ (alloc_splitGo t DEPTH sC H).2 := by
        intro he
        by_cases hmt : m - t = 0
        · apply hvH
          rw [he, hfin_eq, hmt]
          rfl
        · exact hz ⟨0, by omega, Or.inl he⟩
      have hAv : (buddy_alloc endA n s).st.state v =
          (alloc_splitGo t DEPTH sC H).1.state v := by
        rw [hSt]
        show upd (alloc_splitGo t DEPTH sC H).1.state
          (alloc_splitGo t DEPTH sC H).2 1 v = _
        rw [upd_ne _ _ _ _ hvfin]
      rw [hSt]
      show upd (alloc_splitGo t DEPTH sC H).1.state
        (alloc_splitGo t DEPTH sC H).2 1 v = s.state v
      rw [upd_ne _ _ _ _ hvfin]
      by_cases hanc : ∃ j, pIter j v = H
      · obtain ⟨jv, hjv⟩ := hanc
        rcases desc_split (m - t) H v jv hjv hvH with
          ⟨j, hj1, hj2, hj3⟩ | ⟨j, jj, hjlt, hjj⟩ | ⟨jj, hjj, hjne⟩
        · exfalso
          apply hz
          refine ⟨m - t - j, by omega, Or.inl ?_⟩
          have hje : m - t - (m - t - j) = j := by omega
          rw [hpif (m - t - j) (by omega), hje]
          exact hj3
        · by_cases hveq : v = rightId (leftIter j H)
          · exfalso
            apply hz
            refine ⟨m - t - j - 1, by omega, Or.inr ?_⟩
            have hje : m - t - (m - t - j - 1) - 1 = j := by omega
            rw [hnbr (m - t - j - 1) (by omega), hje]
            exact hveq
          · have hrA := hrst3 j hjlt
            have hvA0 : (buddy_alloc endA n s).st.state v = 0 :=
              desc_zero hInvA (by rw [hrA]; omega) jj v hjj hveq
            have hvs0 : s.state v = 0 := by
              have hpr : pIter ((j + 1) + jj) v = H := by
                rw [pIter_add, hjj]
                have h1 : pIter (j + 1) (rightId (leftIter j H)) =
                    pIter j (parentId (rightId (leftIter j H))) := rfl
                rw [h1, parentId_rightId]
                exact pIter_leftIter j H
              exact desc_zero hInv (by rw [hH3]; omega) _ v hpr hvH
            rw [← hAv, hvA0, hvs0]
        · have hjjA : pIter jj v = (alloc_splitGo t DEPTH sC H).2 := by
            rw [← hfin_eq] at hjj
            exact hjj
          have hjneA : v ≠ (alloc_splitGo t DEPTH sC H).2 := hvfin
          have hvA0 : (buddy_alloc endA n s).st.state v = 0 :=
            desc_zero hInvA (by rw [hstA_fin]; omega) jj v hjjA hjneA
          have hvs0 : s.state v = 0 := by
            have hpr : pIter ((m - t) + jj) v = H := by
              rw [pIter_add, hjj]
              exact pIter_leftIter (m - t) H
            exact desc_zero hInv (by rw [hH3]; omega) _ v hpr hvH
          rw [← hAv, hvA0, hvs0]
      · push_neg at hanc
        have hfr := hOut.state_frame v hanc
        rw [hfr, hCst]

/-- Two states with the same `state` function have per-level free lists
that are permutations of each other. -/
theorem freeListAt_perm {s s' : BuddyState} (hst : ∀ v, s'.state v = s.state v)
    {l : Nat} {L L' : List Nat} (h : freeListAt s l L) (h' : freeListAt s' l L') :
    L.Perm L' := by
  obtain ⟨_, hnd, _, hmem⟩ := h
  obtain ⟨_, hnd', _, hmem'⟩ := h'
  rw [List.perm_ext_iff_of_nodup hnd hnd']
  intro a
  rw [hmem a, hmem' a, hst a]

/-- A successful `buddy_alloc` marks exactly one fresh node used; its
`memory` is the returned address and its page count is the request. -/
theorem alloc_some_used {endA : Nat} {n : Int} {s : BuddyState} (hInv : Inv s) {pa : Nat}
    (hret : (buddy_alloc endA n s).ret = some pa) :
    ∃ fin, fin < NODES ∧ (buddy_alloc endA n s).st.state fin = 1 ∧
      nodeMem (PGROUNDUP endA) fin = pa ∧ n = ((nodeSize fin : Nat) : Int) ∧
      s.state fin ≠ 1 ∧
      ∀ v, v ≠ fin → ((buddy_alloc endA n s).st.state v = 1 ↔ s.state v = 1) := by
  obtain ⟨t, m, H, sC, hn0, hnp, ht9, hfs, htm, hmD, hpos, hH, hH3, hHlvl, hHN, hprevH,
    hCst, hCpr, hCnx, hCls, hCsz, hPre, hOut, hSt, hRet⟩ :=
    buddy_alloc_some_elim hInv (by rw [hret]; simp)
  refine ⟨(alloc_splitGo t DEPTH sC H).2, hOut.fin_lt, ?_, ?_, ?_, ?_, ?_⟩
  · rw [hSt]
    show upd (alloc_splitGo t DEPTH sC H).1.state (alloc_splitGo t DEPTH sC H).2 1 _ = 1
    exact upd_same _ _ _
  · rw [hret] at hRet
    injection hRet with h
    exact h.symm
  · rw [hnp, nodeSize_eq_pow _ hOut.fin_lt, hOut.fin_lvl]
  · have h := hOut.fin_not_used
    rw [hCst] at h
    exact h
  · intro v hv
    rw [hSt]
    show (upd (alloc_splitGo t DEPTH sC H).1.state (alloc_splitGo t DEPTH sC H).2 1 v = 1) ↔ _
    rw [upd_ne _ _ _ _ hv]
    have h := hOut.used_iff v hv
    rw [hCst] at h
    exact h

/-- A completed `buddy_free` unmarks exactly the used node covering the
freed address. -/
theorem free_ok_used {endA physTop pa : Nat} {s : BuddyState} (hInv : Inv s)
    (hok : (buddy_free endA physTop pa s).2 = false) :
    ∃ u, u < NODES ∧ s.state u = 1 ∧ nodeMem (PGROUNDUP endA) u = pa ∧
      ∀ v, ((buddy_free endA physTop pa s).1.state v = 1 ↔ (s.state v = 1 ∧ v ≠ u)) := by
  rw [buddy_free_eq] at hok ⊢
  by_cases h1 : pa = 0 ∨ pa % PGSIZE ≠ 0 ∨ pa < endA ∨ physTop ≤ pa
  · rw [if_pos h1] at hok; simp at hok
  rw [if_neg h1] at hok ⊢
  by_cases h2 : s.state (free_locate (PGROUNDUP endA) pa s DEPTH 0) ≠ 1 ∨
      nodeMem (PGROUNDUP endA) (free_locate (PGROUNDUP endA) pa s DEPTH 0) ≠ pa
  · rw [if_pos h2] at hok; simp at hok
  rw [if_neg h2] at hok ⊢
  push_neg at h2
  obtain ⟨hc1, hcmem⟩ := h2
  have hc9 := hInv.used_low _ hc1
  have hc0 : free_locate (PGROUNDUP endA) pa s DEPTH 0 ≠ 0 := by
    intro he
    rw [he, nodeLvl_zero] at hc9
    omega
  rw [if_neg hc0]
  refine ⟨free_locate (PGROUNDUP endA) pa s DEPTH 0, hInv.state1_lt hc1, hc1, hcmem, ?_⟩
  have hP := preFree_of_used hInv hc1
  obtain ⟨hI1, hI2, hI3, hI4, hI5, ⟨j, hj, hjnz⟩, hI7⟩ :=
    coalesceGo_inv DEPTH s (free_locate (PGROUNDUP endA) pa s DEPTH 0) hP
      (by
        have := nodeLvl_le_14 (free_locate (PGROUNDUP endA) pa s DEPTH 0)
        have hD : DEPTH = 15 := rfl
        omega)
  intro v
  show (upd (add_free_node
      (coalesceGo DEPTH s (free_locate (PGROUNDUP endA) pa s DEPTH 0)).1
      (coalesceGo DEPTH s (free_locate (PGROUNDUP endA) pa s DEPTH 0)).2).state
    (coalesceGo DEPTH s (free_locate (PGROUNDUP endA) pa s DEPTH 0)).2 3 v = 1) ↔ _
  rw [add_free_node_state]
  by_cases hv2 : v = (coalesceGo DEPTH s (free_locate (PGROUNDUP endA) pa s DEPTH 0)).2
  · rw [hv2, upd_same]
    constructor
    · intro h; omega
    · rintro ⟨hs1, hne⟩
      exfalso
      cases hj0 : j with
      | zero =>
        apply hne
        rw [hj, hj0]
        rfl
      | succ j2 =>
        have hnz2 : pIter j2 (free_locate (PGROUNDUP endA) pa s DEPTH 0) ≠ 0 := by
          apply hjnz
          omega
        have hanc := anc_inner hInv (by rw [hc1]; omega) (hInv.state1_lt hc1) j2 hnz2
        rw [← hj0, ← hj] at hanc
        omega
  · rw [upd_ne _ _ _ _ hv2]
    by_cases hvu : v = free_locate (PGROUNDUP endA) pa s DEPTH 0
    · constructor
      · intro h
        exfalso
        rcases hI7 with h7 | h7
        · exact hv2 (by rw [hvu, h7])
        · rw [hvu, h7] at h
          omega
      · rintro ⟨_, hne⟩
        exact absurd hvu hne
    · constructor
      · intro h
        refine ⟨?_, hvu⟩
        rcases hI3 v with h3 | h3
        · rw [← h3]; exact h
        · rw [h3] at h; omega
      · rintro ⟨hs1, _⟩
        exact hI4 v hvu hs1

/-- Removal of the first ledger entry with a given address. -/
def ledgerErase (pa : Nat) : List (Nat × Int) → List (Nat × Int)
  | [] => []
  | e :: A => if e.1 = pa then A else e :: ledgerErase pa A

theorem ledgerErase_map_fst (pa : Nat) :
    ∀ A : List (Nat × Int), (ledgerErase pa A).map Prod.fst = (A.map Prod.fst).erase pa := by
  intro A
  induction A with
  | nil => rfl
  | cons e A ih =>
    show (if e.1 = pa then A else e :: ledgerErase pa A).map Prod.fst = _
    by_cases h : e.1 = pa
    · rw [if_pos h, List.map_cons, List.erase_cons, if_pos (by simp [h])]
    · rw [if_neg h, List.map_cons, List.map_cons, List.erase_cons, if_neg (by simp [h]), ih]

theorem ledgerErase_mem (pa : Nat) :
    ∀ (A : List (Nat × Int)) (e : Nat × Int), e ∈ ledgerErase pa A → e ∈ A := by
  intro A
  induction A with
  | nil => intro e h; exact absurd h (List.not_mem_nil e)
  | cons a A ih =>
    intro e h
    rw [show ledgerErase pa (a :: A) =
      if a.1 = pa then A else a :: ledgerErase pa A from rfl] at h
    by_cases hc : a.1 = pa
    · rw [if_pos hc] at h
      exact List.mem_cons_of_mem a h
    · rw [if_neg hc] at h
      rcases List.mem_cons.mp h with h2 | h2
      · rw [h2]; simp
      · exact List.mem_cons_of_mem a (ih e h2)

/-- States reachable from `buddy_init`, together with the ledger of
outstanding allocations: a successful `buddy_alloc` prepends its returned
address and request, a completed `buddy_free` removes the entry of the
freed address. -/
inductive ReachableA (endA physTop : Nat) : BuddyState → List (Nat × Int) → Prop where
  | init : ReachableA endA physTop initState []
  | alloc_ok (n : Int) (pa : Nat) {s : BuddyState} {A : List (Nat × Int)} :
      ReachableA endA physTop s A → (buddy_alloc endA n s).ret = some pa →
      ReachableA endA physTop (buddy_alloc endA n s).st ((pa, n) :: A)
  | alloc_fail (n : Int) {s : BuddyState} {A : List (Nat × Int)} :
      ReachableA endA physTop s A → (buddy_alloc endA n s).ret = none →
      ReachableA endA physTop (buddy_alloc endA n s).st A
  | free (pa : Nat) {s : BuddyState} {A : List (Nat × Int)} :
      ReachableA endA physTop s A → (buddy_free endA physTop pa s).2 = false →
      ReachableA endA physTop (buddy_free endA physTop pa s).1 (ledgerErase pa A)

theorem ReachableA_Reachable {endA physTop : Nat} {s : BuddyState} {A : List (Nat × Int)}
    (h : ReachableA endA physTop s A) : Reachable endA physTop s := by
  induction h with
  | init => exact Reachable.init
  | alloc_ok n pa _ _ ih => exact Reachable.alloc n ih
  | alloc_fail n _ _ ih => exact Reachable.alloc n ih
  | free pa _ hok ih => exact Reachable.free pa ih hok

/-- Every reachable state carries some ledger. -/
theorem Reachable_ReachableA {endA physTop : Nat} {s : BuddyState}
    (h : Reachable endA physTop s) : ∃ A, ReachableA endA physTop s A := by
  induction h with
  | init => exact ⟨[], ReachableA.init⟩
  | @alloc n s1 _ ih =>
    obtain ⟨A, hA⟩ := ih
    cases hr : (buddy_alloc endA n s1).ret with
    | none => exact ⟨A, ReachableA.alloc_fail n hA hr⟩
    | some pa => exact ⟨(pa, n) :: A, ReachableA.alloc_ok n pa hA hr⟩
  | @free pa s1 _ hok ih =>
    obtain ⟨A, hA⟩ := ih
    exact ⟨ledgerErase pa A, ReachableA.free pa hA hok⟩

/-- The ledger matches the used nodes of the state: every entry names a
used node carrying the entry's address and page count, every used node's
address appears, and no two entries share an address. -/
def goodLedger (base : Nat) (s : BuddyState) (A : List (Nat × Int)) : Prop :=
  (∀ e ∈ A, ∃ u, u < NODES ∧ s.state u = 1 ∧ nodeMem base u = e.1 ∧
    e.2 = ((nodeSize u : Nat) : Int)) ∧
  (∀ u, s.state u = 1 → nodeMem base u ∈ A.map Prod.fst) ∧
  (A.map Prod.fst).Nodup

theorem ledger_good {endA physTop : Nat} {s : BuddyState} {A : List (Nat × Int)}
    (h : ReachableA endA physTop s A) : goodLedger (PGROUNDUP endA) s A := by
  induction h with
  | init =>
    refine ⟨?_, ?_, ?_⟩
    · intro e he
      exact absurd he (List.not_mem_nil e)
    · intro u hu
      exfalso
      have hst : initState.state u = if u = 0 then 3 else 0 := by
        have h1 : initState.state = fun id => if id = 0 then 3 else 0 := by
          show (add_free_node _ 0).state = _
          rw [add_free_node_state]
        exact congrFun h1 u
      rw [hst] at hu
      split at hu <;> omega
    · simp
  | @alloc_ok n pa s1 A1 h1 hr ih =>
    have hInv1 : Inv s1 := Reachable_Inv (ReachableA_Reachable h1)
    obtain ⟨fin, hfN, hfused, hfmem, hfsz, hfnot, hfiff⟩ := alloc_some_used hInv1 hr
    have hInvA : Inv (buddy_alloc endA n s1).st := Inv_alloc endA n hInv1
    obtain ⟨ihe, ihu, ihnd⟩ := ih
    refine ⟨?_, ?_, ?_⟩
    · intro e he
      rcases List.mem_cons.mp he with h | h
      · refine ⟨fin, hfN, hfused, ?_, ?_⟩
        · rw [h]; exact hfmem
        · rw [h]; exact hfsz
      · obtain ⟨u, huN, hu1, humem, husz⟩ := ihe e h
        refine ⟨u, huN, ?_, humem, husz⟩
        have hne : u ≠ fin := by
          intro he2
          rw [he2] at hu1
          exact hfnot hu1
        exact (hfiff u hne).mpr hu1
    · intro u hu
      by_cases hne : u = fin
      · rw [hne, hfmem]
        simp
      · have hu1 : s1.state u = 1 := (hfiff u hne).mp hu
        have hm := ihu u hu1
        rw [List.map_cons]
        exact List.mem_cons_of_mem _ hm
    · rw [List.map_cons]
      refine List.nodup_cons.mpr ⟨?_, ihnd⟩
      intro hmem2
      obtain ⟨e, heA, hefst⟩ := List.mem_map.mp hmem2
      obtain ⟨u, huN, hu1, humem, _⟩ := ihe e heA
      have hne : u ≠ fin := by
        intro he2
        rw [he2] at hu1
        exact hfnot hu1
      have huA : (buddy_alloc endA n s1).st.state u = 1 := (hfiff u hne).mpr hu1
      have heq : u = fin := used_mem_unique hInvA huA hfused
        (by rw [humem, hefst, ← hfmem])
      exact hne heq
  | @alloc_fail n s1 A1 h1 hr ih =>
    have hst := buddy_alloc_none_st endA n s1 hr
    rw [hst]
    exact ih
  | @free pa s1 A1 h1 hok ih =>
    have hInv1 : Inv s1 := Reachable_Inv (ReachableA_Reachable h1)
    obtain ⟨u, huN, hu1, humem, hiff⟩ := free_ok_used hInv1 hok
    obtain ⟨ihe, ihu, ihnd⟩ := ih
    refine ⟨?_, ?_, ?_⟩
    · intro e he
      have heA : e ∈ A1 := ledgerErase_mem pa A1 e he
      obtain ⟨v, hvN, hv1, hvmem, hvsz⟩ := ihe e heA
      refine ⟨v, hvN, ?_, hvmem, hvsz⟩
      rw [hiff v]
      refine ⟨hv1, ?_⟩
      intro he2
      have hefst : e.1 = pa := by rw [← hvmem, he2, humem]
      have hfstmem : e.1 ∈ (ledgerErase pa A1).map Prod.fst :=
        List.mem_map_of_mem Prod.fst he
      rw [ledgerErase_map_fst] at hfstmem
      exact ((List.Nodup.mem_erase_iff ihnd).mp hfstmem).1 hefst
    · intro v hv
      rw [hiff v] at hv
      obtain ⟨hv1, hvne⟩ := hv
      have hm := ihu v hv1
      rw [ledgerErase_map_fst, List.Nodup.mem_erase_iff ihnd]
      refine ⟨?_, hm⟩
      intro he2
      exact hvne (used_mem_unique hInv1 hv1 hu1 (by rw [he2, humem]))
    · rw [ledgerErase_map_fst]
      exact List.Nodup.erase pa ihnd

/-! ## The claims -/

/-- C1.  Disjointness: in every state reachable from `buddy_init` by any
sequence of `buddy_alloc` and `buddy_free` calls, any two outstanding
allocations — entries at distinct positions of the ledger, recording the
returned address and the requested page count — occupy disjoint byte
ranges `[paᵢ, paᵢ + nᵢ * PGSIZE)`. -/
theorem spec_C1_disjointness {endA physTop : Nat} {s : BuddyState}
    {A B₁ B₂ B₃ : List (Nat × Int)} {pa₁ pa₂ : Nat} {n₁ n₂ : Int}
    (h : ReachableA endA physTop s A)
    (hA : A = B₁ ++ (pa₁, n₁) :: B₂ ++ (pa₂, n₂) :: B₃) :
    pa₁ + n₁.toNat * PGSIZE ≤ pa₂ ∨ pa₂ + n₂.toNat * PGSIZE ≤ pa₁ := by
  have hInv := Reachable_Inv (ReachableA_Reachable h)
  obtain ⟨he, _, hnd⟩ := ledger_good h
  have he1 : (pa₁, n₁) ∈ A := by rw [hA]; simp
  have he2 : (pa₂, n₂) ∈ A := by rw [hA]; simp
  obtain ⟨u₁, hu1N, hu1, hm1, hs1⟩ := he (pa₁, n₁) he1
  obtain ⟨u₂, hu2N, hu2, hm2, hs2⟩ := he (pa₂, n₂) he2
  have hm1' : nodeMem (PGROUNDUP endA) u₁ = pa₁ := hm1
  have hm2' : nodeMem (PGROUNDUP endA) u₂ = pa₂ := hm2
  have hs1' : n₁ = ((nodeSize u₁ : Nat) : Int) := hs1
  have hs2' : n₂ = ((nodeSize u₂ : Nat) : Int) := hs2
  have hpane : pa₁ ≠ pa₂ := by
    rw [hA] at hnd
    have hmap : (B₁ ++ (pa₁, n₁) :: B₂ ++ (pa₂, n₂) :: B₃).map Prod.fst =
        B₁.map Prod.fst ++ pa₁ :: (B₂.map Prod.fst ++ pa₂ :: B₃.map Prod.fst) := by
      simp
    rw [hmap] at hnd
    have hsub : (pa₁ :: (B₂.map Prod.fst ++ pa₂ :: B₃.map Prod.fst)).Nodup :=
      List.Nodup.sublist (List.sublist_append_right _ _) hnd
    have hnotin := (List.nodup_cons.mp hsub).1
    intro he
    apply hnotin
    rw [he]
    exact List.mem_append.mpr (Or.inr (by simp))
  have hune : u₁ ≠ u₂ := by
    intro he
    apply hpane
    rw [← hm1', ← hm2', he]
  have hd := used_disjoint (PGROUNDUP endA) hInv hu1 hu2 hune
  have ht1 : n₁.toNat = nodeSize u₁ := by rw [hs1']; exact Int.toNat_ofNat _
  have ht2 : n₂.toNat = nodeSize u₂ := by rw [hs2']; exact Int.toNat_ofNat _
  rw [← hm1', ← hm2', ht1, ht2]
  exact hd

theorem spec_C1_disjointness_witness :
    8192 + (1 : Int).toNat * PGSIZE ≤ 4096 ∨ 4096 + (1 : Int).toNat * PGSIZE ≤ 8192 := by
  have h0 : ReachableA 4096 67112960 initState [] := ReachableA.init
  have h1 : ReachableA 4096 67112960 (buddy_alloc 4096 1 initState).st [(4096, 1)] :=
    ReachableA.alloc_ok 1 4096 h0 (by decide)
  have h2 : ReachableA 4096 67112960
      (buddy_alloc 4096 1 (buddy_alloc 4096 1 initState).st).st [(8192, 1), (4096, 1)] :=
    ReachableA.alloc_ok 1 8192 h1 (by decide)
  exact spec_C1_disjointness h2
    (show ([(8192, (1 : Int)), (4096, (1 : Int))] : List (Nat × Int)) =
      ([] ++ ((8192, (1 : Int)) :: [])) ++ ((4096, (1 : Int)) :: []) from rfl)

/-- C2.  Successful allocation: for a valid power-of-two request
`n = 2 ^ t`, the call finds the smallest level `m ≥ t` with a positive
count, removes the head `H` of that level's list (the new head is `H`'s
successor, the count drops by one, `H`'s own pointers are cleared), then
walks down marking each node of the left spine inner, marking each right
child free and pushing it at the head of its level's list, marks the node
reached at level `t` used, and returns that node's `memory`, which equals
`H`'s `memory`. -/
theorem spec_C2_alloc_success (endA : Nat) (n : Int) {s : BuddyState} (hInv : Inv s)
    (hret : (buddy_alloc endA n s).ret ≠ none) :
    ∃ t m H, n = ((2 ^ t : Nat) : Int) ∧
      t ≤ m ∧ m < DEPTH ∧ 0 < s.sizes m ∧ (∀ l, t ≤ l → l < m → s.sizes l ≤ 0) ∧
      s.lists m = some H ∧ s.state H = 3 ∧ nodeLvl H = m ∧
      (buddy_alloc endA n s).st.lists m = s.nextP H ∧
      (buddy_alloc endA n s).st.sizes m = s.sizes m - 1 ∧
      (buddy_alloc endA n s).st.prevP H = none ∧
      (buddy_alloc endA n s).st.nextP H = none ∧
      (∀ j, j < m - t →
        (buddy_alloc endA n s).st.state (leftIter j H) = 2 ∧
        (buddy_alloc endA n s).st.state (rightId (leftIter j H)) = 3 ∧
        nodeLvl (rightId (leftIter j H)) = m - 1 - j ∧
        (buddy_alloc endA n s).st.lists (m - 1 - j) = some (rightId (leftIter j H)) ∧
        (buddy_alloc endA n s).st.sizes (m - 1 - j) = s.sizes (m - 1 - j) + 1) ∧
      (buddy_alloc endA n s).st.state (leftIter (m - t) H) = 1 ∧
      nodeLvl (leftIter (m - t) H) = t ∧
      (buddy_alloc endA n s).ret = some (nodeMem (PGROUNDUP endA) (leftIter (m - t) H)) ∧
      nodeMem (PGROUNDUP endA) (leftIter (m - t) H) = nodeMem (PGROUNDUP endA) H := by
  obtain ⟨t, m, H, sC, hn0, hnp, ht9, hfs, htm, hmD, hpos, hH, hH3, hHlvl, hHN, hprevH,
    hCst, hCpr, hCnx, hCls, hCsz, hPre, hOut, hSt, hRet⟩ :=
    buddy_alloc_some_elim hInv hret
  have hfin_eq := hOut.fin_eq
  rw [hHlvl] at hfin_eq
  have hfsp := find_splitGo_some (DEPTH - t) t m hfs
  have hmD' : m < 15 := hmD
  have hlne : ∀ j, j < m - t → leftIter j H ≠ (alloc_splitGo t DEPTH sC H).2 := by
    intro j hj
    rw [hfin_eq]
    have h1 : leftIter (m - t) H = leftIter (m - t - j) (leftIter j H) := by
      rw [← leftIter_add]
      congr 1
      omega
    rw [h1]
    have := leftIter_gt (leftIter j H) (j := m - t - j) (by omega)
    omega
  have hrfne : ∀ j, j < m - t →
      rightId (leftIter j H) ≠ (alloc_splitGo t DEPTH sC H).2 := by
    intro j hj he
    rw [hfin_eq] at he
    have h1 : leftIter (m - t) H = leftIter (m - t - j) (leftIter j H) := by
      rw [← leftIter_add]
      congr 1
      omega
    rw [h1] at he
    exact rightId_ne_leftIter (by omega) he.symm
  refine ⟨t, m, H, hnp, htm, hmD, hpos, ?_, hH, hH3, hHlvl, ?_, ?_, ?_, ?_, ?_, ?_, ?_, ?_, ?_⟩
  · intro l h1 h2
    have := hfsp.2.2.2 l h1 h2
    omega
  · -- lists m = s.nextP H
    rw [hSt]
    show (alloc_splitGo t DEPTH sC H).1.lists m = s.nextP H
    rw [hOut.lists_hi m (Or.inr (by rw [hHlvl])), hCls]
    exact upd_same _ _ _
  · -- sizes m decremented
    rw [hSt]
    show (alloc_splitGo t DEPTH sC H).1.sizes m = s.sizes m - 1
    rw [hOut.sizes_hi m (Or.inr (by rw [hHlvl])), hCsz]
    exact upd_same _ _ _
  · -- prevP H cleared
    have hne3 : upd (alloc_splitGo t DEPTH sC H).1.state (alloc_splitGo t DEPTH sC H).2 1 H ≠ 3 := by
      by_cases hmt : m - t = 0
      · have hfh : (alloc_splitGo t DEPTH sC H).2 = H := by
          rw [hfin_eq, hmt]
          rfl
        rw [hfh, upd_same]
        omega
      · have hHfin : H ≠ (alloc_splitGo t DEPTH sC H).2 := by
          rw [hfin_eq]
          have := leftIter_gt H (j := m - t) (by omega)
          omega
        rw [upd_ne _ _ _ _ hHfin]
        have hp := hOut.pushes 0 (by rw [hHlvl]; omega)
        have h0 : (alloc_splitGo t DEPTH sC H).1.state H = 2 := hp.1
        rw [h0]
        omega
    have hcl := hOut.inv.clean H hne3
    rw [hSt]
    show (alloc_splitGo t DEPTH sC H).1.prevP H = none
    exact hcl.1
  · -- nextP H cleared
    have hne3 : upd (alloc_splitGo t DEPTH sC H).1.state (alloc_splitGo t DEPTH sC H).2 1 H ≠ 3 := by
      by_cases hmt : m - t = 0
      · have hfh : (alloc_splitGo t DEPTH sC H).2 = H := by
          rw [hfin_eq, hmt]
          rfl
        rw [hfh, upd_same]
        omega
      · have hHfin : H ≠ (alloc_splitGo t DEPTH sC H).2 := by
          rw [hfin_eq]
          have := leftIter_gt H (j := m - t) (by omega)
          omega
        rw [upd_ne _ _ _ _ hHfin]
        have hp := hOut.pushes 0 (by rw [hHlvl]; omega)
        have h0 : (alloc_splitGo t DEPTH sC H).1.state H = 2 := hp.1
        rw [h0]
        omega
    have hcl := hOut.inv.clean H hne3
    rw [hSt]
    show (alloc_splitGo t DEPTH sC H).1.nextP H = none
    exact hcl.2
  · -- the split chain
    intro j hj
    have hp := hOut.pushes j (by rw [hHlvl]; omega)
    refine ⟨?_, ?_, ?_, ?_, ?_⟩
    · rw [hSt]
      show upd (alloc_splitGo t DEPTH sC H).1.state (alloc_splitGo t DEPTH sC H).2 1 _ = 2
      rw [upd_ne _ _ _ _ (hlne j hj)]
      exact hp.1
    · rw [hSt]
      show upd (alloc_splitGo t DEPTH sC H).1.state (alloc_splitGo t DEPTH sC H).2 1 _ = 3
      rw [upd_ne _ _ _ _ (hrfne j hj)]
      exact hp.2.1
    · have := hp.2.2.1
      rw [hHlvl] at this
      exact this
    · have := hp.2.2.2
      rw [hHlvl] at this
      rw [hSt]
      show (alloc_splitGo t DEPTH sC H).1.lists (m - 1 - j) = _
      exact this
    · rw [hSt]
      show (alloc_splitGo t DEPTH sC H).1.sizes (m - 1 - j) = s.sizes (m - 1 - j) + 1
      rw [hOut.sizes_lo (m - 1 - j) (by omega) (by rw [hHlvl]; omega), hCsz]
      rw [upd_ne _ _ _ _ (by omega : m - 1 - j ≠ m)]
  · -- the reached node is used
    rw [hSt]
    show upd (alloc_splitGo t DEPTH sC H).1.state (alloc_splitGo t DEPTH sC H).2 1 _ = 1
    rw [← hfin_eq]
    exact upd_same _ _ _
  · rw [← hfin_eq]
    exact hOut.fin_lvl
  · rw [← hfin_eq]
    exact hRet
  · rw [← hfin_eq]
    exact hOut.fin_mem (PGROUNDUP endA)

theorem spec_C2_alloc_success_witness :
    ∃ t m H : Nat, (1 : Int) = ((2 ^ t : Nat) : Int) ∧ t ≤ m ∧ m < DEPTH ∧
      initState.lists m = some H := by
  obtain ⟨t, m, H, h1, h2, h3, _, _, h6, _⟩ :=
    spec_C2_alloc_success 4096 1 Inv_initState (by decide)
  exact ⟨t, m, H, h1, h2, h3, h6⟩

/-- C3.  Free algorithm: for a valid address `pa` of an outstanding
allocation (a used node `u` with `memory = pa`), the descent from the root
— left child exactly when the right child's `memory` lies strictly above
`pa` — arrives at `u`, the unique used node whose `memory` equals `pa`;
the call does not panic, the coalescing loop ascends through ancestors of
`u` until the current node is the root or its buddy is not free, and the
result is exactly: run the coalescing loop, push the final node onto its
level's free list, and mark it free. -/
theorem spec_C3_free_path (endA physTop pa u : Nat) {s : BuddyState} (hInv : Inv s)
    (hptr : ¬(pa = 0 ∨ pa % PGSIZE ≠ 0 ∨ pa < endA ∨ physTop ≤ pa))
    (hu : s.state u = 1) (hmem : nodeMem (PGROUNDUP endA) u = pa) :
    free_locate (PGROUNDUP endA) pa s DEPTH 0 = u ∧
    (∀ v, s.state v = 1 → nodeMem (PGROUNDUP endA) v = pa → v = u) ∧
    (buddy_free endA physTop pa s).2 = false ∧
    (∃ j, (coalesceGo DEPTH s u).2 = pIter j u) ∧
    ((coalesceGo DEPTH s u).2 = 0 ∨
      (coalesceGo DEPTH s u).1.state (neighbourId (coalesceGo DEPTH s u).2) ≠ 3) ∧
    (buddy_free endA physTop pa s).1 =
      { add_free_node (coalesceGo DEPTH s u).1 (coalesceGo DEPTH s u).2 with
        state := upd (add_free_node (coalesceGo DEPTH s u).1 (coalesceGo DEPTH s u).2).state
          (coalesceGo DEPTH s u).2 3 } := by
  have hloc : free_locate (PGROUNDUP endA) pa s DEPTH 0 = u :=
    free_locate_spec hInv hu hmem.symm
  have huniq : ∀ v, s.state v = 1 → nodeMem (PGROUNDUP endA) v = pa → v = u := by
    intro v hv hvm
    exact used_mem_unique hInv hv hu (by rw [hvm, hmem])
  have hu0 : u ≠ 0 := used_ne_zero hInv hu
  obtain ⟨_, hstop, _, _, _, ⟨j, hj, _⟩, _⟩ :=
    coalesceGo_inv DEPTH s u (preFree_of_used hInv hu)
      (by
        have := nodeLvl_le_14 u
        have hD : DEPTH = 15 := rfl
        omega)
  refine ⟨hloc, huniq, ?_, ⟨j, hj⟩, hstop, ?_⟩
  · rw [buddy_free_eq, if_neg hptr, hloc,
      if_neg (by push_neg; exact ⟨hu, hmem⟩), if_neg hu0]
  · rw [buddy_free_eq, if_neg hptr, hloc,
      if_neg (by push_neg; exact ⟨hu, hmem⟩), if_neg hu0]

theorem spec_C3_free_path_witness :
    free_locate (PGROUNDUP 4096) 4096 (buddy_alloc 4096 1 initState).st DEPTH 0 = 16383 := by
  have h := spec_C3_free_path 4096 67112960 4096 16383
    (Inv_alloc 4096 1 Inv_initState) (by decide) (by decide) (by decide)
  exact h.1

/-- C4 (amended).  Allocation failure conditions: `buddy_alloc n` returns
null exactly when `n ≤ 0`, or `n > 512` (the compile-time cap of the
reference, not `PAGES / 2`), or `n` is not a power of two, or no level in
`[log2 n, DEPTH)` has a positive count; a null return leaves the state
unchanged, and a rejection due to the conditions on `n` never acquires the
lock. -/
theorem spec_C4_alloc_failure (endA : Nat) (n : Int) (s : BuddyState) :
    ((buddy_alloc endA n s).ret = none ↔
      (n ≤ 0 ∨ 512 < n ∨ (¬∃ k : Nat, n = ((2 ^ k : Nat) : Int)) ∨
       (∃ k : Nat, n = ((2 ^ k : Nat) : Int) ∧ ∀ l, k ≤ l → l < DEPTH → s.sizes l ≤ 0))) ∧
    ((buddy_alloc endA n s).ret = none → (buddy_alloc endA n s).st = s) ∧
    ((n ≤ 0 ∨ 512 < n ∨ ¬∃ k : Nat, n = ((2 ^ k : Nat) : Int)) →
      (buddy_alloc endA n s).locked = false) :=
  ⟨buddy_alloc_none_iff endA n s, buddy_alloc_none_st endA n s,
    buddy_alloc_locked_false endA n s⟩

/-- C4, counterexample to the claim as stated: for `n = 1024` pages in the
freshly initialised state, none of the claimed failure conditions holds —
`n > 0`, `n ≤ PAGES / 2 = 8192`, `n = 2 ^ 10`, and level `14 ∈ [10, DEPTH)`
has a positive count — yet the code returns null, because it rejects every
`n > 512`. -/
theorem spec_C4_cap_counterexample :
    (0 : Int) < 1024 ∧ ¬(((PAGES : Nat) : Int) / 2 < 1024) ∧
    (1024 : Int) = ((2 ^ 10 : Nat) : Int) ∧
    10 ≤ 14 ∧ 14 < DEPTH ∧ 0 < initState.sizes 14 ∧
    (buddy_alloc 0 1024 initState).ret = none := by
  refine ⟨by norm_num, by decide, by norm_num, by norm_num, by decide, by decide, by decide⟩

/-- C5.  `buddy_free` panics exactly when the pointer checks fail (`pa`
null, unaligned, below `end` or at/above `PHYSTOP`) or when the node the
descent locates is not used or has a different `memory` than `pa`; in
every panicking execution the returned state is the input state: nothing
was modified before the panic. -/
theorem spec_C5_free_panic (endA physTop pa : Nat) (s : BuddyState) :
    ((buddy_free endA physTop pa s).2 = true ↔
      ((pa = 0 ∨ pa % PGSIZE ≠ 0 ∨ pa < endA ∨ physTop ≤ pa) ∨
       s.state (free_locate (PGROUNDUP endA) pa s DEPTH 0) ≠ 1 ∨
       nodeMem (PGROUNDUP endA) (free_locate (PGROUNDUP endA) pa s DEPTH 0) ≠ pa)) ∧
    ((buddy_free endA physTop pa s).2 = true → (buddy_free endA physTop pa s).1 = s) := by
  rw [buddy_free_eq]
  by_cases h1 : pa = 0 ∨ pa % PGSIZE ≠ 0 ∨ pa < endA ∨ physTop ≤ pa
  · rw [if_pos h1]
    exact ⟨⟨fun _ => Or.inl h1, fun _ => rfl⟩, fun _ => rfl⟩
  rw [if_neg h1]
  by_cases h2 : s.state (free_locate (PGROUNDUP endA) pa s DEPTH 0) ≠ 1 ∨
      nodeMem (PGROUNDUP endA) (free_locate (PGROUNDUP endA) pa s DEPTH 0) ≠ pa
  · rw [if_pos h2]
    exact ⟨⟨fun _ => Or.inr h2, fun _ => rfl⟩, fun _ => rfl⟩
  · rw [if_neg h2]
    by_cases h3 : free_locate (PGROUNDUP endA) pa s DEPTH 0 = 0
    · rw [if_pos h3]
      constructor
      · constructor
        · intro hfalse
          simp at hfalse
        · intro hor
          rcases hor with h | h
          · exact absurd h h1
          · exact absurd h h2
      · intro hfalse
        simp at hfalse
    · rw [if_neg h3]
      constructor
      · constructor
        · intro hfalse
          simp at hfalse
        · intro hor
          rcases hor with h | h
          · exact absurd h h1
          · exact absurd h h2
      · intro hfalse
        simp at hfalse

/-- C6.  Postcondition of `buddy_init`: node 0 is free with level
`DEPTH - 1`, size `PAGES`, `memory` the page-aligned `end`, itself as
parent and neighbour, and is the sole element of level `DEPTH - 1`'s free
list (count 1); every other level is empty with count 0; every node
`id ≥ 1` is nonexistent, has level one less and size half of its parent's,
inherits the parent's `memory` as an odd (left) child or offsets it by
`size * PGSIZE` as an even (right) child, has neighbour `id + 1` (odd) or
`id - 1` (even), and has children exactly when `2 * id + 2 < NODES`. -/
theorem spec_C6_init_post (endA : Nat) :
    initState.state 0 = 3 ∧
    nodeLvl 0 = DEPTH - 1 ∧
    nodeSize 0 = PAGES ∧
    nodeMem (PGROUNDUP endA) 0 = PGROUNDUP endA ∧
    parentId 0 = 0 ∧
    neighbourId 0 = 0 ∧
    initState.lists (DEPTH - 1) = some 0 ∧
    initState.prevP 0 = none ∧
    initState.nextP 0 = none ∧
    initState.sizes (DEPTH - 1) = 1 ∧
    (∀ l, l < DEPTH - 1 → initState.lists l = none ∧ initState.sizes l = 0) ∧
    ∀ id, 1 ≤ id → id < NODES →
      initState.state id = 0 ∧
      nodeLvl id = nodeLvl (parentId id) - 1 ∧
      nodeSize id = nodeSize (parentId id) / 2 ∧
      (id % 2 = 1 → nodeMem (PGROUNDUP endA) id = nodeMem (PGROUNDUP endA) (parentId id) ∧
        neighbourId id = id + 1) ∧
      (id % 2 = 0 → nodeMem (PGROUNDUP endA) id =
        nodeMem (PGROUNDUP endA) (parentId id) + nodeSize id * PGSIZE ∧
        neighbourId id = id - 1) ∧
      leftChild id = (if 2 * id + 2 < NODES then some (2 * id + 1) else none) ∧
      rightChild id = (if 2 * id + 2 < NODES then some (2 * id + 2) else none) := by
  have hiff : ∀ idd : Nat, idd < NODES / 2 ↔ 2 * idd + 2 < NODES := by
    intro idd
    have hN : NODES = 32767 := by norm_num [NODES, PAGES]
    rw [hN]
    omega
  refine ⟨by decide, by decide, by decide, rfl, rfl, rfl, by decide, by decide, by decide,
    by decide, by decide, ?_⟩
  intro id h1 h2
  obtain ⟨id', rfl⟩ : ∃ id', id = id' + 1 := ⟨id - 1, by omega⟩
  refine ⟨?_, nodeLvl_succ id', nodeSize_succ id', ?_, ?_, ?_, ?_⟩
  · have hst : initState.state = fun idd => if idd = 0 then 3 else 0 :=
      add_free_node_state _ _
    rw [hst]
    show (if id' + 1 = 0 then (3 : Nat) else 0) = 0
    rw [if_neg (by omega)]
  · intro hodd
    constructor
    · rw [nodeMem_succ, if_pos hodd]
    · unfold neighbourId
      rw [if_neg (by omega), if_pos hodd]
  · intro heven
    constructor
    · rw [nodeMem_succ, if_neg (by omega)]
    · unfold neighbourId
      rw [if_neg (by omega), if_neg (by omega)]
  · unfold leftChild
    by_cases hc : id' + 1 < NODES / 2
    · rw [if_pos hc, if_pos ((hiff (id' + 1)).mp hc)]
      rfl
    · rw [if_neg hc, if_neg (fun hcon => hc ((hiff (id' + 1)).mpr hcon))]
  · unfold rightChild
    by_cases hc : id' + 1 < NODES / 2
    · rw [if_pos hc, if_pos ((hiff (id' + 1)).mp hc)]
      rfl
    · rw [if_neg hc, if_neg (fun hcon => hc ((hiff (id' + 1)).mpr hcon))]

theorem spec_C6_init_post_witness :
    initState.state 7 = 0 ∧ nodeLvl 7 = nodeLvl (parentId 7) - 1 := by
  have h := (spec_C6_init_post 0).2.2.2.2.2.2.2.2.2.2.2 7 (by decide) (by decide)
  exact ⟨h.1, h.2.1⟩

/-- C7.  Free-list consistency: in every reachable state, for every level
`l < DEPTH` the chain headed at `lists l` is a correctly doubly linked
list (each element's `prev` points at its predecessor, the head's `prev`
is null), has no duplicates, its length is `sizes l`, and it contains
exactly the nodes that are free at level `l`. -/
theorem spec_C7_freelists (endA physTop : Nat) {s : BuddyState}
    (h : Reachable endA physTop s) (l : Nat) (hl : l < DEPTH) :
    ∃ L, dllFrom s none (s.lists l) L ∧ L.Nodup ∧ s.sizes l = (L.length : Int) ∧
      ∀ id, id ∈ L ↔ (s.state id = 3 ∧ nodeLvl id = l) :=
  (Reachable_Inv h).freelists l hl

theorem spec_C7_freelists_witness :
    ∃ L, dllFrom initState none (initState.lists 14) L ∧ L.Nodup ∧
      initState.sizes 14 = (L.length : Int) ∧
      ∀ id, id ∈ L ↔ (initState.state id = 3 ∧ nodeLvl id = 14) :=
  spec_C7_freelists 0 0 Reachable.init 14 (by decide)

/-- C8.  Round-trip: whenever `buddy_alloc n` succeeds in a reachable
state (with the physical range wide enough to hold the arena), freeing the
returned address completes without panic and restores, for every level,
the per-level count and the free-list membership as a multiset (the lists
before and after are permutations). -/
theorem spec_C8_roundtrip {endA physTop : Nat} (n : Int) {s : BuddyState} {pa : Nat}
    (hR : Reachable endA physTop s) (hend : 0 < endA)
    (htop : PGROUNDUP endA + PAGES * PGSIZE ≤ physTop)
    (hret : (buddy_alloc endA n s).ret = some pa) :
    (buddy_free endA physTop pa (buddy_alloc endA n s).st).2 = false ∧
    ∀ l, l < DEPTH →
      (buddy_free endA physTop pa (buddy_alloc endA n s).st).1.sizes l = s.sizes l ∧
      ∃ L L', freeListAt s l L ∧
        freeListAt (buddy_free endA physTop pa (buddy_alloc endA n s).st).1 l L' ∧
        L.Perm L' := by
  have hInv := Reachable_Inv hR
  obtain ⟨hok, hstate⟩ := roundtrip_state hInv hend htop hret
  refine ⟨hok, ?_⟩
  intro l hl
  have hInvA : Inv (buddy_alloc endA n s).st := Inv_alloc endA n hInv
  have hInvF := Inv_free endA physTop pa hInvA hok
  obtain ⟨L, hL⟩ := hInv.freelists l hl
  obtain ⟨L', hL'⟩ := hInvF.freelists l hl
  have hperm := freeListAt_perm hstate hL hL'
  obtain ⟨hdll', hnd', hsz', hmem'⟩ := hL'
  obtain ⟨hdll, hnd, hsz, hmem⟩ := hL
  constructor
  · rw [hsz', ← List.Perm.length_eq hperm, ← hsz]
  · exact ⟨L, L', ⟨hdll, hnd, hsz, hmem⟩, ⟨hdll', hnd', hsz', hmem'⟩, hperm⟩

theorem spec_C8_roundtrip_witness :
    (buddy_free 4096 67112960 4096 (buddy_alloc 4096 1 initState).st).2 = false := by
  have h := spec_C8_roundtrip 1 Reachable.init
    (by decide : (0 : Nat) < 4096)
    (by decide : PGROUNDUP 4096 + PAGES * PGSIZE ≤ 67112960)
    (by decide : (buddy_alloc 4096 1 initState).ret = some 4096)
  exact h.1

/-- C9.  Eager coalescing: in every reachable state, no two sibling nodes
(distinct nodes sharing a parent) are both free. -/
theorem spec_C9_eager (endA physTop : Nat) {s : BuddyState}
    (h : Reachable endA physTop s) (u v : Nat) (hu : 0 < u) (hv : 0 < v)
    (hne : u ≠ v) (hpar : parentId u = parentId v) :
    ¬(s.state u = 3 ∧ s.state v = 3) := by
  rintro ⟨h3u, h3v⟩
  have hInv := Reachable_Inv h
  have hnb : v = neighbourId u := by
    unfold parentId at hpar
    unfold neighbourId
    rw [if_neg (by omega)]
    by_cases hp : u % 2 = 1
    · rw [if_pos hp]; omega
    · rw [if_neg hp]; omega
  exact hInv.eager u hu h3u (by rw [← hnb]; exact h3v)

theorem spec_C9_eager_witness :
    ¬(initState.state 1 = 3 ∧ initState.state 2 = 3) :=
  spec_C9_eager 0 0 Reachable.init 1 2 (by decide) (by decide) (by decide) (by decide)

/-- C10.  No node at level 10 or above — in particular the root — is ever
used in a reachable state, because `buddy_alloc` rejects every `n > 512`;
consequently a non-panicking `buddy_free` never locates the root, so the
root-release branch (`id == 0`) of `buddy_free` is unreachable. -/
theorem spec_C10_no_root_used (endA physTop : Nat) {s : BuddyState}
    (h : Reachable endA physTop s) :
    (∀ id, s.state id = 1 → nodeLvl id ≤ 9) ∧
    (∀ pa, (buddy_free endA physTop pa s).2 = false →
      free_locate (PGROUNDUP endA) pa s DEPTH 0 ≠ 0) := by
  have hInv := Reachable_Inv h
  refine ⟨hInv.used_low, ?_⟩
  intro pa hok
  rw [buddy_free_eq] at hok
  by_cases h1 : pa = 0 ∨ pa % PGSIZE ≠ 0 ∨ pa < endA ∨ physTop ≤ pa
  · rw [if_pos h1] at hok
    simp at hok
  rw [if_neg h1] at hok
  by_cases h2 : s.state (free_locate (PGROUNDUP endA) pa s DEPTH 0) ≠ 1 ∨
      nodeMem (PGROUNDUP endA) (free_locate (PGROUNDUP endA) pa s DEPTH 0) ≠ pa
  · rw [if_pos h2] at hok
    simp at hok
  push_neg at h2
  have h9 := hInv.used_low _ h2.1
  intro he
  rw [he, nodeLvl_zero] at h9
  omega

theorem spec_C10_no_root_used_witness :
    free_locate (PGROUNDUP 4096) 4096 (buddy_alloc 4096 1 initState).st DEPTH 0 ≠ 0 :=
  (spec_C10_no_root_used 4096 67112960 (Reachable.alloc 1 Reachable.init)).2 4096
    (by decide)

end BuddyAlloc
